import Mathlib

/-!
# Flacon disc conversion pipeline (src/converter/discpipline.cpp)

A shallow embedding of `Conv::DiscPipeline`: the per-track state map, the two
request queues, the album-gain buffer, the interrupted flag and the signals the
object emits.  Every member function of the class becomes a function on the
record `DiscPipeline`; the signals and the calls made to collaborators
(worker threads, MetadataWriter, QFile) are appended to the field `events`,
oldest first, so that what a call emits can be read off the state.

Outcomes decided outside the class are arguments of the functions: whether a
rename succeeds, whether the short tasks of `startSplitter` throw, whether a
directory can be created.
-/

namespace Conv

/-- The states of a track, `TrackState` in the source (the eleven enumerators
that the switch statements of `interrupt` and `isRunning` list). -/
inductive TrackState
  | NotRunning
  | Canceled
  | Error
  | Aborted
  | OK
  | Splitting
  | Encoding
  | Queued
  | WaitGain
  | CalcGain
  | WriteGain
  deriving DecidableEq, Repr, Inhabited

/-- The gain mode of a profile, `GainType` in the source. -/
inductive GainType
  | Disable
  | Track
  | Album
  deriving DecidableEq, Repr, Inhabited

/-- Modelled from the spec: the declaration of `PreGapType` (types.h) is not
among the sources.  The code names `PreGapType::Skip`; the spec gives the other
mode as extracting the pregap as a distinct leading region. -/
inductive PreGapType
  | Skip
  | ExtractToFile
  deriving DecidableEq, Repr, Inhabited

/-- The spec's terminal states: OK, Canceled, Error, Aborted. -/
def TrackState.isTerminal : TrackState → Bool
  | .OK => true
  | .Canceled => true
  | .Error => true
  | .Aborted => true
  | _ => false

/-- The spec's transient states: every state that is not terminal. -/
def TrackState.isTransient (st : TrackState) : Bool := !st.isTerminal

/-- The first case group of the switch in `DiscPipeline::isRunning`
(lines 419-425): the states for which the function returns true. -/
def TrackState.countsAsRunning : TrackState → Bool
  | .Splitting => true
  | .Encoding => true
  | .Queued => true
  | .WaitGain => true
  | .CalcGain => true
  | .WriteGain => true
  | .NotRunning => false
  | .Canceled => false
  | .Error => false
  | .Aborted => false
  | .OK => false

/-- The first case group of the switch in `DiscPipeline::interrupt`
(lines 365-374): the states that the function overwrites. -/
def TrackState.interruptible : TrackState → Bool
  | .Splitting => true
  | .Encoding => true
  | .Queued => true
  | .WaitGain => true
  | .CalcGain => true
  | .WriteGain => true
  | .NotRunning => true
  | .Canceled => false
  | .Error => false
  | .Aborted => false
  | .OK => false

/-- A replay-gain measurement, `ReplayGain::Result`: the pair (gain, peak).
The two floating-point figures are carried as integer codes; the pipeline
only stores them and hands them on. -/
structure GainResult where
  gain : Int
  peak : Int
  deriving DecidableEq, Repr, Inhabited

/-- What the pipeline reads of a `ConvTrack`: `index()`, the position of cue
index 01 in milliseconds, the channel count of its audio file and
`resultFilePath()`. -/
structure ConvTrack where
  index : Nat
  cueIndex1Ms : Nat
  channelsCount : Nat
  resultFilePath : String
  deriving DecidableEq, Repr, Inhabited

/-- What the pipeline reads of a `Profile`. -/
structure Profile where
  gainType : GainType
  isCreateCue : Bool
  preGapType : PreGapType
  deriving DecidableEq, Repr, Inhabited

/-- An encode request and an album-gain record, `Request` in the source. -/
structure Request where
  track : ConvTrack
  inputFile : String
  deriving DecidableEq, Repr, Inhabited

/-- A split request, `SplitterRequest` in the source. -/
structure SplitterRequest where
  tracks : List ConvTrack
  outDir : String
  pregapType : PreGapType
  deriving DecidableEq, Repr, Inhabited

/-- Signals emitted by the pipeline and calls it makes to its collaborators. -/
inductive Event
  | trackProgressChanged (track : Nat) (state : TrackState) (percent : Int)
  | finished
  | stopAllThreads
  | threadFinished
  | readyStart
  | errorMessage (message : String)
  | splitterStarted (request : SplitterRequest)
  | encoderStarted (track : Nat) (inputFile : String) (outFile : String) (viaWriteGain : Bool)
  | trackReplayGain (file : String) (gain : GainResult)
  | albumReplayGain (file : String) (gain : GainResult)
  | fileRemoved (path : String)
  | fileRenamed (source : String) (target : String) (ok : Bool)
  deriving DecidableEq, Repr, Inhabited

/-! ## The track-state map

`mTrackStates` is a Qt map from track index to `TrackState`: keys are unique
and kept in ascending order.  `operator[]` on a missing key yields the default
value, the enumerator with value 0, which is `NotRunning`. -/

/-- Ordered insertion of a key, replacing the value of a key already there. -/
def insertEntry (k : Nat) (v : TrackState) : List (Nat × TrackState) → List (Nat × TrackState)
  | [] => [(k, v)]
  | e :: r =>
    if k < e.1 then (k, v) :: e :: r
    else if k = e.1 then (k, v) :: r
    else e :: insertEntry k v r

/-- Lookup of a key. -/
def lookupEntry (k : Nat) : List (Nat × TrackState) → Option TrackState
  | [] => none
  | e :: r => if k = e.1 then some e.2 else lookupEntry k r

/-- Keys strictly ascending. -/
def KeysAscending (l : List (Nat × TrackState)) : Prop :=
  l.Pairwise (fun a b => a.1 < b.1)

theorem mem_insertEntry {k : Nat} {v : TrackState} {l : List (Nat × TrackState)}
    {e : Nat × TrackState} (h : e ∈ insertEntry k v l) : e = (k, v) ∨ e ∈ l := by
  induction l with
  | nil => simp [insertEntry] at h; exact Or.inl h
  | cons a r ih =>
    unfold insertEntry at h
    split_ifs at h with h1 h2
    · rcases List.mem_cons.1 h with h | h
      · exact Or.inl h
      · exact Or.inr h
    · rcases List.mem_cons.1 h with h | h
      · exact Or.inl h
      · exact Or.inr (List.mem_cons_of_mem _ h)
    · rcases List.mem_cons.1 h with h | h
      · exact Or.inr (h ▸ List.mem_cons_self _ _)
      · rcases ih h with h | h
        · exact Or.inl h
        · exact Or.inr (List.mem_cons_of_mem _ h)

theorem keysAscending_insertEntry (k : Nat) (v : TrackState) (l : List (Nat × TrackState))
    (h : KeysAscending l) : KeysAscending (insertEntry k v l) := by
  induction l with
  | nil => simp [insertEntry, KeysAscending]
  | cons a r ih =>
    unfold KeysAscending at h ih ⊢
    rw [List.pairwise_cons] at h
    unfold insertEntry
    split_ifs with h1 h2
    · refine List.pairwise_cons.2 ⟨?_, List.pairwise_cons.2 h⟩
      intro b hb
      rcases List.mem_cons.1 hb with hb | hb
      · subst hb; exact h1
      · exact lt_trans h1 (h.1 b hb)
    · refine List.pairwise_cons.2 ⟨?_, h.2⟩
      intro b hb
      have := h.1 b hb
      simpa [h2] using this
    · refine List.pairwise_cons.2 ⟨?_, ih h.2⟩
      intro b hb
      rcases mem_insertEntry hb with hb | hb
      · subst hb
        show a.1 < k
        omega
      · exact h.1 b hb

/-- The map `mTrackStates`. -/
structure StateMap where
  entries : List (Nat × TrackState)
  ascending : KeysAscending entries

instance : DecidableEq StateMap := fun a b =>
  if h : a.entries = b.entries then
    isTrue (by cases a; cases b; cases h; rfl)
  else
    isFalse (fun hab => h (by rw [hab]))

/-- The empty map. -/
def StateMap.empty : StateMap := ⟨[], List.Pairwise.nil⟩

/-- Assignment `m[k] = v`. -/
def StateMap.set (m : StateMap) (k : Nat) (v : TrackState) : StateMap :=
  ⟨insertEntry k v m.entries, keysAscending_insertEntry k v m.entries m.ascending⟩

/-- Lookup without a default: `none` for a key that is absent. -/
def StateMap.find (m : StateMap) (k : Nat) : Option TrackState :=
  lookupEntry k m.entries

/-- Read access `m[k]`: the default value `NotRunning` for a key that is absent. -/
def StateMap.get (m : StateMap) (k : Nat) : TrackState :=
  (m.find k).getD TrackState.NotRunning

/-- The values of the map, in key order. -/
def StateMap.values (m : StateMap) : List TrackState :=
  m.entries.map Prod.snd

/-! ## Paths

The pipeline forms paths with `QFileInfo` and `QDir`.  Paths are taken to be
absolute with `/` as separator. -/

/-- The file name of a path: what follows the last `/`. -/
def fileNameChars (path : List Char) : List Char :=
  (path.reverse.takeWhile (fun c => c ≠ '/')).reverse

/-- The text of `QFileInfo(path).fileName()`. -/
def fileName (path : String) : String := String.mk (fileNameChars path.data)

/-- The text of `QFileInfo(path).baseName()`: the file name up to its first `.`. -/
def baseName (path : String) : String :=
  String.mk ((fileNameChars path.data).takeWhile (fun c => c ≠ '.'))

/-- The text of `QFileInfo(path).suffix()`: what follows the last `.` of the file
name, empty when the file name has no `.`. -/
def suffix (path : String) : String :=
  let name := fileNameChars path.data
  if name.contains '.' then String.mk ((name.reverse.takeWhile (fun c => c ≠ '.')).reverse)
  else ""

/-- The text of `QFileInfo(path).absoluteDir().path()`: what precedes the last
`/`, and `/` itself for a file directly under the root. -/
def dirName (path : String) : String :=
  let rest := (path.data.reverse.dropWhile (fun c => c ≠ '/')).drop 1
  if rest.isEmpty then "/" else String.mk rest.reverse

/-- The text of `QDir(dir).filePath(name)`. -/
def filePath (dir : String) (name : String) : String :=
  if name.data.head? = some '/' then name
  else if dir.data.getLast? = some '/' then dir ++ name
  else dir ++ "/" ++ name

/-! ## The pipeline object -/

/-- The data members of `DiscPipeline` that the member functions below read or
write, and the log of what the object has emitted. -/
structure DiscPipeline where
  mProfile : Profile
  mTracks : List ConvTrack
  mTmpDir : String
  mTrackStates : StateMap
  mSplitterRequests : List SplitterRequest
  mEncoderRequests : List Request
  mAlbumGainRequests : List Request
  mAlbumGain : List GainResult
  mInterrupted : Bool
  events : List Event
  deriving DecidableEq

/-- Outcomes decided by collaborators: `QFile::rename` (the error string of a
failed rename of source to target, `none` on success); the combination
function of the album-gain aggregator, `mAlbumGain.result()`, over the results
added so far; and the tag writer.  `createMetadataWriter(file)` and `save()`
can throw a `FlaconError` (metadatawriter.cpp, lines 223 and 233):
`trackTagError file` is the message of the error thrown while the track
replay-gain tag of `file` is written and `albumTagError file` the one thrown
while its album replay-gain tag is written, `none` when the tag is saved. -/
structure Env where
  renameError : String → String → Option String
  albumResult : List GainResult → GainResult
  trackTagError : String → Option String
  albumTagError : String → Option String

/-- Appends one event to the log. -/
def DiscPipeline.emit (s : DiscPipeline) (e : Event) : DiscPipeline :=
  { s with events := s.events ++ [e] }

/-- The state of the track with index `i`, `mTrackStates[i]`. -/
def DiscPipeline.trackState (s : DiscPipeline) (i : Nat) : TrackState :=
  s.mTrackStates.get i

/-- Assignment `mTrackStates[i] = st`. -/
def DiscPipeline.setTrackState (s : DiscPipeline) (i : Nat) (st : TrackState) : DiscPipeline :=
  { s with mTrackStates := s.mTrackStates.set i st }

/-- `DiscPipeline::hasPregap` (lines 532-536).  `mTracks.first()` has no value
on an empty list. -/
def DiscPipeline.hasPregap (s : DiscPipeline) : Option Bool :=
  match s.mTracks with
  | [] => none
  | t :: _ => some (t.index == 0 && decide (t.cueIndex1Ms > 0))

/-- `DiscPipeline::addSpliterRequest` (lines 178-185). -/
def DiscPipeline.addSpliterRequest (s : DiscPipeline) : Option DiscPipeline :=
  match s.hasPregap with
  | none => none
  | some pregap =>
    let outDir := s.mTmpDir
    let pregapType :=
      if pregap && s.mProfile.isCreateCue then s.mProfile.preGapType else PreGapType.Skip
    some { s with mSplitterRequests := s.mSplitterRequests ++ [⟨s.mTracks, outDir, pregapType⟩] }

/-- The loop of the constructor (lines 119-129); `dirError` is the outcome of
`createDir`, which throws for a directory that cannot be created or written. -/
def DiscPipeline.addTracks (dirError : String → Option String) :
    DiscPipeline → List ConvTrack → Except String DiscPipeline
  | s, [] => Except.ok s
  | s, t :: ts =>
    let s1 : DiscPipeline :=
      if t.channelsCount > 2 then
        { s with mProfile := { s.mProfile with gainType := GainType.Disable } }
      else s
    let s2 : DiscPipeline :=
      { s1 with mTracks := s1.mTracks ++ [t],
                mTrackStates := s1.mTrackStates.set t.index TrackState.NotRunning }
    match dirError (dirName t.resultFilePath) with
    | some err => Except.error err
    | none => DiscPipeline.addTracks dirError s2 ts

/-- The constructor `DiscPipeline::DiscPipeline` (lines 104-132).  `dir` is the
directory of the work dir, `tmpDir` the path of the temporary directory made
under it. -/
def DiscPipeline.create (profile : Profile) (tracks : List ConvTrack) (dir : String)
    (tmpDir : String) (dirError : String → Option String) : Except String DiscPipeline :=
  match dirError dir with
  | some err => Except.error err
  | none =>
    let s0 : DiscPipeline :=
      { mProfile := profile, mTracks := [], mTmpDir := tmpDir, mTrackStates := StateMap.empty,
        mSplitterRequests := [], mEncoderRequests := [], mAlbumGainRequests := [],
        mAlbumGain := [], mInterrupted := false, events := [] }
    match DiscPipeline.addTracks dirError s0 tracks with
    | Except.error err => Except.error err
    | Except.ok s =>
      match s.addSpliterRequest with
      | none => Except.error "no tracks"
      | some s1 => Except.ok s1

/-- `DiscPipeline::trackProgress` (lines 455-462). -/
def DiscPipeline.trackProgress (s : DiscPipeline) (track : ConvTrack) (state : TrackState)
    (percent : Int) : DiscPipeline :=
  if s.mInterrupted then s
  else (s.setTrackState track.index state).emit (Event.trackProgressChanged track.index state percent)

/-- One iteration of the loop of `interrupt` (lines 364-381). -/
def DiscPipeline.interruptTrack (state : TrackState) (s : DiscPipeline) (track : ConvTrack) :
    DiscPipeline :=
  if (s.trackState track.index).interruptible then
    (s.setTrackState track.index state).emit (Event.trackProgressChanged track.index state 0)
  else s

/-- `DiscPipeline::interrupt` (lines 358-383). -/
def DiscPipeline.interrupt (s : DiscPipeline) (state : TrackState) : DiscPipeline :=
  let s1 : DiscPipeline := { s with mInterrupted := true, mEncoderRequests := [] }
  s1.mTracks.foldl (DiscPipeline.interruptTrack state) s1

/-- `DiscPipeline::stop` (lines 388-395). -/
def DiscPipeline.stop (s : DiscPipeline) : DiscPipeline :=
  (((s.interrupt TrackState.Aborted).emit Event.stopAllThreads).emit
    Event.threadFinished).emit Event.finished

/-- `DiscPipeline::trackError` (lines 400-410). -/
def DiscPipeline.trackError (s : DiscPipeline) (track : ConvTrack) (message : String) :
    DiscPipeline :=
  let s1 := s.setTrackState track.index TrackState.Error
  let s2 := s1.emit (Event.trackProgressChanged track.index TrackState.Error 0)
  let s3 := s2.interrupt TrackState.Aborted
  let s4 := s3.emit Event.stopAllThreads
  let s5 := s4.emit Event.threadFinished
  let s6 := s5.emit Event.finished
  s6.emit (Event.errorMessage message)

/-- `DiscPipeline::isRunning` (lines 415-437). -/
def DiscPipeline.isRunning (s : DiscPipeline) : Bool :=
  s.mTrackStates.values.any TrackState.countsAsRunning

/-- `DiscPipeline::trackDone` (lines 309-333). -/
def DiscPipeline.trackDone (env : Env) (s : DiscPipeline) (track : ConvTrack)
    (outFileName : String) : DiscPipeline :=
  let s1 := s.emit (Event.fileRemoved track.resultFilePath)
  let s2 :=
    match env.renameError outFileName track.resultFilePath with
    | some err =>
      (s1.emit (Event.fileRenamed outFileName track.resultFilePath false)).trackError track
        ("I can't rename file:\n" ++ outFileName ++ " to " ++ track.resultFilePath ++ "\n" ++ err)
    | none => s1.emit (Event.fileRenamed outFileName track.resultFilePath true)
  let s3 := s2.setTrackState track.index TrackState.OK
  let s4 := s3.emit (Event.trackProgressChanged track.index TrackState.OK 0)
  let s5 := s4.emit Event.threadFinished
  if !s5.isRunning then s5.emit Event.finished else s5

/-- What an iteration of the loop that ends `writeGain` does once the album tag
of the record is saved (lines 297-302): the tag write is logged and `trackDone`
is called for the record. -/
def DiscPipeline.albumTagged (env : Env) (s : DiscPipeline) (r : Request) : DiscPipeline :=
  (s.emit (Event.albumReplayGain r.inputFile (env.albumResult s.mAlbumGain))).trackDone env
    r.track r.inputFile

/-- One iteration of the loop that ends `writeGain` (lines 294-303).  The second
component is the message of the `FlaconError` that the tag writer throws, which
nothing catches: the iteration is left with the state as it is, before
`trackDone`. -/
def DiscPipeline.writeAlbumGain (env : Env) (s : DiscPipeline) (r : Request) :
    DiscPipeline × Option String :=
  match env.albumTagError r.inputFile with
  | some err => (s, some err)
  | none => (s.albumTagged env r, none)

/-- The loop that ends `writeGain` (lines 294-303): it runs over the buffered
records and is left at the first iteration whose tag writer throws. -/
def DiscPipeline.writeAlbumGainLoop (env : Env) : DiscPipeline → List Request →
    DiscPipeline × Option String
  | s, [] => (s, none)
  | s, r :: rs =>
    match s.writeAlbumGain env r with
    | (s1, some err) => (s1, some err)
    | (s1, none) => DiscPipeline.writeAlbumGainLoop env s1 rs

/-- The buffering step of `writeGain` in album mode (lines 286-288): the gain
is added to the aggregator, the track moves to WaitGain and the request is
appended to `mAlbumGainRequests`. -/
def DiscPipeline.bufferAlbumGain (s : DiscPipeline) (track : ConvTrack) (fileName : String)
    (trackGain : GainResult) : DiscPipeline :=
  let s2 : DiscPipeline := { s with mAlbumGain := s.mAlbumGain ++ [trackGain] }
  let s3 := s2.trackProgress track TrackState.WaitGain 0
  { s3 with mAlbumGainRequests := s3.mAlbumGainRequests ++ [⟨track, fileName⟩] }

/-- `DiscPipeline::writeGain` (lines 272-304).  The result is the state in which
control leaves the function and the message of the `FlaconError` that leaves it
with, `none` on a normal return: the tag writer of lines 276-279 and the one of
the loop can throw, and `writeGain` has no handler. -/
def DiscPipeline.writeGain (env : Env) (s : DiscPipeline) (track : ConvTrack)
    (fileName : String) (trackGain : GainResult) : DiscPipeline × Option String :=
  match env.trackTagError fileName with
  | some err => (s, some err)
  | none =>
    let s1 := s.emit (Event.trackReplayGain fileName trackGain)
    if s1.mProfile.gainType ≠ GainType.Album then (s1.trackDone env track fileName, none)
    else
      let s4 := s1.bufferAlbumGain track fileName trackGain
      if s4.mAlbumGainRequests.length < s4.mTracks.length then (s4, none)
      else DiscPipeline.writeAlbumGainLoop env s4 s4.mAlbumGainRequests

/-- `DiscPipeline::addEncoderRequest` (lines 225-230). -/
def DiscPipeline.addEncoderRequest (s : DiscPipeline) (track : ConvTrack) (inputFile : String) :
    DiscPipeline :=
  let s1 : DiscPipeline := { s with mEncoderRequests := s.mEncoderRequests ++ [⟨track, inputFile⟩] }
  (s1.trackProgress track TrackState.Queued 0).emit Event.readyStart

/-- `DiscPipeline::startEncoder` (lines 235-267): the encoder thread is started
with the output file computed at line 238; its ready signal goes to `writeGain`
unless the gain mode is `Disable`. -/
def DiscPipeline.startEncoder (s : DiscPipeline) (track : ConvTrack) (inputFile : String) :
    DiscPipeline :=
  let outFile :=
    filePath s.mTmpDir (baseName inputFile ++ ".encoded." ++ suffix track.resultFilePath)
  s.emit (Event.encoderStarted track.index inputFile outFile
    (decide (s.mProfile.gainType ≠ GainType.Disable)))

/-- The loop of `startSplitter` over the tracks of the request (lines 205-207). -/
def DiscPipeline.markSplitting (s : DiscPipeline) (tracks : List ConvTrack) : DiscPipeline :=
  tracks.foldl
    (fun (acc : DiscPipeline) (t : ConvTrack) => acc.setTrackState t.index TrackState.Splitting) s

/-- `DiscPipeline::startSplitter` (lines 190-220).  `tasksError` is the message
of the `FlaconError` thrown by one of the four short tasks, `none` when none of
them throws.  `request.tracks.first()` has no value on an empty list; the
constructor never builds such a request. -/
def DiscPipeline.startSplitter (s : DiscPipeline) (request : SplitterRequest)
    (tasksError : Option String) : DiscPipeline :=
  let s1 := s.emit (Event.splitterStarted request)
  let s2 := s1.markSplitting request.tracks
  match tasksError, request.tracks with
  | some err, t :: _ => s2.trackError t err
  | _, _ => s2

/-- The while loop of `startWorker` (lines 167-171), by recursion on the encode
queue; the second component is the value left in `*count`. -/
def DiscPipeline.startEncoders (s : DiscPipeline) (count : Int) :
    List Request → DiscPipeline × Int
  | [] => ({ s with mEncoderRequests := [] }, count)
  | req :: rest =>
    if count > 0 then
      DiscPipeline.startEncoders
        (DiscPipeline.startEncoder { s with mEncoderRequests := rest } req.track req.inputFile)
        (count - 1) rest
    else ({ s with mEncoderRequests := req :: rest }, count)

/-- `DiscPipeline::startWorker` (lines 149-172).  The result carries the values
left in `*splitterCount` and `*count`. -/
def DiscPipeline.startWorker (s : DiscPipeline) (splitterCount : Int) (count : Int)
    (tasksError : Option String) : DiscPipeline × Int × Int :=
  if s.mInterrupted then (s, splitterCount, count)
  else if count ≤ 0 then (s, splitterCount, count)
  else
    match decide (splitterCount > 0), s.mSplitterRequests with
    | true, req :: rest =>
      (DiscPipeline.startSplitter { s with mSplitterRequests := rest } req tasksError,
        splitterCount - 1, count - 1)
    | _, _ =>
      let r := DiscPipeline.startEncoders s count s.mEncoderRequests
      (r.1, splitterCount, r.2)

/-- The operations of the orchestrator and the events delivered to it. -/
inductive Op
  | startWorker (splitterCount : Int) (count : Int) (tasksError : Option String)
  | addEncoderRequest (track : ConvTrack) (inputFile : String)
  | trackProgress (track : ConvTrack) (state : TrackState) (percent : Int)
  | writeGain (track : ConvTrack) (fileName : String) (trackGain : GainResult)
  | trackDone (track : ConvTrack) (outFileName : String)
  | trackError (track : ConvTrack) (message : String)
  | interrupt (state : TrackState)
  | stop

/-- One step of the pipeline.  For `writeGain` the step ends in the state in
which control leaves the function, by a return or by the exception of the tag
writer; the run goes on from that state. -/
def DiscPipeline.step (env : Env) (s : DiscPipeline) : Op → DiscPipeline
  | Op.startWorker splitterCount count tasksError =>
    (s.startWorker splitterCount count tasksError).1
  | Op.addEncoderRequest track inputFile => s.addEncoderRequest track inputFile
  | Op.trackProgress track state percent => s.trackProgress track state percent
  | Op.writeGain track fileName trackGain => (s.writeGain env track fileName trackGain).1
  | Op.trackDone track outFileName => s.trackDone env track outFileName
  | Op.trackError track message => s.trackError track message
  | Op.interrupt state => s.interrupt state
  | Op.stop => s.stop

/-- A run: the steps of a list of operations, in order. -/
def DiscPipeline.run (env : Env) (s : DiscPipeline) (ops : List Op) : DiscPipeline :=
  ops.foldl (DiscPipeline.step env) s

/-- The states that a run of operations reaches from a constructed pipeline. -/
def Reachable (env : Env) (s : DiscPipeline) : Prop :=
  ∃ (profile : Profile) (tracks : List ConvTrack) (dir : String) (tmpDir : String)
    (dirError : String → Option String) (s0 : DiscPipeline) (ops : List Op),
    DiscPipeline.create profile tracks dir tmpDir dirError = Except.ok s0 ∧
      DiscPipeline.run env s0 ops = s

/-- How often the signal `finished` is in a log. -/
def finishedCount (events : List Event) : Nat :=
  events.count Event.finished

/-- Whether an event is the start of a split worker. -/
def Event.isSplitterStart : Event → Bool
  | Event.splitterStarted _ => true
  | _ => false

/-- Whether an event is the start of an encode worker. -/
def Event.isEncoderStart : Event → Bool
  | Event.encoderStarted _ _ _ _ => true
  | _ => false

/-- How many split workers a log shows started. -/
def splitterStarts (events : List Event) : Nat :=
  events.countP Event.isSplitterStart

/-- How many encode workers a log shows started. -/
def encoderStarts (events : List Event) : Nat :=
  events.countP Event.isEncoderStart

/-- The event that `startEncoder` logs for a request in state `s`. -/
def DiscPipeline.encoderEvent (s : DiscPipeline) (req : Request) : Event :=
  Event.encoderStarted req.track.index req.inputFile
    (filePath s.mTmpDir (baseName req.inputFile ++ ".encoded." ++ suffix req.track.resultFilePath))
    (decide (s.mProfile.gainType ≠ GainType.Disable))

/-- The fields that only the constructor, `startWorker` and `writeGain` write:
profile, track list, temporary directory, split queue, aggregator and
album-gain buffer are the same in both states. -/
def DiscPipeline.SameConfig (s s' : DiscPipeline) : Prop :=
  s'.mProfile = s.mProfile ∧ s'.mTracks = s.mTracks ∧ s'.mTmpDir = s.mTmpDir ∧
  s'.mSplitterRequests = s.mSplitterRequests ∧ s'.mAlbumGain = s.mAlbumGain ∧
  s'.mAlbumGainRequests = s.mAlbumGainRequests

/-! ## Reading the log, and runs that the wiring allows -/

/-- The album replay-gain tag that an event writes: file and (gain, peak). -/
def Event.albumGainWrite : Event → Option (String × GainResult)
  | Event.albumReplayGain file gain => some (file, gain)
  | _ => none

/-- The track replay-gain tag that an event writes: file and (gain, peak). -/
def Event.trackGainWrite : Event → Option (String × GainResult)
  | Event.trackReplayGain file gain => some (file, gain)
  | _ => none

/-- The rename that an event makes: source, target and whether it succeeded. -/
def Event.rename : Event → Option (String × String × Bool)
  | Event.fileRenamed source target ok => some (source, target, ok)
  | _ => none

/-- The album replay-gain tag writes of a log, in order. -/
def albumGainWrites (events : List Event) : List (String × GainResult) :=
  events.filterMap Event.albumGainWrite

/-- The track replay-gain tag writes of a log, in order. -/
def trackGainWrites (events : List Event) : List (String × GainResult) :=
  events.filterMap Event.trackGainWrite

/-- The renames of a log, in order. -/
def renames (events : List Event) : List (String × String × Bool) :=
  events.filterMap Event.rename

/-- Whether an event belongs to the finalization of a track: an album tag
write, the removal of the old file, the rename, or the progress event that
reports state OK. -/
def Event.isFinalization : Event → Bool
  | Event.albumReplayGain _ _ => true
  | Event.fileRemoved _ => true
  | Event.fileRenamed _ _ _ => true
  | Event.trackProgressChanged _ TrackState.OK _ => true
  | _ => false

/-- Whether an event is one of the signals of the pipeline or the error
message, as opposed to a call to a worker, a tag writer or the file system. -/
def Event.isSignal : Event → Bool
  | Event.trackProgressChanged _ _ _ => true
  | Event.finished => true
  | Event.stopAllThreads => true
  | Event.threadFinished => true
  | Event.readyStart => true
  | Event.errorMessage _ => true
  | _ => false

/-- From `s` to `s'` the track list and the profile are kept, the log is
extended by events that satisfy `q`, and every track state either is kept or
satisfies `p`. -/
def DiscPipeline.Advances (p : TrackState → Prop) (q : Event → Prop) (s s' : DiscPipeline) :
    Prop :=
  s'.mTracks = s.mTracks ∧ s'.mProfile = s.mProfile ∧
  (∃ extra, s'.events = s.events ++ extra ∧ ∀ e ∈ extra, q e) ∧
  (∀ i, s'.trackState i = s.trackState i ∨ p (s'.trackState i))

/-- The states that the handlers other than the finalization write: every
state but NotRunning and OK. -/
def workState (st : TrackState) : Prop :=
  st ≠ TrackState.NotRunning ∧ st ≠ TrackState.OK

/-- An event that does not belong to the finalization of a track. -/
def notFinalization (e : Event) : Prop := e.isFinalization = false

/-- What can be delivered in state `s`.  `startWorker` and `stop` are the public
entry points.  The other handlers are slots connected to worker signals in
`startSplitter` (lines 196-200) and `startEncoder` (lines 250-260): they run
only once a worker was started, a progress signal reports a state of work in
progress, and the ready signal of an encoder goes to `writeGain` when the gain
mode is not `Disable` and to `trackDone` when it is.  `interrupt` is called
only from `stop` and `trackError`. -/
def DiscPipeline.admits (s : DiscPipeline) : Op → Bool
  | Op.startWorker _ _ _ => true
  | Op.stop => true
  | Op.interrupt _ => false
  | Op.addEncoderRequest _ _ => decide (0 < splitterStarts s.events)
  | Op.trackProgress _ state _ => decide (0 < splitterStarts s.events) && state.countsAsRunning
  | Op.trackError _ _ => decide (0 < splitterStarts s.events)
  | Op.writeGain _ _ _ =>
    decide (0 < splitterStarts s.events) && decide (s.mProfile.gainType ≠ GainType.Disable)
  | Op.trackDone _ _ =>
    decide (0 < splitterStarts s.events) && decide (s.mProfile.gainType = GainType.Disable)

/-- Whether each operation of a run can be delivered in the state it meets. -/
def DiscPipeline.admissibleRun (env : Env) : DiscPipeline → List Op → Bool
  | _, [] => true
  | s, op :: ops => s.admits op && DiscPipeline.admissibleRun env (s.step env op) ops

/-- The states that a run which the wiring allows reaches from a constructed
pipeline. -/
def WorkerReachable (env : Env) (s : DiscPipeline) : Prop :=
  ∃ (profile : Profile) (tracks : List ConvTrack) (dir : String) (tmpDir : String)
    (dirError : String → Option String) (s0 : DiscPipeline) (ops : List Op),
    DiscPipeline.create profile tracks dir tmpDir dirError = Except.ok s0 ∧
      s0.admissibleRun env ops = true ∧ DiscPipeline.run env s0 ops = s

/-- No track of the run is NotRunning. -/
def DiscPipeline.Started (s : DiscPipeline) : Prop :=
  ∀ t ∈ s.mTracks, s.trackState t.index ≠ TrackState.NotRunning

/-- The invariant of the runs that the wiring allows: as long as no splitter was
started every queued split request lists the tracks of the run, and once one
was started no track of the run is NotRunning. -/
def DiscPipeline.WiringInvariant (s : DiscPipeline) : Prop :=
  (splitterStarts s.events = 0 → ∀ req ∈ s.mSplitterRequests, req.tracks = s.mTracks) ∧
  (0 < splitterStarts s.events → s.Started)

/-- The encode-ready events of a run, as buffered requests, in arrival order. -/
def reportedRequests : List Op → List Request
  | [] => []
  | Op.writeGain track fileName _ :: ops => ⟨track, fileName⟩ :: reportedRequests ops
  | _ :: ops => reportedRequests ops

/-- The encode-ready events of a run whose track replay-gain tag is saved, as
buffered requests, in arrival order. -/
def bufferedRequests (env : Env) (ops : List Op) : List Request :=
  (reportedRequests ops).filter (fun r => (env.trackTagError r.inputFile).isNone)

/-- An encode-ready event: track, encoded file and measured gain. -/
structure Arrival where
  track : ConvTrack
  fileName : String
  gain : GainResult
  deriving DecidableEq, Repr, Inhabited

/-- The record that `writeGain` buffers for an encode-ready event. -/
def Arrival.request (a : Arrival) : Request := ⟨a.track, a.fileName⟩

/-- The handling of a sequence of encode-ready events by `writeGain`. -/
def DiscPipeline.writeGainRun (env : Env) (s : DiscPipeline) (arrivals : List Arrival) :
    DiscPipeline :=
  arrivals.foldl (fun acc a => (acc.writeGain env a.track a.fileName a.gain).1) s

/-- What one iteration of the loop of `writeGain` logs when the rename succeeds
and another track is still running: the album tag write, the removal of the old
file, the rename, the OK progress event and `threadFinished`. -/
def finalizeEvents (albumGain : GainResult) (r : Request) : List Event :=
  [Event.albumReplayGain r.inputFile albumGain, Event.fileRemoved r.track.resultFilePath,
    Event.fileRenamed r.inputFile r.track.resultFilePath true,
    Event.trackProgressChanged r.track.index TrackState.OK 0, Event.threadFinished]

/-- Modelled from the spec: the class of the aggregator `mAlbumGain` is not
among the sources.  The spec gives it as accumulating the gain records and
exposing "a pure combination function mapping the full set of N (gain, peak)
pairs to one album-level (gain, peak) pair": a function of the collection of
records, not of the order in which they were added. -/
structure GainAggregator where
  combine : Multiset GainResult → GainResult

/-- The collaborators with the aggregator of the spec: `mAlbumGain.result()`
combines the records added so far. -/
def GainAggregator.toEnv (agg : GainAggregator) (renameError : String → String → Option String)
    (trackTagError albumTagError : String → Option String) : Env :=
  ⟨renameError, fun added => agg.combine (added : Multiset GainResult), trackTagError,
    albumTagError⟩

/-! ## Encode requests and encoder starts -/

/-- The track index and input file of an encoder start in the log. -/
def Event.encoderStart : Event → Option (Nat × String)
  | Event.encoderStarted track inputFile _ _ => some (track, inputFile)
  | _ => none

/-- The encoders that a log shows started, oldest first. -/
def startedEncoders (events : List Event) : List (Nat × String) :=
  events.filterMap Event.encoderStart

/-- The track index and input file of the requests of an encode queue. -/
def queuedEncoders (queue : List Request) : List (Nat × String) :=
  queue.map (fun r => (r.track.index, r.inputFile))

/-- The track index and input file that an operation enqueues: those of an
encode-ready event delivered to `addEncoderRequest`. -/
def Op.enqueued : Op → Option (Nat × String)
  | Op.addEncoderRequest track inputFile => some (track.index, inputFile)
  | _ => none

/-- What the operations of a run enqueue, in the order of the run. -/
def enqueuedEncoders (ops : List Op) : List (Nat × String) :=
  ops.filterMap Op.enqueued

/-- From `s` to `s'` no encoder is started, and the encode queue is kept or
emptied. -/
def DiscPipeline.KeepsEncoders (s s' : DiscPipeline) : Prop :=
  startedEncoders s'.events = startedEncoders s.events ∧
  (s'.mEncoderRequests = s.mEncoderRequests ∨ s'.mEncoderRequests = [])

/-! ## The worker thread -/

/-- What the destructor of `WorkerThread` calls, in the order of the calls. -/
inductive TeardownAction
  | quit
  | wait (ms : Nat)
  | warning (message : String)
  | terminate
  | deleteLater
  deriving DecidableEq, Repr, Inhabited

/-- `WorkerThread::~WorkerThread` (lines 81-91) as the list of its calls.
`firstWait` and `secondWait` are what the two calls of `wait(3000)` return:
`true` when the thread has finished within the time, `false` on a timeout.  The
second is read only when the first is `false`. -/
def WorkerThread.destructor (firstWait secondWait : Bool) : List TeardownAction :=
  [TeardownAction.quit, TeardownAction.wait 3000] ++
    (if !firstWait then
      [TeardownAction.warning "Can't quit from thread", TeardownAction.terminate,
        TeardownAction.wait 3000] ++
        (if !secondWait then [TeardownAction.warning "Can't terminate from thread"] else [])
    else []) ++
    [TeardownAction.deleteLater]

/-! ## Sample data for the concrete checks -/

/-- A stereo track with index 0 whose index 01 is at 0 ms. -/
def sampleTrackA : ConvTrack := ⟨0, 0, 2, "/out/a.flac"⟩

/-- A stereo track with index 1. -/
def sampleTrackB : ConvTrack := ⟨1, 1000, 2, "/out/b.flac"⟩

/-- A profile without replay gain. -/
def sampleProfile : Profile := ⟨GainType.Disable, true, PreGapType.ExtractToFile⟩

/-- Collaborators with which every rename succeeds. -/
def renamesSucceed : Env := ⟨fun _ _ => none, fun _ => ⟨0, 0⟩, fun _ => none, fun _ => none⟩

/-- Collaborators with which every rename fails. -/
def renamesFail : Env :=
  ⟨fun _ _ => some "Permission denied", fun _ => ⟨0, 0⟩, fun _ => none, fun _ => none⟩

/-- The pipeline that the constructor builds for one track. -/
def oneTrackStart : DiscPipeline :=
  { mProfile := sampleProfile, mTracks := [sampleTrackA], mTmpDir := "/work/tmp",
    mTrackStates := StateMap.empty.set 0 TrackState.NotRunning,
    mSplitterRequests := [⟨[sampleTrackA], "/work/tmp", PreGapType.Skip⟩],
    mEncoderRequests := [], mAlbumGainRequests := [], mAlbumGain := [],
    mInterrupted := false, events := [] }

/-- The pipeline that the constructor builds for two tracks. -/
def twoTrackStart : DiscPipeline :=
  { mProfile := sampleProfile, mTracks := [sampleTrackA, sampleTrackB], mTmpDir := "/work/tmp",
    mTrackStates := (StateMap.empty.set 0 TrackState.NotRunning).set 1 TrackState.NotRunning,
    mSplitterRequests := [⟨[sampleTrackA, sampleTrackB], "/work/tmp", PreGapType.Skip⟩],
    mEncoderRequests := [], mAlbumGainRequests := [], mAlbumGain := [],
    mInterrupted := false, events := [] }

/-- One track: the splitter was started, the track was split and its encoder
was started. -/
def oneTrackEncoding : DiscPipeline :=
  DiscPipeline.run renamesSucceed oneTrackStart
    [Op.startWorker 1 2 none, Op.addEncoderRequest sampleTrackA "/work/tmp/a.wav",
      Op.startWorker 0 2 none, Op.trackProgress sampleTrackA TrackState.Encoding 50]

/-- Two tracks: both were split and both encoders were started. -/
def twoTracksEncoding : DiscPipeline :=
  DiscPipeline.run renamesSucceed twoTrackStart
    [Op.startWorker 1 2 none, Op.addEncoderRequest sampleTrackA "/work/tmp/a.wav",
      Op.addEncoderRequest sampleTrackB "/work/tmp/b.wav", Op.startWorker 0 2 none,
      Op.trackProgress sampleTrackA TrackState.Encoding 10,
      Op.trackProgress sampleTrackB TrackState.Encoding 10]

/-- Two tracks, both encoding, after the encoder of the first reported an error. -/
def twoTracksFirstFailed : DiscPipeline :=
  DiscPipeline.step renamesSucceed twoTracksEncoding (Op.trackError sampleTrackA "encoder failed")

/-- Two tracks: both were split but no encoder was started yet. -/
def twoTracksQueued : DiscPipeline :=
  DiscPipeline.run renamesSucceed twoTrackStart
    [Op.startWorker 1 2 none, Op.addEncoderRequest sampleTrackA "/work/tmp/a.wav",
      Op.addEncoderRequest sampleTrackB "/work/tmp/b.wav"]

/-- A third stereo track, with index 2. -/
def sampleTrackC : ConvTrack := ⟨2, 2000, 2, "/out/c.flac"⟩

/-- A profile with album replay gain. -/
def albumProfile : Profile := ⟨GainType.Album, true, PreGapType.ExtractToFile⟩

/-- A profile with track replay gain. -/
def trackGainProfile : Profile := ⟨GainType.Track, true, PreGapType.ExtractToFile⟩

/-- A track with index 1 whose audio has six channels. -/
def surroundTrack : ConvTrack := ⟨1, 1000, 6, "/out/s.flac"⟩

/-- A stereo track with index 0 whose index 01 is at 1500 ms: it has a pregap. -/
def pregapTrack : ConvTrack := ⟨0, 1500, 2, "/out/p.flac"⟩

/-- A profile that extracts the pregap but writes no cue file. -/
def noCueProfile : Profile := ⟨GainType.Disable, false, PreGapType.ExtractToFile⟩

/-- An aggregator for the concrete checks: the smallest gain and the largest
peak of the records, (0, 0) for no record. -/
def sampleAggregator : GainAggregator :=
  ⟨fun added => ⟨(added.map GainResult.gain).fold min 0, (added.map GainResult.peak).fold max 0⟩⟩

/-- Collaborators with the sample aggregator, every rename succeeding. -/
def albumEnv : Env := sampleAggregator.toEnv (fun _ _ => none) (fun _ => none) (fun _ => none)

/-- Collaborators with the sample aggregator, every rename succeeding, with a
tag writer that throws when it saves the album tag of the file of track 3. -/
def albumTagFails : Env :=
  sampleAggregator.toEnv (fun _ _ => none) (fun _ => none)
    (fun file => if file = "/work/tmp/c.encoded.flac" then some "Can't save file" else none)

/-- Collaborators with which every rename succeeds and the tag writer throws
for every track replay-gain tag. -/
def trackTagFails : Env :=
  ⟨fun _ _ => none, fun _ => ⟨0, 0⟩, fun _ => some "Can't open file", fun _ => none⟩

/-- The pipeline that the constructor builds for three tracks in album-gain
mode. -/
def albumStart : DiscPipeline :=
  { mProfile := albumProfile, mTracks := [sampleTrackA, sampleTrackB, sampleTrackC],
    mTmpDir := "/work/tmp",
    mTrackStates := ((StateMap.empty.set 0 TrackState.NotRunning).set 1
      TrackState.NotRunning).set 2 TrackState.NotRunning,
    mSplitterRequests := [⟨[sampleTrackA, sampleTrackB, sampleTrackC], "/work/tmp",
      PreGapType.Skip⟩],
    mEncoderRequests := [], mAlbumGainRequests := [], mAlbumGain := [],
    mInterrupted := false, events := [] }

/-- The operations that bring the three album tracks to state Encoding. -/
def albumEncodingOps : List Op :=
  [Op.startWorker 1 3 none, Op.addEncoderRequest sampleTrackA "/work/tmp/a.wav",
    Op.addEncoderRequest sampleTrackB "/work/tmp/b.wav",
    Op.addEncoderRequest sampleTrackC "/work/tmp/c.wav", Op.startWorker 0 3 none,
    Op.trackProgress sampleTrackA TrackState.Encoding 10,
    Op.trackProgress sampleTrackB TrackState.Encoding 10,
    Op.trackProgress sampleTrackC TrackState.Encoding 10]

/-- Three album tracks, all encoding. -/
def albumEncoding : DiscPipeline := DiscPipeline.run albumEnv albumStart albumEncodingOps

/-- The encode-ready events of the second and the third track: the first two
arrivals. -/
def firstTwoArrivals : List Arrival :=
  [⟨sampleTrackB, "/work/tmp/b.encoded.flac", ⟨-6, 90⟩⟩,
    ⟨sampleTrackC, "/work/tmp/c.encoded.flac", ⟨-4, 95⟩⟩]

/-- The encode-ready event of the first track: the third arrival. -/
def lastArrival : Arrival := ⟨sampleTrackA, "/work/tmp/a.encoded.flac", ⟨-5, 80⟩⟩

/-- Three album tracks after the first two arrivals. -/
def albumTwoReported : DiscPipeline := albumEncoding.writeGainRun albumEnv firstTwoArrivals

/-- The pipeline that the constructor builds for two tracks in track-gain
mode. -/
def trackGainStart : DiscPipeline := { twoTrackStart with mProfile := trackGainProfile }

/-- The operations that bring the two sample tracks to state Encoding. -/
def twoTracksEncodingOps : List Op :=
  [Op.startWorker 1 2 none, Op.addEncoderRequest sampleTrackA "/work/tmp/a.wav",
    Op.addEncoderRequest sampleTrackB "/work/tmp/b.wav", Op.startWorker 0 2 none,
    Op.trackProgress sampleTrackA TrackState.Encoding 10,
    Op.trackProgress sampleTrackB TrackState.Encoding 10]

/-- Two tracks in track-gain mode, both encoding. -/
def trackGainEncoding : DiscPipeline :=
  DiscPipeline.run renamesSucceed trackGainStart twoTracksEncodingOps

/-! ## The state map: lookup after assignment -/

theorem lookupEntry_insertEntry (k k' : Nat) (v : TrackState) (l : List (Nat × TrackState)) :
    lookupEntry k' (insertEntry k v l) = if k' = k then some v else lookupEntry k' l := by
  induction l with
  | nil => simp [insertEntry, lookupEntry]
  | cons e r ih =>
    unfold insertEntry
    split_ifs with h1 h2 h3 h3 h3
    all_goals simp only [lookupEntry, ih]
    all_goals split_ifs <;> first | rfl | omega

theorem StateMap.get_set (m : StateMap) (k k' : Nat) (v : TrackState) :
    (m.set k v).get k' = if k' = k then v else m.get k' := by
  unfold StateMap.get StateMap.find StateMap.set
  simp only [lookupEntry_insertEntry]
  split_ifs <;> rfl

theorem lookupEntry_eq_some_iff (l : List (Nat × TrackState)) (h : KeysAscending l) (k : Nat)
    (v : TrackState) : lookupEntry k l = some v ↔ (k, v) ∈ l := by
  induction l with
  | nil => simp [lookupEntry]
  | cons e r ih =>
    unfold KeysAscending at h ih
    rw [List.pairwise_cons] at h
    unfold lookupEntry
    split_ifs with h1
    · constructor
      · intro hv
        have : e = (k, v) := by
          cases e; simp only [Option.some.injEq] at hv; simp_all
        rw [this]; exact List.mem_cons_self _ _
      · intro hm
        rcases List.mem_cons.1 hm with hm | hm
        · rw [← hm]
        · have := h.1 _ hm
          simp only at this
          omega
    · rw [ih h.2]
      constructor
      · exact fun hm => List.mem_cons_of_mem _ hm
      · intro hm
        rcases List.mem_cons.1 hm with hm | hm
        · exact absurd (by rw [← hm]) h1
        · exact hm

/-! ## Fields after the elementary updates -/

@[simp] theorem DiscPipeline.trackState_emit (s : DiscPipeline) (e : Event) (i : Nat) :
    (s.emit e).trackState i = s.trackState i := rfl

@[simp] theorem DiscPipeline.events_emit (s : DiscPipeline) (e : Event) :
    (s.emit e).events = s.events ++ [e] := rfl

@[simp] theorem DiscPipeline.mInterrupted_emit (s : DiscPipeline) (e : Event) :
    (s.emit e).mInterrupted = s.mInterrupted := rfl

@[simp] theorem DiscPipeline.mEncoderRequests_emit (s : DiscPipeline) (e : Event) :
    (s.emit e).mEncoderRequests = s.mEncoderRequests := rfl

@[simp] theorem DiscPipeline.mSplitterRequests_emit (s : DiscPipeline) (e : Event) :
    (s.emit e).mSplitterRequests = s.mSplitterRequests := rfl

@[simp] theorem DiscPipeline.mTracks_emit (s : DiscPipeline) (e : Event) :
    (s.emit e).mTracks = s.mTracks := rfl

@[simp] theorem DiscPipeline.mTrackStates_emit (s : DiscPipeline) (e : Event) :
    (s.emit e).mTrackStates = s.mTrackStates := rfl

@[simp] theorem DiscPipeline.mAlbumGain_emit (s : DiscPipeline) (e : Event) :
    (s.emit e).mAlbumGain = s.mAlbumGain := rfl

@[simp] theorem DiscPipeline.mAlbumGainRequests_emit (s : DiscPipeline) (e : Event) :
    (s.emit e).mAlbumGainRequests = s.mAlbumGainRequests := rfl

@[simp] theorem DiscPipeline.mProfile_emit (s : DiscPipeline) (e : Event) :
    (s.emit e).mProfile = s.mProfile := rfl

@[simp] theorem DiscPipeline.events_setTrackState (s : DiscPipeline) (i : Nat) (st : TrackState) :
    (s.setTrackState i st).events = s.events := rfl

@[simp] theorem DiscPipeline.mInterrupted_setTrackState (s : DiscPipeline) (i : Nat)
    (st : TrackState) : (s.setTrackState i st).mInterrupted = s.mInterrupted := rfl

@[simp] theorem DiscPipeline.mEncoderRequests_setTrackState (s : DiscPipeline) (i : Nat)
    (st : TrackState) : (s.setTrackState i st).mEncoderRequests = s.mEncoderRequests := rfl

@[simp] theorem DiscPipeline.mSplitterRequests_setTrackState (s : DiscPipeline) (i : Nat)
    (st : TrackState) : (s.setTrackState i st).mSplitterRequests = s.mSplitterRequests := rfl

@[simp] theorem DiscPipeline.mTracks_setTrackState (s : DiscPipeline) (i : Nat)
    (st : TrackState) : (s.setTrackState i st).mTracks = s.mTracks := rfl

@[simp] theorem DiscPipeline.mTrackStates_setTrackState (s : DiscPipeline) (i : Nat)
    (st : TrackState) : (s.setTrackState i st).mTrackStates = s.mTrackStates.set i st := rfl

theorem DiscPipeline.trackState_setTrackState (s : DiscPipeline) (k i : Nat) (st : TrackState) :
    (s.setTrackState k st).trackState i = if i = k then st else s.trackState i := by
  unfold DiscPipeline.trackState DiscPipeline.setTrackState
  exact StateMap.get_set _ _ _ _

/-! ## The loop of `interrupt` -/

/-- What the loop of `interrupt` leaves alone. -/
theorem DiscPipeline.interruptLoop_frame (st : TrackState) (tracks : List ConvTrack) :
    ∀ s : DiscPipeline,
      (tracks.foldl (DiscPipeline.interruptTrack st) s).mInterrupted = s.mInterrupted ∧
      (tracks.foldl (DiscPipeline.interruptTrack st) s).mEncoderRequests = s.mEncoderRequests ∧
      (tracks.foldl (DiscPipeline.interruptTrack st) s).mSplitterRequests = s.mSplitterRequests ∧
      (tracks.foldl (DiscPipeline.interruptTrack st) s).mTracks = s.mTracks ∧
      (tracks.foldl (DiscPipeline.interruptTrack st) s).mAlbumGainRequests = s.mAlbumGainRequests ∧
      (tracks.foldl (DiscPipeline.interruptTrack st) s).mAlbumGain = s.mAlbumGain ∧
      (tracks.foldl (DiscPipeline.interruptTrack st) s).mProfile = s.mProfile ∧
      (tracks.foldl (DiscPipeline.interruptTrack st) s).mTmpDir = s.mTmpDir := by
  induction tracks with
  | nil => intro s; simp
  | cons t ts ih =>
    intro s
    simp only [List.foldl_cons]
    have h := ih (DiscPipeline.interruptTrack st s t)
    have e : (DiscPipeline.interruptTrack st s t).mInterrupted = s.mInterrupted ∧
        (DiscPipeline.interruptTrack st s t).mEncoderRequests = s.mEncoderRequests ∧
        (DiscPipeline.interruptTrack st s t).mSplitterRequests = s.mSplitterRequests ∧
        (DiscPipeline.interruptTrack st s t).mTracks = s.mTracks ∧
        (DiscPipeline.interruptTrack st s t).mAlbumGainRequests = s.mAlbumGainRequests ∧
        (DiscPipeline.interruptTrack st s t).mAlbumGain = s.mAlbumGain ∧
        (DiscPipeline.interruptTrack st s t).mProfile = s.mProfile ∧
        (DiscPipeline.interruptTrack st s t).mTmpDir = s.mTmpDir := by
      unfold DiscPipeline.interruptTrack
      split_ifs <;> exact ⟨rfl, rfl, rfl, rfl, rfl, rfl, rfl, rfl⟩
    obtain ⟨h1, h2, h3, h4, h5, h6, h7, h8⟩ := h
    obtain ⟨e1, e2, e3, e4, e5, e6, e7, e8⟩ := e
    exact ⟨h1.trans e1, h2.trans e2, h3.trans e3, h4.trans e4, h5.trans e5, h6.trans e6,
      h7.trans e7, h8.trans e8⟩

/-- The state of a track after the loop of `interrupt`. -/
theorem DiscPipeline.interruptLoop_trackState (st : TrackState) (i : Nat)
    (tracks : List ConvTrack) :
    ∀ s : DiscPipeline,
      (tracks.foldl (DiscPipeline.interruptTrack st) s).trackState i =
        if (∃ t ∈ tracks, t.index = i) ∧ (s.trackState i).interruptible = true then st
        else s.trackState i := by
  induction tracks with
  | nil => intro s; simp
  | cons t ts ih =>
    intro s
    simp only [List.foldl_cons]
    rw [ih]
    have step : (DiscPipeline.interruptTrack st s t).trackState i =
        if t.index = i ∧ (s.trackState i).interruptible = true then st else s.trackState i := by
      unfold DiscPipeline.interruptTrack
      by_cases hi : t.index = i
      · subst hi
        by_cases hb : (s.trackState t.index).interruptible = true
        · simp [hb, DiscPipeline.trackState_setTrackState]
        · simp [hb]
      · have hi2 : ¬ i = t.index := fun h => hi h.symm
        by_cases hb : (s.trackState t.index).interruptible = true
        · simp [hb, hi, hi2, DiscPipeline.trackState_setTrackState]
        · simp [hb, hi]
    rw [step]
    by_cases hi : t.index = i
    · by_cases hb : (s.trackState i).interruptible = true
      · have hex : ∃ u ∈ t :: ts, u.index = i := ⟨t, List.mem_cons_self _ _, hi⟩
        simp only [hi, hb, hex, and_self, if_true, ite_self]
      · simp [hi, hb]
    · have hex : (∃ u ∈ t :: ts, u.index = i) ↔ ∃ u ∈ ts, u.index = i := by
        constructor
        · rintro ⟨u, hu, hui⟩
          rcases List.mem_cons.1 hu with hu | hu
          · exact absurd (hu ▸ hui) hi
          · exact ⟨u, hu, hui⟩
        · rintro ⟨u, hu, hui⟩
          exact ⟨u, List.mem_cons_of_mem _ hu, hui⟩
      simp only [hi, false_and, if_false, hex]

/-- The log after the loop of `interrupt`: per-track progress events are all
that it adds. -/
theorem DiscPipeline.interruptLoop_events (st : TrackState) (tracks : List ConvTrack) :
    ∀ s : DiscPipeline, ∃ extra : List Event,
      (tracks.foldl (DiscPipeline.interruptTrack st) s).events = s.events ++ extra ∧
      ∀ e ∈ extra, ∃ i, e = Event.trackProgressChanged i st 0 := by
  induction tracks with
  | nil => intro s; exact ⟨[], by simp, by simp⟩
  | cons t ts ih =>
    intro s
    simp only [List.foldl_cons]
    obtain ⟨extra, h1, h2⟩ := ih (DiscPipeline.interruptTrack st s t)
    unfold DiscPipeline.interruptTrack at h1 ⊢
    split_ifs at h1 ⊢ with hb
    · refine ⟨Event.trackProgressChanged t.index st 0 :: extra, ?_, ?_⟩
      · rw [h1]; simp
      · intro e he
        rcases List.mem_cons.1 he with he | he
        · exact ⟨t.index, he⟩
        · exact h2 e he
    · exact ⟨extra, h1, h2⟩

/-! ## `interrupt`, `stop`, `trackError`, `trackDone` -/

theorem TrackState.not_interruptible_of_isTerminal {st : TrackState}
    (h : st.isTerminal = true) : st.interruptible = false := by
  cases st <;> first | rfl | cases h

theorem TrackState.interruptible_of_not_isTerminal {st : TrackState}
    (h : st.isTerminal = false) : st.interruptible = true := by
  cases st <;> first | rfl | cases h

theorem DiscPipeline.trackState_interrupt (s : DiscPipeline) (st : TrackState) (i : Nat) :
    (s.interrupt st).trackState i =
      if (∃ t ∈ s.mTracks, t.index = i) ∧ (s.trackState i).interruptible = true then st
      else s.trackState i := by
  unfold DiscPipeline.interrupt
  exact DiscPipeline.interruptLoop_trackState st i s.mTracks _

theorem DiscPipeline.mInterrupted_interrupt (s : DiscPipeline) (st : TrackState) :
    (s.interrupt st).mInterrupted = true := by
  unfold DiscPipeline.interrupt
  exact (DiscPipeline.interruptLoop_frame st s.mTracks _).1

theorem DiscPipeline.mEncoderRequests_interrupt (s : DiscPipeline) (st : TrackState) :
    (s.interrupt st).mEncoderRequests = [] := by
  unfold DiscPipeline.interrupt
  exact (DiscPipeline.interruptLoop_frame st s.mTracks _).2.1

theorem DiscPipeline.mSplitterRequests_interrupt (s : DiscPipeline) (st : TrackState) :
    (s.interrupt st).mSplitterRequests = s.mSplitterRequests := by
  unfold DiscPipeline.interrupt
  exact (DiscPipeline.interruptLoop_frame st s.mTracks _).2.2.1

theorem DiscPipeline.mTracks_interrupt (s : DiscPipeline) (st : TrackState) :
    (s.interrupt st).mTracks = s.mTracks := by
  unfold DiscPipeline.interrupt
  exact (DiscPipeline.interruptLoop_frame st s.mTracks _).2.2.2.1

theorem DiscPipeline.events_interrupt (s : DiscPipeline) (st : TrackState) :
    ∃ extra : List Event, (s.interrupt st).events = s.events ++ extra ∧
      ∀ e ∈ extra, ∃ i, e = Event.trackProgressChanged i st 0 := by
  unfold DiscPipeline.interrupt
  exact DiscPipeline.interruptLoop_events st s.mTracks _

/-- A count of events of a kind that is not a progress event is the same
before and after `interrupt`. -/
theorem DiscPipeline.countP_events_interrupt (s : DiscPipeline) (st : TrackState)
    (p : Event → Bool) (hp : ∀ i st n, p (Event.trackProgressChanged i st n) = false) :
    (s.interrupt st).events.countP p = s.events.countP p := by
  obtain ⟨extra, h1, h2⟩ := s.events_interrupt st
  rw [h1, List.countP_append]
  have : extra.countP p = 0 := by
    rw [List.countP_eq_zero]
    intro e he
    obtain ⟨i, hi⟩ := h2 e he
    rw [hi, hp]
    simp
  omega

theorem finishedCount_eq_countP (events : List Event) :
    finishedCount events = events.countP (fun e => e == Event.finished) := rfl

theorem finishedCount_append_singleton (events : List Event) (e : Event) :
    finishedCount (events ++ [e]) = finishedCount events + if e = Event.finished then 1 else 0 := by
  unfold finishedCount
  rw [List.count_append, List.count_singleton]
  simp only [beq_iff_eq]

theorem DiscPipeline.finishedCount_interrupt (s : DiscPipeline) (st : TrackState) :
    finishedCount (s.interrupt st).events = finishedCount s.events := by
  rw [finishedCount_eq_countP, finishedCount_eq_countP]
  exact s.countP_events_interrupt st _ (fun _ _ _ => rfl)

theorem DiscPipeline.trackState_stop (s : DiscPipeline) (i : Nat) :
    s.stop.trackState i =
      if (∃ t ∈ s.mTracks, t.index = i) ∧ (s.trackState i).interruptible = true
      then TrackState.Aborted else s.trackState i := by
  unfold DiscPipeline.stop
  simp only [DiscPipeline.trackState_emit]
  exact s.trackState_interrupt _ i

theorem DiscPipeline.trackState_trackError (s : DiscPipeline) (track : ConvTrack)
    (message : String) (i : Nat) :
    (s.trackError track message).trackState i =
      if i = track.index then TrackState.Error
      else if (∃ t ∈ s.mTracks, t.index = i) ∧ (s.trackState i).interruptible = true
      then TrackState.Aborted else s.trackState i := by
  unfold DiscPipeline.trackError
  simp only [DiscPipeline.trackState_emit, DiscPipeline.trackState_interrupt,
    DiscPipeline.mTracks_emit, DiscPipeline.mTracks_setTrackState,
    DiscPipeline.trackState_setTrackState]
  by_cases hi : i = track.index
  · simp [hi, TrackState.interruptible]
  · simp [hi]

theorem DiscPipeline.mInterrupted_trackError (s : DiscPipeline) (track : ConvTrack)
    (message : String) : (s.trackError track message).mInterrupted = true := by
  unfold DiscPipeline.trackError
  simp only [DiscPipeline.mInterrupted_emit]
  exact DiscPipeline.mInterrupted_interrupt _ _

theorem DiscPipeline.mEncoderRequests_trackError (s : DiscPipeline) (track : ConvTrack)
    (message : String) : (s.trackError track message).mEncoderRequests = [] := by
  unfold DiscPipeline.trackError
  simp only [DiscPipeline.mEncoderRequests_emit]
  exact DiscPipeline.mEncoderRequests_interrupt _ _

theorem DiscPipeline.mSplitterRequests_trackError (s : DiscPipeline) (track : ConvTrack)
    (message : String) :
    (s.trackError track message).mSplitterRequests = s.mSplitterRequests := by
  unfold DiscPipeline.trackError
  simp only [DiscPipeline.mSplitterRequests_emit]
  rw [DiscPipeline.mSplitterRequests_interrupt]
  rfl

theorem DiscPipeline.finishedCount_trackError (s : DiscPipeline) (track : ConvTrack)
    (message : String) :
    finishedCount (s.trackError track message).events = finishedCount s.events + 1 := by
  unfold DiscPipeline.trackError
  simp only [DiscPipeline.events_emit, finishedCount_append_singleton,
    DiscPipeline.finishedCount_interrupt, DiscPipeline.events_setTrackState]
  simp

/-- A count of events of a kind that `trackError` does not emit is the same
before and after it. -/
theorem DiscPipeline.countP_events_trackError (s : DiscPipeline) (track : ConvTrack)
    (message : String) (p : Event → Bool)
    (hp : ∀ i st n, p (Event.trackProgressChanged i st n) = false)
    (h1 : p Event.stopAllThreads = false) (h2 : p Event.threadFinished = false)
    (h3 : p Event.finished = false) (h4 : ∀ m, p (Event.errorMessage m) = false) :
    (s.trackError track message).events.countP p = s.events.countP p := by
  unfold DiscPipeline.trackError
  simp only [DiscPipeline.events_emit, List.countP_append, List.countP_singleton,
    DiscPipeline.countP_events_interrupt _ _ p hp, DiscPipeline.events_setTrackState, hp, h1, h2,
    h3, h4]
  simp

theorem DiscPipeline.trackState_ite_emit (s : DiscPipeline) (c : Prop) [Decidable c]
    (e : Event) (i : Nat) : (if c then s.emit e else s).trackState i = s.trackState i := by
  split_ifs <;> rfl

theorem DiscPipeline.trackState_trackDone (env : Env) (s : DiscPipeline) (track : ConvTrack)
    (outFileName : String) (i : Nat) (hi : i ≠ track.index) :
    (s.trackDone env track outFileName).trackState i =
      match env.renameError outFileName track.resultFilePath with
      | some _ =>
        if (∃ t ∈ s.mTracks, t.index = i) ∧ (s.trackState i).interruptible = true
        then TrackState.Aborted else s.trackState i
      | none => s.trackState i := by
  unfold DiscPipeline.trackDone
  simp only [DiscPipeline.trackState_ite_emit, DiscPipeline.trackState_emit,
    DiscPipeline.trackState_setTrackState, if_neg hi]
  cases h : env.renameError outFileName track.resultFilePath with
  | none => rfl
  | some err =>
    simp only [DiscPipeline.trackState_trackError, if_neg hi, DiscPipeline.mTracks_emit,
      DiscPipeline.trackState_emit]

/-- Whatever the rename does, `trackDone` leaves its track in state OK. -/
theorem DiscPipeline.trackState_trackDone_self (env : Env) (s : DiscPipeline) (track : ConvTrack)
    (outFileName : String) :
    (s.trackDone env track outFileName).trackState track.index = TrackState.OK := by
  unfold DiscPipeline.trackDone
  simp only [DiscPipeline.trackState_ite_emit, DiscPipeline.trackState_emit,
    DiscPipeline.trackState_setTrackState, if_pos]

/-! ## `startWorker` and what it calls -/

/-- The while loop of `startWorker` starts encoders for the first
`min count (length of the queue)` requests, in queue order, and removes them. -/
theorem DiscPipeline.startEncoders_eq (q : List Request) :
    ∀ (s : DiscPipeline) (count : Int),
      DiscPipeline.startEncoders s count q =
        ({ s with mEncoderRequests := q.drop (min count.toNat q.length),
                  events := s.events ++ (q.take (min count.toNat q.length)).map s.encoderEvent },
          count - ((min count.toNat q.length : Nat) : Int)) := by
  induction q with
  | nil => intro s count; simp [DiscPipeline.startEncoders]
  | cons req rest ih =>
    intro s count
    unfold DiscPipeline.startEncoders
    split_ifs with hc
    · rw [ih]
      have hk : min count.toNat (req :: rest).length = min (count - 1).toNat rest.length + 1 := by
        simp only [List.length_cons]; omega
      rw [hk]
      refine Prod.ext ?_ ?_
      · simp [DiscPipeline.startEncoder, DiscPipeline.emit, DiscPipeline.encoderEvent]
        rfl
      · simp only [Nat.cast_add, Nat.cast_one]; omega
    · have hk : min count.toNat (req :: rest).length = 0 := by
        simp only [List.length_cons]; omega
      rw [hk]
      simp

theorem DiscPipeline.markSplitting_frame (tracks : List ConvTrack) :
    ∀ s : DiscPipeline,
      (s.markSplitting tracks).events = s.events ∧
      (s.markSplitting tracks).mInterrupted = s.mInterrupted ∧
      (s.markSplitting tracks).mEncoderRequests = s.mEncoderRequests ∧
      (s.markSplitting tracks).mSplitterRequests = s.mSplitterRequests ∧
      (s.markSplitting tracks).mTracks = s.mTracks := by
  induction tracks with
  | nil => intro s; exact ⟨rfl, rfl, rfl, rfl, rfl⟩
  | cons t ts ih =>
    intro s
    unfold DiscPipeline.markSplitting at ih ⊢
    simp only [List.foldl_cons]
    exact ih _

theorem DiscPipeline.trackState_markSplitting (i : Nat) (tracks : List ConvTrack) :
    ∀ s : DiscPipeline,
      (s.markSplitting tracks).trackState i =
        if ∃ t ∈ tracks, t.index = i then TrackState.Splitting else s.trackState i := by
  induction tracks with
  | nil => intro s; simp [DiscPipeline.markSplitting]
  | cons t ts ih =>
    intro s
    unfold DiscPipeline.markSplitting at ih ⊢
    simp only [List.foldl_cons]
    rw [ih, DiscPipeline.trackState_setTrackState]
    by_cases hi : t.index = i
    · have hex : ∃ u ∈ t :: ts, u.index = i := ⟨t, List.mem_cons_self _ _, hi⟩
      simp [hex, hi]
    · have hi2 : ¬ i = t.index := fun h => hi h.symm
      simp [hi, hi2]

theorem DiscPipeline.startSplitter_eq (s : DiscPipeline) (request : SplitterRequest)
    (tasksError : Option String) :
    s.startSplitter request tasksError =
      match tasksError, request.tracks with
      | some err, t :: _ =>
        ((s.emit (Event.splitterStarted request)).markSplitting request.tracks).trackError t err
      | _, _ => (s.emit (Event.splitterStarted request)).markSplitting request.tracks := rfl

/-- A count of events of a kind that is neither a progress event, a stop or
finished signal nor an error message grows in `startSplitter` by the one event
of the splitter start. -/
theorem DiscPipeline.countP_events_startSplitter (s : DiscPipeline) (request : SplitterRequest)
    (tasksError : Option String) (p : Event → Bool)
    (hp : ∀ i st n, p (Event.trackProgressChanged i st n) = false)
    (h1 : p Event.stopAllThreads = false) (h2 : p Event.threadFinished = false)
    (h3 : p Event.finished = false) (h4 : ∀ m, p (Event.errorMessage m) = false) :
    (s.startSplitter request tasksError).events.countP p =
      s.events.countP p + if p (Event.splitterStarted request) = true then 1 else 0 := by
  have base : ((s.emit (Event.splitterStarted request)).markSplitting request.tracks).events.countP p
      = s.events.countP p + if p (Event.splitterStarted request) = true then 1 else 0 := by
    rw [(DiscPipeline.markSplitting_frame request.tracks _).1, DiscPipeline.events_emit,
      List.countP_append, List.countP_singleton]
  rw [DiscPipeline.startSplitter_eq]
  split
  · rw [DiscPipeline.countP_events_trackError _ _ _ p hp h1 h2 h3 h4, base]
  · exact base

theorem DiscPipeline.mSplitterRequests_startSplitter (s : DiscPipeline)
    (request : SplitterRequest) (tasksError : Option String) :
    (s.startSplitter request tasksError).mSplitterRequests = s.mSplitterRequests := by
  rw [DiscPipeline.startSplitter_eq]
  split
  · rw [DiscPipeline.mSplitterRequests_trackError,
      (DiscPipeline.markSplitting_frame request.tracks _).2.2.2.1]
    rfl
  · rw [(DiscPipeline.markSplitting_frame request.tracks _).2.2.2.1]
    rfl

theorem DiscPipeline.startWorker_of_interrupted (s : DiscPipeline) (splitterCount count : Int)
    (tasksError : Option String) (h : s.mInterrupted = true) :
    s.startWorker splitterCount count tasksError = (s, splitterCount, count) := by
  unfold DiscPipeline.startWorker
  simp [h]

theorem DiscPipeline.startWorker_of_count_le (s : DiscPipeline) (splitterCount count : Int)
    (tasksError : Option String) (h : count ≤ 0) :
    s.startWorker splitterCount count tasksError = (s, splitterCount, count) := by
  unfold DiscPipeline.startWorker
  simp [h]

/-- The split branch of `startWorker`. -/
theorem DiscPipeline.startWorker_split (s : DiscPipeline) (splitterCount count : Int)
    (tasksError : Option String) (req : SplitterRequest) (rest : List SplitterRequest)
    (hi : s.mInterrupted = false) (hc : 0 < count) (hs : 0 < splitterCount)
    (hq : s.mSplitterRequests = req :: rest) :
    s.startWorker splitterCount count tasksError =
      (DiscPipeline.startSplitter { s with mSplitterRequests := rest } req tasksError,
        splitterCount - 1, count - 1) := by
  unfold DiscPipeline.startWorker
  have hc2 : ¬ count ≤ 0 := by omega
  simp [hi, hc2, hs, hq]

/-- The encode branch of `startWorker`. -/
theorem DiscPipeline.startWorker_encode (s : DiscPipeline) (splitterCount count : Int)
    (tasksError : Option String) (hi : s.mInterrupted = false) (hc : 0 < count)
    (hs : splitterCount ≤ 0 ∨ s.mSplitterRequests = []) :
    s.startWorker splitterCount count tasksError =
      ((DiscPipeline.startEncoders s count s.mEncoderRequests).1, splitterCount,
        (DiscPipeline.startEncoders s count s.mEncoderRequests).2) := by
  unfold DiscPipeline.startWorker
  have hc2 : ¬ count ≤ 0 := by omega
  rcases hs with hs | hs
  · have hs2 : ¬ splitterCount > 0 := by omega
    simp [hi, hc2, hs2]
  · simp only [hi, hc2, hs]
    simp

/-! ## The interrupted flag is never cleared -/

theorem DiscPipeline.mInterrupted_trackProgress (s : DiscPipeline) (track : ConvTrack)
    (state : TrackState) (percent : Int) :
    (s.trackProgress track state percent).mInterrupted = s.mInterrupted := by
  unfold DiscPipeline.trackProgress
  split_ifs <;> rfl

theorem DiscPipeline.mInterrupted_addEncoderRequest (s : DiscPipeline) (track : ConvTrack)
    (inputFile : String) :
    (s.addEncoderRequest track inputFile).mInterrupted = s.mInterrupted := by
  unfold DiscPipeline.addEncoderRequest
  simp only [DiscPipeline.mInterrupted_emit, DiscPipeline.mInterrupted_trackProgress]

theorem DiscPipeline.mInterrupted_trackDone (env : Env) (s : DiscPipeline) (track : ConvTrack)
    (outFileName : String) (h : s.mInterrupted = true) :
    (s.trackDone env track outFileName).mInterrupted = true := by
  unfold DiscPipeline.trackDone
  have key : ∀ (x : DiscPipeline) (c : Prop) [Decidable c] (e : Event),
      (if c then x.emit e else x).mInterrupted = x.mInterrupted := by
    intro x c _ e; split_ifs <;> rfl
  simp only [key, DiscPipeline.mInterrupted_emit, DiscPipeline.mInterrupted_setTrackState]
  cases env.renameError outFileName track.resultFilePath with
  | none => exact h
  | some err => exact DiscPipeline.mInterrupted_trackError _ _ _

/-! ## The exits of `writeGain` -/

/-- The state in which the loop of `writeGain` is left: the records before the
first one whose tag writer throws have been tagged and finalized. -/
theorem DiscPipeline.writeAlbumGainLoop_fst (env : Env) (requests : List Request) :
    ∀ s : DiscPipeline,
      (DiscPipeline.writeAlbumGainLoop env s requests).1 =
        (requests.takeWhile (fun r => (env.albumTagError r.inputFile).isNone)).foldl
          (DiscPipeline.albumTagged env) s := by
  induction requests with
  | nil => intro s; rfl
  | cons r rs ih =>
    intro s
    unfold DiscPipeline.writeAlbumGainLoop DiscPipeline.writeAlbumGain
    cases h : env.albumTagError r.inputFile with
    | some err => simp [List.takeWhile, h]
    | none =>
      simp only [List.takeWhile, h, Option.isNone_none, List.foldl_cons]
      exact ih _

/-- The exception with which the loop of `writeGain` is left: that of the first
record whose tag writer throws. -/
theorem DiscPipeline.writeAlbumGainLoop_snd (env : Env) (requests : List Request) :
    ∀ s : DiscPipeline,
      (DiscPipeline.writeAlbumGainLoop env s requests).2 =
        (requests.find? (fun r => (env.albumTagError r.inputFile).isSome)).bind
          (fun r => env.albumTagError r.inputFile) := by
  induction requests with
  | nil => intro s; rfl
  | cons r rs ih =>
    intro s
    unfold DiscPipeline.writeAlbumGainLoop DiscPipeline.writeAlbumGain
    cases h : env.albumTagError r.inputFile with
    | some err => simp [List.find?, h]
    | none =>
      simp only [List.find?, h, Option.isSome_none]
      exact ih _

/-- The loop of `writeGain` when no tag writer throws. -/
theorem DiscPipeline.writeAlbumGainLoop_saved (env : Env) (requests : List Request)
    (h : ∀ r ∈ requests, env.albumTagError r.inputFile = none) (s : DiscPipeline) :
    DiscPipeline.writeAlbumGainLoop env s requests =
      (requests.foldl (DiscPipeline.albumTagged env) s, none) := by
  have h1 := DiscPipeline.writeAlbumGainLoop_fst env requests s
  have h2 := DiscPipeline.writeAlbumGainLoop_snd env requests s
  have ht : requests.takeWhile (fun r => (env.albumTagError r.inputFile).isNone) = requests := by
    rw [List.takeWhile_eq_self_iff]
    intro r hr
    rw [h r hr]
    rfl
  have hf : requests.find? (fun r => (env.albumTagError r.inputFile).isSome) = none := by
    rw [List.find?_eq_none]
    intro r hr
    rw [h r hr]
    simp
  rw [ht] at h1
  rw [hf] at h2
  exact Prod.ext h1 h2

/-- The track tag writer throws: `writeGain` is left with the state as it is. -/
theorem DiscPipeline.writeGain_thrown (env : Env) (s : DiscPipeline) (track : ConvTrack)
    (fileName : String) (trackGain : GainResult) (err : String)
    (h : env.trackTagError fileName = some err) :
    s.writeGain env track fileName trackGain = (s, some err) := by
  unfold DiscPipeline.writeGain
  rw [h]

/-- The states in which `writeGain` can be left. -/
theorem DiscPipeline.writeGain_fst_cases (env : Env) (s : DiscPipeline) (track : ConvTrack)
    (fileName : String) (trackGain : GainResult) :
    (s.writeGain env track fileName trackGain).1 = s ∨
    (s.writeGain env track fileName trackGain).1 =
      (s.emit (Event.trackReplayGain fileName trackGain)).trackDone env track fileName ∨
    (s.writeGain env track fileName trackGain).1 =
      (s.emit (Event.trackReplayGain fileName trackGain)).bufferAlbumGain track fileName
        trackGain ∨
    ∃ done : List Request,
      done <+: ((s.emit (Event.trackReplayGain fileName trackGain)).bufferAlbumGain track
        fileName trackGain).mAlbumGainRequests ∧
      (s.writeGain env track fileName trackGain).1 =
        done.foldl (DiscPipeline.albumTagged env)
          ((s.emit (Event.trackReplayGain fileName trackGain)).bufferAlbumGain track fileName
            trackGain) := by
  unfold DiscPipeline.writeGain
  cases h : env.trackTagError fileName with
  | some err => exact Or.inl rfl
  | none =>
    simp only []
    split_ifs
    · exact Or.inr (Or.inl rfl)
    · exact Or.inr (Or.inr (Or.inl rfl))
    · exact Or.inr (Or.inr (Or.inr
        ⟨_, List.takeWhile_prefix _, DiscPipeline.writeAlbumGainLoop_fst env _ _⟩))

theorem DiscPipeline.mInterrupted_writeAlbumGainLoop (env : Env) (requests : List Request) :
    ∀ s : DiscPipeline, s.mInterrupted = true →
      (requests.foldl (DiscPipeline.albumTagged env) s).mInterrupted = true := by
  induction requests with
  | nil => intro s h; exact h
  | cons r rs ih =>
    intro s h
    simp only [List.foldl_cons]
    apply ih
    unfold DiscPipeline.albumTagged
    exact DiscPipeline.mInterrupted_trackDone env _ _ _ h

theorem DiscPipeline.mInterrupted_bufferAlbumGain (s : DiscPipeline) (track : ConvTrack)
    (fileName : String) (trackGain : GainResult) :
    (s.bufferAlbumGain track fileName trackGain).mInterrupted = s.mInterrupted := by
  unfold DiscPipeline.bufferAlbumGain
  simp only [DiscPipeline.mInterrupted_trackProgress]

theorem DiscPipeline.mInterrupted_writeGain (env : Env) (s : DiscPipeline) (track : ConvTrack)
    (fileName : String) (trackGain : GainResult) (h : s.mInterrupted = true) :
    (s.writeGain env track fileName trackGain).1.mInterrupted = true := by
  have hb : ((s.emit (Event.trackReplayGain fileName trackGain)).bufferAlbumGain track fileName
      trackGain).mInterrupted = true := by
    rw [DiscPipeline.mInterrupted_bufferAlbumGain]; exact h
  rcases s.writeGain_fst_cases env track fileName trackGain with e | e | e | ⟨done, _, e⟩ <;>
    rw [e]
  · exact h
  · exact DiscPipeline.mInterrupted_trackDone env _ _ _ h
  · exact hb
  · exact DiscPipeline.mInterrupted_writeAlbumGainLoop env _ _ hb

theorem DiscPipeline.mInterrupted_stop (s : DiscPipeline) : s.stop.mInterrupted = true := by
  unfold DiscPipeline.stop
  simp only [DiscPipeline.mInterrupted_emit]
  exact s.mInterrupted_interrupt _

theorem DiscPipeline.mInterrupted_step (env : Env) (s : DiscPipeline) (op : Op)
    (h : s.mInterrupted = true) : (s.step env op).mInterrupted = true := by
  cases op with
  | startWorker splitterCount count tasksError =>
    show (s.startWorker splitterCount count tasksError).1.mInterrupted = true
    rw [s.startWorker_of_interrupted _ _ _ h]; exact h
  | addEncoderRequest track inputFile =>
    show (s.addEncoderRequest track inputFile).mInterrupted = true
    rw [DiscPipeline.mInterrupted_addEncoderRequest]; exact h
  | trackProgress track state percent =>
    show (s.trackProgress track state percent).mInterrupted = true
    rw [DiscPipeline.mInterrupted_trackProgress]; exact h
  | writeGain track fileName trackGain => exact s.mInterrupted_writeGain env _ _ _ h
  | trackDone track outFileName => exact s.mInterrupted_trackDone env _ _ h
  | trackError track message => exact s.mInterrupted_trackError _ _
  | interrupt state => exact s.mInterrupted_interrupt _
  | stop => exact s.mInterrupted_stop

theorem DiscPipeline.mInterrupted_run (env : Env) (ops : List Op) :
    ∀ s : DiscPipeline, s.mInterrupted = true → (s.run env ops).mInterrupted = true := by
  induction ops with
  | nil => intro s h; exact h
  | cons op ops ih =>
    intro s h
    unfold DiscPipeline.run at ih ⊢
    simp only [List.foldl_cons]
    exact ih _ (s.mInterrupted_step env op h)

/-! ## Further lemmas on track states and on the log -/

theorem DiscPipeline.trackState_trackProgress (s : DiscPipeline) (track : ConvTrack)
    (state : TrackState) (percent : Int) (i : Nat) :
    (s.trackProgress track state percent).trackState i =
      if s.mInterrupted = false ∧ i = track.index then state else s.trackState i := by
  unfold DiscPipeline.trackProgress
  cases h : s.mInterrupted
  · simp [DiscPipeline.trackState_setTrackState]
  · simp

theorem DiscPipeline.trackState_addEncoderRequest (s : DiscPipeline) (track : ConvTrack)
    (inputFile : String) (i : Nat) :
    (s.addEncoderRequest track inputFile).trackState i =
      if s.mInterrupted = false ∧ i = track.index then TrackState.Queued else s.trackState i := by
  unfold DiscPipeline.addEncoderRequest
  simp only [DiscPipeline.trackState_emit, DiscPipeline.trackState_trackProgress]
  rfl

theorem DiscPipeline.trackState_trackDone_of_isTerminal (env : Env) (s : DiscPipeline)
    (track : ConvTrack) (outFileName : String) (i : Nat) (hi : i ≠ track.index)
    (h : (s.trackState i).isTerminal = true) :
    (s.trackDone env track outFileName).trackState i = s.trackState i := by
  rw [DiscPipeline.trackState_trackDone env s track outFileName i hi]
  split
  · simp [TrackState.not_interruptible_of_isTerminal h]
  · rfl

theorem DiscPipeline.trackState_writeAlbumGainLoop (env : Env) (i : Nat)
    (requests : List Request) :
    ∀ s : DiscPipeline, (s.trackState i).isTerminal = true →
      (∀ r ∈ requests, r.track.index ≠ i) →
      (requests.foldl (DiscPipeline.albumTagged env) s).trackState i = s.trackState i := by
  induction requests with
  | nil => intro s _ _; rfl
  | cons r rs ih =>
    intro s h hr
    simp only [List.foldl_cons]
    have hne : i ≠ r.track.index := fun e => hr r (List.mem_cons_self _ _) e.symm
    have e1 : (DiscPipeline.albumTagged env s r).trackState i = s.trackState i := by
      unfold DiscPipeline.albumTagged
      rw [DiscPipeline.trackState_trackDone_of_isTerminal env _ _ _ i hne]
      · rfl
      · exact h
    rw [ih _ (by rw [e1]; exact h) (fun r' hr' => hr r' (List.mem_cons_of_mem _ hr')), e1]

theorem DiscPipeline.trackState_bufferAlbumGain (s : DiscPipeline) (track : ConvTrack)
    (fileName : String) (trackGain : GainResult) (i : Nat) :
    (s.bufferAlbumGain track fileName trackGain).trackState i =
      if s.mInterrupted = false ∧ i = track.index then TrackState.WaitGain
      else s.trackState i := by
  unfold DiscPipeline.bufferAlbumGain
  exact DiscPipeline.trackState_trackProgress _ track TrackState.WaitGain 0 i

theorem DiscPipeline.mAlbumGainRequests_bufferAlbumGain (s : DiscPipeline) (track : ConvTrack)
    (fileName : String) (trackGain : GainResult) :
    (s.bufferAlbumGain track fileName trackGain).mAlbumGainRequests =
      s.mAlbumGainRequests ++ [⟨track, fileName⟩] := by
  unfold DiscPipeline.bufferAlbumGain DiscPipeline.trackProgress
  simp only []
  split_ifs <;> rfl

theorem DiscPipeline.trackState_writeGain_of_isTerminal (env : Env) (s : DiscPipeline)
    (track : ConvTrack) (fileName : String) (trackGain : GainResult) (i : Nat)
    (hi : i ≠ track.index) (hr : ∀ r ∈ s.mAlbumGainRequests, r.track.index ≠ i)
    (h : (s.trackState i).isTerminal = true) :
    (s.writeGain env track fileName trackGain).1.trackState i = s.trackState i := by
  have hb : ((s.emit (Event.trackReplayGain fileName trackGain)).bufferAlbumGain track fileName
      trackGain).trackState i = s.trackState i := by
    rw [DiscPipeline.trackState_bufferAlbumGain]
    simp [hi]
  have hq : ∀ r ∈ ((s.emit (Event.trackReplayGain fileName trackGain)).bufferAlbumGain track
      fileName trackGain).mAlbumGainRequests, r.track.index ≠ i := by
    intro r hr'
    rw [DiscPipeline.mAlbumGainRequests_bufferAlbumGain] at hr'
    rcases List.mem_append.1 hr' with hr' | hr'
    · exact hr r hr'
    · simp only [List.mem_singleton] at hr'
      rw [hr']
      exact fun e => hi e.symm
  rcases s.writeGain_fst_cases env track fileName trackGain with e | e | e | ⟨done, hd, e⟩ <;>
    rw [e]
  · rw [DiscPipeline.trackState_trackDone_of_isTerminal env _ _ _ i hi]
    · rfl
    · exact h
  · exact hb
  · rw [DiscPipeline.trackState_writeAlbumGainLoop env i _ _ (by rw [hb]; exact h)
      (fun r hr' => hq r (hd.subset hr'))]
    exact hb

/-- The three ways in which `startWorker` returns. -/
theorem DiscPipeline.startWorker_cases (s : DiscPipeline) (splitterCount count : Int)
    (tasksError : Option String) :
    s.startWorker splitterCount count tasksError = (s, splitterCount, count) ∨
    (∃ req rest, s.mSplitterRequests = req :: rest ∧ 0 < splitterCount ∧ 0 < count ∧
      s.mInterrupted = false ∧
      s.startWorker splitterCount count tasksError =
        (DiscPipeline.startSplitter { s with mSplitterRequests := rest } req tasksError,
          splitterCount - 1, count - 1)) ∨
    (0 < count ∧ s.mInterrupted = false ∧ (splitterCount ≤ 0 ∨ s.mSplitterRequests = []) ∧
      s.startWorker splitterCount count tasksError =
        ((DiscPipeline.startEncoders s count s.mEncoderRequests).1, splitterCount,
          (DiscPipeline.startEncoders s count s.mEncoderRequests).2)) := by
  by_cases hi : s.mInterrupted = true
  · exact Or.inl (s.startWorker_of_interrupted _ _ _ hi)
  · have hi2 : s.mInterrupted = false := by simpa using hi
    by_cases hc : count ≤ 0
    · exact Or.inl (s.startWorker_of_count_le _ _ _ hc)
    · have hc2 : 0 < count := by omega
      by_cases hs : 0 < splitterCount
      · rcases hq : s.mSplitterRequests with _ | ⟨req, rest⟩
        · exact Or.inr (Or.inr ⟨hc2, hi2, Or.inr rfl,
            s.startWorker_encode _ _ _ hi2 hc2 (Or.inr hq)⟩)
        · exact Or.inr (Or.inl ⟨req, rest, rfl, hs, hc2, hi2,
            s.startWorker_split _ _ _ req rest hi2 hc2 hs hq⟩)
      · have hs2 : splitterCount ≤ 0 := by omega
        exact Or.inr (Or.inr ⟨hc2, hi2, Or.inl hs2,
          s.startWorker_encode _ _ _ hi2 hc2 (Or.inl hs2)⟩)

theorem DiscPipeline.events_startEncoders (s : DiscPipeline) (count : Int) (q : List Request) :
    (DiscPipeline.startEncoders s count q).1.events =
      s.events ++ (q.take (min count.toNat q.length)).map s.encoderEvent := by
  rw [DiscPipeline.startEncoders_eq]

theorem DiscPipeline.trackState_startEncoders (s : DiscPipeline) (count : Int)
    (q : List Request) (i : Nat) :
    (DiscPipeline.startEncoders s count q).1.trackState i = s.trackState i := by
  rw [DiscPipeline.startEncoders_eq]
  rfl

theorem countP_map_encoderEvent (s : DiscPipeline) (l : List Request) (p : Event → Bool)
    (b : Bool) (hp : ∀ i f o g, p (Event.encoderStarted i f o g) = b) :
    (l.map s.encoderEvent).countP p = if b = true then l.length else 0 := by
  induction l with
  | nil => simp
  | cons r rs ih =>
    rw [List.map_cons, List.countP_cons, ih]
    have : p (s.encoderEvent r) = b := hp _ _ _ _
    rw [this]
    cases b <;> simp

theorem TrackState.countsAsRunning_iff (st : TrackState) :
    st.countsAsRunning = true ↔ st.isTransient = true ∧ st ≠ TrackState.NotRunning := by
  cases st <;> simp [TrackState.countsAsRunning, TrackState.isTransient, TrackState.isTerminal]

/-! ## C1: terminal states -/

/-- C1, counterexample: two tracks are encoding and both encoders fail.  The
error of the first track leaves the second track Aborted, a terminal state; the
error event of the second track then moves it from Aborted to Error. -/
theorem terminal_state_left_by_second_error :
    Reachable renamesSucceed twoTracksFirstFailed ∧
    twoTracksFirstFailed.trackState sampleTrackB.index = TrackState.Aborted ∧
    (twoTracksFirstFailed.trackState sampleTrackB.index).isTerminal = true ∧
    (twoTracksFirstFailed.step renamesSucceed
      (Op.trackError sampleTrackB "encoder failed")).trackState sampleTrackB.index
        = TrackState.Error :=
  ⟨⟨sampleProfile, [sampleTrackA, sampleTrackB], "/work", "/work/tmp", fun _ => none,
      twoTrackStart,
      [Op.startWorker 1 2 none, Op.addEncoderRequest sampleTrackA "/work/tmp/a.wav",
        Op.addEncoderRequest sampleTrackB "/work/tmp/b.wav", Op.startWorker 0 2 none,
        Op.trackProgress sampleTrackA TrackState.Encoding 10,
        Op.trackProgress sampleTrackB TrackState.Encoding 10,
        Op.trackError sampleTrackA "encoder failed"], rfl, rfl⟩,
    by decide, by decide, by decide⟩

/-- C1, amended: in every pipeline state a track `i` that is in a terminal state
keeps its state under `interrupt` and `stop`; under `trackError`, `trackDone`
and `writeGain` when the event is for another track (and, for `writeGain`, no
buffered album-gain request is for track `i`); under `trackProgress` and
`addEncoderRequest` when the event is for another track or the pipeline is
interrupted; and under `startWorker` when the pipeline is interrupted, a slot
argument is not positive or no split request is queued. -/
theorem terminal_state_kept (env : Env) (s : DiscPipeline) (i : Nat)
    (h : (s.trackState i).isTerminal = true) :
    (∀ st, (s.interrupt st).trackState i = s.trackState i) ∧
    s.stop.trackState i = s.trackState i ∧
    (∀ t msg, t.index ≠ i → (s.trackError t msg).trackState i = s.trackState i) ∧
    (∀ t file, t.index ≠ i → (s.trackDone env t file).trackState i = s.trackState i) ∧
    (∀ t file g, t.index ≠ i → (∀ r ∈ s.mAlbumGainRequests, r.track.index ≠ i) →
      (s.writeGain env t file g).1.trackState i = s.trackState i) ∧
    (∀ t st percent, t.index ≠ i ∨ s.mInterrupted = true →
      (s.trackProgress t st percent).trackState i = s.trackState i) ∧
    (∀ t file, t.index ≠ i ∨ s.mInterrupted = true →
      (s.addEncoderRequest t file).trackState i = s.trackState i) ∧
    (∀ splitSlots encodeSlots tasksError,
      s.mInterrupted = true ∨ splitSlots ≤ 0 ∨ encodeSlots ≤ 0 ∨ s.mSplitterRequests = [] →
      (s.startWorker splitSlots encodeSlots tasksError).1.trackState i = s.trackState i) := by
  have hn := TrackState.not_interruptible_of_isTerminal h
  refine ⟨?_, ?_, ?_, ?_, ?_, ?_, ?_, ?_⟩
  · intro st
    rw [DiscPipeline.trackState_interrupt]; simp [hn]
  · rw [DiscPipeline.trackState_stop]; simp [hn]
  · intro t msg ht
    rw [DiscPipeline.trackState_trackError]
    have : ¬ i = t.index := fun e => ht e.symm
    simp [hn, this]
  · intro t file ht
    exact DiscPipeline.trackState_trackDone_of_isTerminal env s t file i (fun e => ht e.symm) h
  · intro t file g ht hr
    exact DiscPipeline.trackState_writeGain_of_isTerminal env s t file g i (fun e => ht e.symm) hr h
  · intro t st percent ht
    rw [DiscPipeline.trackState_trackProgress]
    rcases ht with ht | ht
    · have : ¬ i = t.index := fun e => ht e.symm
      simp [this]
    · simp [ht]
  · intro t file ht
    rw [DiscPipeline.trackState_addEncoderRequest]
    rcases ht with ht | ht
    · have : ¬ i = t.index := fun e => ht e.symm
      simp [this]
    · simp [ht]
  · intro splitSlots encodeSlots tasksError hc
    rcases s.startWorker_cases splitSlots encodeSlots tasksError with e | ⟨req, rest, hq, hs, hcnt, hi, _⟩ | ⟨_, _, _, e⟩
    · rw [e]
    · exfalso
      rcases hc with hc | hc | hc | hc
      · rw [hi] at hc; cases hc
      · omega
      · omega
      · rw [hq] at hc; cases hc
    · rw [e]
      exact DiscPipeline.trackState_startEncoders s _ _ i

/-- C1, witness: the amended statement at the state in which the first of two
encoding tracks has failed, for the second track (Aborted). -/
theorem terminal_state_kept_witness :
    (twoTracksFirstFailed.trackState 1).isTerminal = true ∧
    twoTracksFirstFailed.stop.trackState 1 = twoTracksFirstFailed.trackState 1 ∧
    (twoTracksFirstFailed.trackError sampleTrackA "again").trackState 1
      = twoTracksFirstFailed.trackState 1 :=
  ⟨by decide,
    (terminal_state_kept renamesSucceed twoTracksFirstFailed 1 (by decide)).2.1,
    (terminal_state_kept renamesSucceed twoTracksFirstFailed 1 (by decide)).2.2.1 sampleTrackA
      "again" (by decide)⟩

/-! ## C2: how often `finished` is emitted -/

/-- C2, counterexample: two calls of `stop` on a freshly constructed pipeline
emit `finished` twice. -/
theorem finished_twice_after_two_stops :
    DiscPipeline.create sampleProfile [sampleTrackA] "/work" "/work/tmp" (fun _ => none)
      = Except.ok oneTrackStart ∧
    finishedCount (oneTrackStart.run renamesSucceed [Op.stop]).events = 1 ∧
    finishedCount (oneTrackStart.run renamesSucceed [Op.stop, Op.stop]).events = 2 :=
  ⟨rfl, by decide, by decide⟩

/-- C2, amended: every call of `stop` and every call of `trackError` emits
`finished` exactly once, whatever was emitted before; a `trackDone` whose
rename succeeds emits it once when no track counts as running once the track is
OK, and not otherwise; `interrupt`, `trackProgress`, `addEncoderRequest` and a
`startWorker` whose short tasks succeed emit none. -/
theorem finished_per_call (env : Env) (s : DiscPipeline) :
    finishedCount s.stop.events = finishedCount s.events + 1 ∧
    (∀ t msg, finishedCount (s.trackError t msg).events = finishedCount s.events + 1) ∧
    (∀ t file, env.renameError file t.resultFilePath = none →
      finishedCount (s.trackDone env t file).events =
        finishedCount s.events +
          if (s.setTrackState t.index TrackState.OK).isRunning = true then 0 else 1) ∧
    (∀ st, finishedCount (s.interrupt st).events = finishedCount s.events) ∧
    (∀ t st percent,
      finishedCount (s.trackProgress t st percent).events = finishedCount s.events) ∧
    (∀ t file, finishedCount (s.addEncoderRequest t file).events = finishedCount s.events) ∧
    (∀ splitSlots encodeSlots,
      finishedCount (s.startWorker splitSlots encodeSlots none).1.events
        = finishedCount s.events) := by
  have hprog : ∀ (x : DiscPipeline) t st percent,
      finishedCount (x.trackProgress t st percent).events = finishedCount x.events := by
    intro x t st percent
    unfold DiscPipeline.trackProgress
    split_ifs
    · rfl
    · simp [finishedCount_append_singleton]
  refine ⟨?_, ?_, ?_, ?_, ?_, ?_, ?_⟩
  · unfold DiscPipeline.stop
    simp only [DiscPipeline.events_emit, finishedCount_append_singleton,
      DiscPipeline.finishedCount_interrupt]
    simp
  · exact fun t msg => s.finishedCount_trackError t msg
  · intro t file hr
    unfold DiscPipeline.trackDone
    simp only [hr]
    cases hb : (s.setTrackState t.index TrackState.OK).isRunning <;>
      · unfold DiscPipeline.isRunning at hb ⊢
        simp only [DiscPipeline.mTrackStates_emit, DiscPipeline.mTrackStates_setTrackState]
          at hb ⊢
        simp [hb, finishedCount, List.count_cons]
  · exact fun st => s.finishedCount_interrupt st
  · exact hprog s
  · intro t file
    unfold DiscPipeline.addEncoderRequest
    simp only [DiscPipeline.events_emit, finishedCount_append_singleton, hprog]
    simp
  · intro splitSlots encodeSlots
    rcases s.startWorker_cases splitSlots encodeSlots none with e | ⟨req, rest, _, _, _, _, e⟩ | ⟨_, _, _, e⟩
    · rw [e]
    · rw [e, DiscPipeline.startSplitter_eq]
      simp only []
      rw [(DiscPipeline.markSplitting_frame req.tracks _).1]
      simp [finishedCount_append_singleton]
    · rw [e, DiscPipeline.events_startEncoders, finishedCount_eq_countP, List.countP_append,
        countP_map_encoderEvent s _ _ false (fun _ _ _ _ => rfl), finishedCount_eq_countP]
      simp

/-- C2, witness: the amended statement for a `trackDone` whose rename succeeds,
at the state in which the one track is encoding. -/
theorem finished_per_call_witness :
    renamesSucceed.renameError "/work/tmp/a.encoded.flac" sampleTrackA.resultFilePath = none ∧
    finishedCount (oneTrackEncoding.trackDone renamesSucceed sampleTrackA
      "/work/tmp/a.encoded.flac").events =
        finishedCount oneTrackEncoding.events +
          if (oneTrackEncoding.setTrackState sampleTrackA.index TrackState.OK).isRunning = true
          then 0 else 1 :=
  ⟨rfl, (finished_per_call renamesSucceed oneTrackEncoding).2.2.1 sampleTrackA
    "/work/tmp/a.encoded.flac" rfl⟩

/-! ## C3: a failed rename in `trackDone` -/

/-- C3, the code at the failing input: two tracks are encoding and the rename
of the first fails.  `trackDone` reports the error, which makes the first track
Error and the second Aborted, and then goes on to mark the first track OK. -/
theorem trackDone_failed_rename_marks_OK :
    Reachable renamesFail twoTracksEncoding ∧
    twoTracksEncoding.trackState sampleTrackA.index = TrackState.Encoding ∧
    renamesFail.renameError "/work/tmp/a.encoded.flac" sampleTrackA.resultFilePath
      = some "Permission denied" ∧
    (twoTracksEncoding.trackDone renamesFail sampleTrackA
      "/work/tmp/a.encoded.flac").trackState sampleTrackA.index = TrackState.OK ∧
    (twoTracksEncoding.trackDone renamesFail sampleTrackA
      "/work/tmp/a.encoded.flac").trackState sampleTrackB.index = TrackState.Aborted ∧
    Event.trackProgressChanged 0 TrackState.Error 0 ∈
      (twoTracksEncoding.trackDone renamesFail sampleTrackA "/work/tmp/a.encoded.flac").events :=
  ⟨⟨sampleProfile, [sampleTrackA, sampleTrackB], "/work", "/work/tmp", fun _ => none,
      twoTrackStart,
      [Op.startWorker 1 2 none, Op.addEncoderRequest sampleTrackA "/work/tmp/a.wav",
        Op.addEncoderRequest sampleTrackB "/work/tmp/b.wav", Op.startWorker 0 2 none,
        Op.trackProgress sampleTrackA TrackState.Encoding 10,
        Op.trackProgress sampleTrackB TrackState.Encoding 10], rfl, rfl⟩,
    by decide, rfl, by decide, by decide, by decide⟩

/-! ## C4: `isRunning` -/

/-- C4, counterexample: in the pipeline that the constructor builds the one
track is NotRunning, a transient state, and `isRunning` is false. -/
theorem isRunning_false_with_transient_track :
    Reachable renamesSucceed oneTrackStart ∧
    oneTrackStart.mTrackStates.find 0 = some TrackState.NotRunning ∧
    TrackState.NotRunning.isTransient = true ∧
    oneTrackStart.isRunning = false :=
  ⟨⟨sampleProfile, [sampleTrackA], "/work", "/work/tmp", fun _ => none, oneTrackStart, [],
      rfl, rfl⟩, by decide, by decide, by decide⟩

/-- C4, amended: `isRunning` is true if and only if the state of at least one
track is transient and is not NotRunning, that is, is one of Splitting,
Encoding, Queued, WaitGain, CalcGain, WriteGain; it is false exactly when every
track is NotRunning or terminal. -/
theorem isRunning_iff (s : DiscPipeline) :
    (s.isRunning = true ↔
      ∃ i st, s.mTrackStates.find i = some st ∧ st.isTransient = true ∧
        st ≠ TrackState.NotRunning) ∧
    (s.isRunning = false ↔
      ∀ i st, s.mTrackStates.find i = some st →
        st = TrackState.NotRunning ∨ st.isTerminal = true) := by
  have key : s.isRunning = true ↔
      ∃ i st, s.mTrackStates.find i = some st ∧ st.isTransient = true ∧
        st ≠ TrackState.NotRunning := by
    unfold DiscPipeline.isRunning StateMap.values StateMap.find
    rw [List.any_eq_true]
    constructor
    · rintro ⟨st, hst, hr⟩
      obtain ⟨e, he, rfl⟩ := List.mem_map.1 hst
      exact ⟨e.1, e.2,
        (lookupEntry_eq_some_iff _ s.mTrackStates.ascending e.1 e.2).2 he,
        (TrackState.countsAsRunning_iff e.2).1 hr⟩
    · rintro ⟨i, st, hf, ht⟩
      have hm := (lookupEntry_eq_some_iff _ s.mTrackStates.ascending i st).1 hf
      exact ⟨st, List.mem_map.2 ⟨(i, st), hm, rfl⟩, (TrackState.countsAsRunning_iff st).2 ht⟩
  refine ⟨key, ?_⟩
  rw [← Bool.not_eq_true, key]
  constructor
  · intro hne i st hf
    by_contra hc
    push_neg at hc
    refine hne ⟨i, st, hf, ?_, hc.1⟩
    unfold TrackState.isTransient
    cases hst : st.isTerminal
    · rfl
    · exact absurd hst hc.2
  · rintro hall ⟨i, st, hf, ht, hn⟩
    rcases hall i st hf with h1 | h1
    · exact hn h1
    · unfold TrackState.isTransient at ht
      rw [h1] at ht
      cases ht

/-- C4, witness: the amended statement at the state in which two tracks are
encoding. -/
theorem isRunning_iff_witness :
    twoTracksEncoding.isRunning = true ∧
    ∃ i st, twoTracksEncoding.mTrackStates.find i = some st ∧ st.isTransient = true ∧
      st ≠ TrackState.NotRunning :=
  ⟨by decide, (isRunning_iff twoTracksEncoding).1.1 (by decide)⟩

/-! ## C5 to C9: `startWorker` -/

theorem DiscPipeline.events_trackError_append (s : DiscPipeline) (track : ConvTrack)
    (message : String) : ∃ extra, (s.trackError track message).events = s.events ++ extra := by
  unfold DiscPipeline.trackError
  obtain ⟨extra, h, _⟩ := DiscPipeline.events_interrupt
    ((s.setTrackState track.index TrackState.Error).emit
      (Event.trackProgressChanged track.index TrackState.Error 0)) TrackState.Aborted
  refine ⟨[Event.trackProgressChanged track.index TrackState.Error 0] ++ extra ++
    [Event.stopAllThreads, Event.threadFinished, Event.finished, Event.errorMessage message], ?_⟩
  simp only [DiscPipeline.events_emit, h, DiscPipeline.events_setTrackState]
  simp

theorem DiscPipeline.splitterStarted_mem_startSplitter (s : DiscPipeline)
    (request : SplitterRequest) (tasksError : Option String) :
    Event.splitterStarted request ∈ (s.startSplitter request tasksError).events := by
  have base : Event.splitterStarted request ∈
      ((s.emit (Event.splitterStarted request)).markSplitting request.tracks).events := by
    rw [(DiscPipeline.markSplitting_frame request.tracks _).1]
    simp
  rw [DiscPipeline.startSplitter_eq]
  obtain ⟨tracks, outDir, pregapType⟩ := request
  rcases tasksError with _ | err <;> rcases tracks with _ | ⟨t, ts⟩
  · exact base
  · exact base
  · exact base
  · obtain ⟨extra, h⟩ := DiscPipeline.events_trackError_append
      ((s.emit (Event.splitterStarted ⟨t :: ts, outDir, pregapType⟩)).markSplitting (t :: ts)) t err
    show _ ∈ (DiscPipeline.trackError _ t err).events
    rw [h]
    exact List.mem_append_left _ base

/-- What a `startWorker` call with no split slot leaves alone. -/
theorem DiscPipeline.startWorker_no_split_slot (s : DiscPipeline) (splitterCount count : Int)
    (tasksError : Option String) (h : splitterCount ≤ 0) :
    (s.startWorker splitterCount count tasksError).1.mSplitterRequests = s.mSplitterRequests ∧
    splitterStarts (s.startWorker splitterCount count tasksError).1.events
      = splitterStarts s.events ∧
    (∀ i, (s.startWorker splitterCount count tasksError).1.trackState i = s.trackState i) ∧
    (s.startWorker splitterCount count tasksError).2.1 = splitterCount := by
  rcases s.startWorker_cases splitterCount count tasksError with
    e | ⟨req, rest, _, hs, _, _, _⟩ | ⟨_, _, _, e⟩
  · rw [e]; exact ⟨rfl, rfl, fun _ => rfl, rfl⟩
  · omega
  · rw [e]
    refine ⟨?_, ?_, ?_, rfl⟩
    · rw [DiscPipeline.startEncoders_eq]
    · unfold splitterStarts
      rw [DiscPipeline.events_startEncoders, List.countP_append,
        countP_map_encoderEvent s _ _ false (fun _ _ _ _ => rfl)]
      simp
    · exact fun i => DiscPipeline.trackState_startEncoders s _ _ i

/-- C5, counterexample: two encode requests are queued and `startWorker` is
called with no split slot and two encode slots.  Both encoders are started, the
encode queue is emptied and the encode counter drops to 0. -/
theorem schedule_without_split_slot_starts_encoders :
    Reachable renamesSucceed twoTracksQueued ∧
    twoTracksQueued.mEncoderRequests.length = 2 ∧
    encoderStarts twoTracksQueued.events = 0 ∧
    encoderStarts (twoTracksQueued.startWorker 0 2 none).1.events = 2 ∧
    (twoTracksQueued.startWorker 0 2 none).1.mEncoderRequests = [] ∧
    (twoTracksQueued.startWorker 0 2 none).2.2 = 0 :=
  ⟨⟨sampleProfile, [sampleTrackA, sampleTrackB], "/work", "/work/tmp", fun _ => none,
      twoTrackStart,
      [Op.startWorker 1 2 none, Op.addEncoderRequest sampleTrackA "/work/tmp/a.wav",
        Op.addEncoderRequest sampleTrackB "/work/tmp/b.wav"], rfl, rfl⟩,
    by decide, by decide, by decide, by decide, by decide⟩

/-- C5, amended: `startWorker` is a no-op whenever the encode slot argument is
not positive: the state (queues, track states, log) and both counters are
returned unchanged.  When the split slot argument is not positive it starts no
split worker and leaves the split queue, every track state and the split
counter unchanged. -/
theorem schedule_noop_without_slots (s : DiscPipeline) (splitSlots encodeSlots : Int)
    (tasksError : Option String) :
    (encodeSlots ≤ 0 →
      s.startWorker splitSlots encodeSlots tasksError = (s, splitSlots, encodeSlots)) ∧
    (splitSlots ≤ 0 →
      (s.startWorker splitSlots encodeSlots tasksError).1.mSplitterRequests
        = s.mSplitterRequests ∧
      splitterStarts (s.startWorker splitSlots encodeSlots tasksError).1.events
        = splitterStarts s.events ∧
      (∀ i, (s.startWorker splitSlots encodeSlots tasksError).1.trackState i
        = s.trackState i) ∧
      (s.startWorker splitSlots encodeSlots tasksError).2.1 = splitSlots) :=
  ⟨fun h => s.startWorker_of_count_le _ _ _ h, fun h => s.startWorker_no_split_slot _ _ _ h⟩

/-- C5, witness: the amended statement with two queued encode requests, for the
slot arguments (1, 0) and (0, 2). -/
theorem schedule_noop_without_slots_witness :
    twoTracksQueued.startWorker 1 0 none = (twoTracksQueued, 1, 0) ∧
    (twoTracksQueued.startWorker 0 2 none).1.mSplitterRequests
      = twoTracksQueued.mSplitterRequests :=
  ⟨(schedule_noop_without_slots twoTracksQueued 1 0 none).1 (by decide),
    ((schedule_noop_without_slots twoTracksQueued 0 2 none).2 (by decide)).1⟩

/-- C6: `stop`, `trackError` and `interrupt` set the interrupted flag; once it
is set it stays set through every run of operations, and every `startWorker`
call made then returns the state and both counters unchanged. -/
theorem schedule_noop_once_interrupted (env : Env) (s : DiscPipeline) :
    s.stop.mInterrupted = true ∧
    (∀ t msg, (s.trackError t msg).mInterrupted = true) ∧
    (∀ st, (s.interrupt st).mInterrupted = true) ∧
    (s.mInterrupted = true →
      ∀ (ops : List Op) (splitSlots encodeSlots : Int) (tasksError : Option String),
        (s.run env ops).mInterrupted = true ∧
        (s.run env ops).startWorker splitSlots encodeSlots tasksError
          = (s.run env ops, splitSlots, encodeSlots)) :=
  ⟨s.mInterrupted_stop, fun t msg => s.mInterrupted_trackError t msg,
    fun st => s.mInterrupted_interrupt st,
    fun h ops _ _ _ =>
      ⟨DiscPipeline.mInterrupted_run env ops s h,
        DiscPipeline.startWorker_of_interrupted _ _ _ _ (DiscPipeline.mInterrupted_run env ops s h)⟩⟩

/-- C6, witness: two encode requests are queued, the pipeline is stopped, a
late split-ready event arrives, and `startWorker` with free slots starts
nothing. -/
theorem schedule_noop_once_interrupted_witness :
    twoTracksQueued.stop.mInterrupted = true ∧
    ((twoTracksQueued.stop.run renamesSucceed
        [Op.addEncoderRequest sampleTrackA "/work/tmp/a.wav"]).mInterrupted = true ∧
      (twoTracksQueued.stop.run renamesSucceed
        [Op.addEncoderRequest sampleTrackA "/work/tmp/a.wav"]).startWorker 1 2 none
        = (twoTracksQueued.stop.run renamesSucceed
            [Op.addEncoderRequest sampleTrackA "/work/tmp/a.wav"], 1, 2)) :=
  ⟨by decide,
    (schedule_noop_once_interrupted renamesSucceed twoTracksQueued.stop).2.2.2 (by decide)
      [Op.addEncoderRequest sampleTrackA "/work/tmp/a.wav"] 1 2 none⟩

/-- C7: a `startWorker` call with 0 split slots starts no split worker and
leaves the split queue unchanged, whatever is queued; a call with 0 encode
slots starts no encode worker and leaves the encode queue unchanged. -/
theorem schedule_zero_slots (s : DiscPipeline) (splitSlots encodeSlots : Int)
    (tasksError : Option String) :
    splitterStarts (s.startWorker 0 encodeSlots tasksError).1.events = splitterStarts s.events ∧
    (s.startWorker 0 encodeSlots tasksError).1.mSplitterRequests = s.mSplitterRequests ∧
    encoderStarts (s.startWorker splitSlots 0 tasksError).1.events = encoderStarts s.events ∧
    (s.startWorker splitSlots 0 tasksError).1.mEncoderRequests = s.mEncoderRequests := by
  have h1 := s.startWorker_no_split_slot 0 encodeSlots tasksError (le_refl 0)
  have h2 := s.startWorker_of_count_le splitSlots 0 tasksError (le_refl 0)
  refine ⟨h1.2.1, h1.1, ?_, ?_⟩
  · rw [h2]
  · rw [h2]

/-- C8: when the pipeline is not interrupted, a `startWorker` call with both
slot arguments positive and a queued split request removes that request from
the split queue, starts one split worker, for that request, and no encode
worker; a call with no split slot or no queued split request starts encoders
for the first `min encodeSlots (length of the encode queue)` requests of the
encode queue, in queue order, removes exactly those and leaves the split queue
unchanged. -/
theorem schedule_priority (s : DiscPipeline) (splitSlots encodeSlots : Int)
    (tasksError : Option String) (h : s.mInterrupted = false) :
    (∀ req rest, s.mSplitterRequests = req :: rest → 0 < splitSlots → 0 < encodeSlots →
      (s.startWorker splitSlots encodeSlots tasksError).1.mSplitterRequests = rest ∧
      splitterStarts (s.startWorker splitSlots encodeSlots tasksError).1.events
        = splitterStarts s.events + 1 ∧
      Event.splitterStarted req ∈ (s.startWorker splitSlots encodeSlots tasksError).1.events ∧
      encoderStarts (s.startWorker splitSlots encodeSlots tasksError).1.events
        = encoderStarts s.events) ∧
    (splitSlots ≤ 0 ∨ s.mSplitterRequests = [] →
      (s.startWorker splitSlots encodeSlots tasksError).1.events =
        s.events ++ (s.mEncoderRequests.take
          (min encodeSlots.toNat s.mEncoderRequests.length)).map s.encoderEvent ∧
      (s.startWorker splitSlots encodeSlots tasksError).1.mEncoderRequests =
        s.mEncoderRequests.drop (min encodeSlots.toNat s.mEncoderRequests.length) ∧
      (s.startWorker splitSlots encodeSlots tasksError).1.mSplitterRequests
        = s.mSplitterRequests) := by
  constructor
  · intro req rest hq hs hc
    rw [s.startWorker_split _ _ _ req rest h hc hs hq]
    refine ⟨?_, ?_, ?_, ?_⟩
    · rw [DiscPipeline.mSplitterRequests_startSplitter]
    · unfold splitterStarts
      rw [DiscPipeline.countP_events_startSplitter _ _ _ _ (fun _ _ _ => rfl) rfl rfl rfl
        (fun _ => rfl)]
      rfl
    · exact DiscPipeline.splitterStarted_mem_startSplitter _ _ _
    · unfold encoderStarts
      rw [DiscPipeline.countP_events_startSplitter _ _ _ _ (fun _ _ _ => rfl) rfl rfl rfl
        (fun _ => rfl)]
      rfl
  · intro hs
    by_cases hc : 0 < encodeSlots
    · rw [s.startWorker_encode _ _ _ h hc hs, DiscPipeline.startEncoders_eq]
      exact ⟨rfl, rfl, rfl⟩
    · have hc2 : encodeSlots ≤ 0 := by omega
      have hk : min encodeSlots.toNat s.mEncoderRequests.length = 0 := by omega
      rw [s.startWorker_of_count_le _ _ _ hc2, hk]
      simp

/-- C8, witness: with the split request queued, `startWorker 1 2` starts the
splitter and no encoder; with two encode requests queued and the split queue
empty, `startWorker 1 2` starts both encoders. -/
theorem schedule_priority_witness :
    oneTrackStart.mInterrupted = false ∧
    (oneTrackStart.startWorker 1 2 none).1.mSplitterRequests = [] ∧
    twoTracksQueued.mInterrupted = false ∧
    (twoTracksQueued.startWorker 1 2 none).1.mEncoderRequests =
      twoTracksQueued.mEncoderRequests.drop
        (min (2 : Int).toNat twoTracksQueued.mEncoderRequests.length) :=
  ⟨rfl,
    ((schedule_priority oneTrackStart 1 2 none rfl).1 _ [] rfl (by decide) (by decide)).1,
    by decide,
    ((schedule_priority twoTracksQueued 1 2 none (by decide)).2 (Or.inr (by decide))).2.1⟩

/-- C9: for non-negative slot arguments, both counters that `startWorker`
returns are non-negative and not above the value passed in, and the number of
workers that the call starts is at most the encode slot argument. -/
theorem schedule_slot_accounting (s : DiscPipeline) (splitSlots encodeSlots : Int)
    (tasksError : Option String) (h1 : 0 ≤ splitSlots) (h2 : 0 ≤ encodeSlots) :
    0 ≤ (s.startWorker splitSlots encodeSlots tasksError).2.1 ∧
    (s.startWorker splitSlots encodeSlots tasksError).2.1 ≤ splitSlots ∧
    0 ≤ (s.startWorker splitSlots encodeSlots tasksError).2.2 ∧
    (s.startWorker splitSlots encodeSlots tasksError).2.2 ≤ encodeSlots ∧
    ((splitterStarts (s.startWorker splitSlots encodeSlots tasksError).1.events +
        encoderStarts (s.startWorker splitSlots encodeSlots tasksError).1.events : Nat) : Int)
      ≤ ((splitterStarts s.events + encoderStarts s.events : Nat) : Int) + encodeSlots := by
  rcases s.startWorker_cases splitSlots encodeSlots tasksError with
    e | ⟨req, rest, _, hs, hc, _, e⟩ | ⟨hc, _, _, e⟩
  · rw [e]
    refine ⟨h1, le_refl _, h2, le_refl _, ?_⟩
    simp only []
    omega
  · rw [e]
    have e1 : splitterStarts (DiscPipeline.startSplitter
        { s with mSplitterRequests := rest } req tasksError).events = splitterStarts s.events + 1 := by
      unfold splitterStarts
      rw [DiscPipeline.countP_events_startSplitter _ _ _ _ (fun _ _ _ => rfl) rfl rfl rfl
        (fun _ => rfl)]
      rfl
    have e2 : encoderStarts (DiscPipeline.startSplitter
        { s with mSplitterRequests := rest } req tasksError).events = encoderStarts s.events := by
      unfold encoderStarts
      rw [DiscPipeline.countP_events_startSplitter _ _ _ _ (fun _ _ _ => rfl) rfl rfl rfl
        (fun _ => rfl)]
      rfl
    simp only [e1, e2]
    refine ⟨?_, ?_, ?_, ?_, ?_⟩ <;> omega
  · rw [e]
    have e1 : splitterStarts (DiscPipeline.startEncoders s encodeSlots s.mEncoderRequests).1.events
        = splitterStarts s.events := by
      unfold splitterStarts
      rw [DiscPipeline.events_startEncoders, List.countP_append,
        countP_map_encoderEvent s _ _ false (fun _ _ _ _ => rfl)]
      simp
    have e2 : encoderStarts (DiscPipeline.startEncoders s encodeSlots s.mEncoderRequests).1.events
        = encoderStarts s.events + min encodeSlots.toNat s.mEncoderRequests.length := by
      unfold encoderStarts
      rw [DiscPipeline.events_startEncoders, List.countP_append,
        countP_map_encoderEvent s _ _ true (fun _ _ _ _ => rfl)]
      simp
    have e3 : (DiscPipeline.startEncoders s encodeSlots s.mEncoderRequests).2
        = encodeSlots - ((min encodeSlots.toNat s.mEncoderRequests.length : Nat) : Int) := by
      rw [DiscPipeline.startEncoders_eq]
    simp only [e1, e2, e3]
    refine ⟨?_, ?_, ?_, ?_, ?_⟩ <;> omega

/-- C9, witness: two encode requests queued, slot arguments (1, 1). -/
theorem schedule_slot_accounting_witness :
    0 ≤ (twoTracksQueued.startWorker 1 1 none).2.1 ∧
    (twoTracksQueued.startWorker 1 1 none).2.1 ≤ 1 ∧
    0 ≤ (twoTracksQueued.startWorker 1 1 none).2.2 ∧
    (twoTracksQueued.startWorker 1 1 none).2.2 ≤ 1 ∧
    ((splitterStarts (twoTracksQueued.startWorker 1 1 none).1.events +
        encoderStarts (twoTracksQueued.startWorker 1 1 none).1.events : Nat) : Int)
      ≤ ((splitterStarts twoTracksQueued.events + encoderStarts twoTracksQueued.events : Nat)
          : Int) + 1 :=
  schedule_slot_accounting twoTracksQueued 1 1 none (by decide) (by decide)

/-! ## C10: `interrupt` -/

/-- C10: after `interrupt st`, every track of the run whose state was not
terminal has state `st`, every track whose state was terminal has kept it, the
encode queue is empty and the pipeline is marked interrupted. -/
theorem interrupt_postcondition (s : DiscPipeline) (st : TrackState) :
    (∀ t ∈ s.mTracks, (s.trackState t.index).isTerminal = false →
      (s.interrupt st).trackState t.index = st) ∧
    (∀ i, (s.trackState i).isTerminal = true →
      (s.interrupt st).trackState i = s.trackState i) ∧
    (s.interrupt st).mEncoderRequests = [] ∧
    (s.interrupt st).mInterrupted = true := by
  refine ⟨?_, ?_, s.mEncoderRequests_interrupt st, s.mInterrupted_interrupt st⟩
  · intro t ht hn
    rw [DiscPipeline.trackState_interrupt]
    have hex : ∃ u ∈ s.mTracks, u.index = t.index := ⟨t, ht, rfl⟩
    simp [hex, TrackState.interruptible_of_not_isTerminal hn]
  · intro i hterm
    rw [DiscPipeline.trackState_interrupt]
    simp [TrackState.not_interruptible_of_isTerminal hterm]

/-- C10, witness: two tracks, the first finalized (OK) and the second still
encoding, interrupted with Canceled. -/
theorem interrupt_postcondition_witness :
    ((twoTracksEncoding.trackDone renamesSucceed sampleTrackA
        "/work/tmp/a.encoded.flac").interrupt TrackState.Canceled).trackState sampleTrackB.index
      = TrackState.Canceled ∧
    ((twoTracksEncoding.trackDone renamesSucceed sampleTrackA
        "/work/tmp/a.encoded.flac").interrupt TrackState.Canceled).trackState sampleTrackA.index
      = (twoTracksEncoding.trackDone renamesSucceed sampleTrackA
          "/work/tmp/a.encoded.flac").trackState sampleTrackA.index :=
  ⟨(interrupt_postcondition (twoTracksEncoding.trackDone renamesSucceed sampleTrackA
      "/work/tmp/a.encoded.flac") TrackState.Canceled).1 sampleTrackB (by decide) (by decide),
    (interrupt_postcondition (twoTracksEncoding.trackDone renamesSucceed sampleTrackA
      "/work/tmp/a.encoded.flac") TrackState.Canceled).2.1 sampleTrackA.index (by decide)⟩

/-! ## C11 to C14: `stop` and `trackError` -/

/-- The loop of `interrupt` changes nothing when no track of the list is in a
state that it overwrites. -/
theorem DiscPipeline.interruptLoop_eq_self (st : TrackState) (tracks : List ConvTrack) :
    ∀ s : DiscPipeline, (∀ t ∈ tracks, (s.trackState t.index).interruptible = false) →
      tracks.foldl (DiscPipeline.interruptTrack st) s = s := by
  induction tracks with
  | nil => intro s _; rfl
  | cons t ts ih =>
    intro s h
    simp only [List.foldl_cons]
    have e : DiscPipeline.interruptTrack st s t = s := by
      unfold DiscPipeline.interruptTrack
      rw [h t (List.mem_cons_self _ _)]
      rfl
    rw [e]
    exact ih s (fun u hu => h u (List.mem_cons_of_mem _ hu))

/-- After `interrupt` with a state that `interrupt` does not overwrite, no track
of the run is in a state that it overwrites. -/
theorem DiscPipeline.not_interruptible_after_interrupt (s : DiscPipeline) (st : TrackState)
    (hst : st.interruptible = false) :
    ∀ t ∈ s.mTracks, ((s.interrupt st).trackState t.index).interruptible = false := by
  intro t ht
  rw [DiscPipeline.trackState_interrupt]
  have hex : ∃ u ∈ s.mTracks, u.index = t.index := ⟨t, ht, rfl⟩
  by_cases hb : (s.trackState t.index).interruptible = true
  · simp [hex, hb, hst]
  · simp only [hb, and_false, if_false]
    simpa using hb

/-- `interrupt` returns its argument when the flag is set, the encode queue is
empty and no track of the run is in a state that it overwrites. -/
theorem DiscPipeline.interrupt_eq_self (x : DiscPipeline) (st : TrackState)
    (h1 : x.mInterrupted = true) (h2 : x.mEncoderRequests = [])
    (h3 : ∀ t ∈ x.mTracks, (x.trackState t.index).interruptible = false) :
    x.interrupt st = x := by
  unfold DiscPipeline.interrupt
  have hx : ({ x with mInterrupted := true, mEncoderRequests := [] } : DiscPipeline) = x := by
    cases x
    simp only at h1 h2
    subst h1 h2
    rfl
  simp only [hx]
  exact DiscPipeline.interruptLoop_eq_self st x.mTracks x h3

theorem DiscPipeline.interrupt_stop (s : DiscPipeline) (st : TrackState) :
    s.stop.interrupt st = s.stop := by
  apply DiscPipeline.interrupt_eq_self
  · exact s.mInterrupted_stop
  · unfold DiscPipeline.stop
    simp only [DiscPipeline.mEncoderRequests_emit]
    exact s.mEncoderRequests_interrupt _
  · intro t ht
    unfold DiscPipeline.stop at ht ⊢
    simp only [DiscPipeline.mTracks_emit, DiscPipeline.trackState_emit] at ht ⊢
    rw [DiscPipeline.mTracks_interrupt] at ht
    exact s.not_interruptible_after_interrupt TrackState.Aborted rfl t ht

theorem DiscPipeline.events_trackError (s : DiscPipeline) (track : ConvTrack)
    (message : String) :
    ∃ aborted : List Event, (∀ e ∈ aborted, ∃ i, e = Event.trackProgressChanged i TrackState.Aborted 0) ∧
      (s.trackError track message).events =
        s.events ++ Event.trackProgressChanged track.index TrackState.Error 0 :: aborted ++
          [Event.stopAllThreads, Event.threadFinished, Event.finished,
            Event.errorMessage message] := by
  unfold DiscPipeline.trackError
  obtain ⟨extra, h, hall⟩ := DiscPipeline.events_interrupt
    ((s.setTrackState track.index TrackState.Error).emit
      (Event.trackProgressChanged track.index TrackState.Error 0)) TrackState.Aborted
  refine ⟨extra, hall, ?_⟩
  simp only [DiscPipeline.events_emit, h, DiscPipeline.events_setTrackState]
  simp

/-- C11, counterexample: two tracks are encoding and the user stops the run;
the first track ends in Aborted, not in Canceled. -/
theorem stop_marks_aborted_not_canceled :
    Reachable renamesSucceed twoTracksEncoding ∧
    twoTracksEncoding.trackState sampleTrackA.index = TrackState.Encoding ∧
    twoTracksEncoding.stop.trackState sampleTrackA.index = TrackState.Aborted ∧
    twoTracksEncoding.stop.trackState sampleTrackA.index ≠ TrackState.Canceled :=
  ⟨⟨sampleProfile, [sampleTrackA, sampleTrackB], "/work", "/work/tmp", fun _ => none,
      twoTrackStart,
      [Op.startWorker 1 2 none, Op.addEncoderRequest sampleTrackA "/work/tmp/a.wav",
        Op.addEncoderRequest sampleTrackB "/work/tmp/b.wav", Op.startWorker 0 2 none,
        Op.trackProgress sampleTrackA TrackState.Encoding 10,
        Op.trackProgress sampleTrackB TrackState.Encoding 10], rfl, rfl⟩,
    by decide, by decide, by decide⟩

/-- C11, amended: after `stop` every track of the run that was in a
non-terminal state is in state Aborted, and `stop` moves no track to
Canceled. -/
theorem stop_marks_aborted (s : DiscPipeline) :
    (∀ t ∈ s.mTracks, (s.trackState t.index).isTerminal = false →
      s.stop.trackState t.index = TrackState.Aborted) ∧
    (∀ i, s.stop.trackState i = TrackState.Canceled → s.trackState i = TrackState.Canceled) := by
  constructor
  · intro t ht hn
    rw [DiscPipeline.trackState_stop]
    have hex : ∃ u ∈ s.mTracks, u.index = t.index := ⟨t, ht, rfl⟩
    simp [hex, TrackState.interruptible_of_not_isTerminal hn]
  · intro i
    rw [DiscPipeline.trackState_stop]
    split_ifs
    · intro h; cases h
    · exact id

/-- C11, witness: the amended statement for the second of two encoding
tracks. -/
theorem stop_marks_aborted_witness :
    twoTracksEncoding.stop.trackState sampleTrackB.index = TrackState.Aborted :=
  (stop_marks_aborted twoTracksEncoding).1 sampleTrackB (by decide) (by decide)

/-- C12, counterexample: `stop` is called on the pipeline that the constructor
built, before the split request was started; the split request is still queued
afterwards. -/
theorem split_request_queued_after_stop :
    DiscPipeline.create sampleProfile [sampleTrackA] "/work" "/work/tmp" (fun _ => none)
      = Except.ok oneTrackStart ∧
    oneTrackStart.stop.mSplitterRequests.length = 1 ∧
    oneTrackStart.stop.mSplitterRequests ≠ [] :=
  ⟨rfl, by decide, by decide⟩

/-- C12, amended: after `stop` the encode queue is empty; the split queue is
what it was before the call, and every later `startWorker` call returns
without starting anything. -/
theorem stop_clears_encode_queue (s : DiscPipeline) :
    s.stop.mEncoderRequests = [] ∧
    s.stop.mSplitterRequests = s.mSplitterRequests ∧
    (∀ (splitSlots encodeSlots : Int) (tasksError : Option String),
      s.stop.startWorker splitSlots encodeSlots tasksError
        = (s.stop, splitSlots, encodeSlots)) := by
  refine ⟨?_, ?_, ?_⟩
  · unfold DiscPipeline.stop
    simp only [DiscPipeline.mEncoderRequests_emit]
    exact s.mEncoderRequests_interrupt _
  · unfold DiscPipeline.stop
    simp only [DiscPipeline.mSplitterRequests_emit]
    exact s.mSplitterRequests_interrupt _
  · intro splitSlots encodeSlots tasksError
    exact DiscPipeline.startWorker_of_interrupted _ _ _ _ s.mInterrupted_stop

/-- C13: a second `stop` leaves the track-state map, both request queues, the
album-gain buffer, the aggregator and the interrupted flag as the first `stop`
left them, and a track that was OK before the first `stop` is OK after both. -/
theorem stop_idempotent (s : DiscPipeline) :
    s.stop.stop.mTrackStates = s.stop.mTrackStates ∧
    s.stop.stop.mSplitterRequests = s.stop.mSplitterRequests ∧
    s.stop.stop.mEncoderRequests = s.stop.mEncoderRequests ∧
    s.stop.stop.mAlbumGainRequests = s.stop.mAlbumGainRequests ∧
    s.stop.stop.mAlbumGain = s.stop.mAlbumGain ∧
    s.stop.stop.mInterrupted = s.stop.mInterrupted ∧
    (∀ i, s.trackState i = TrackState.OK →
      s.stop.trackState i = TrackState.OK ∧ s.stop.stop.trackState i = TrackState.OK) := by
  have key : s.stop.stop =
      ((s.stop.emit Event.stopAllThreads).emit Event.threadFinished).emit Event.finished := by
    conv_lhs => unfold DiscPipeline.stop
    rw [show (s.interrupt TrackState.Aborted |>.emit Event.stopAllThreads |>.emit
      Event.threadFinished |>.emit Event.finished) = s.stop from rfl]
    rw [DiscPipeline.interrupt_stop]
  have hok : ∀ i, s.trackState i = TrackState.OK → s.stop.trackState i = TrackState.OK := by
    intro i hi
    rw [DiscPipeline.trackState_stop, hi]
    simp [TrackState.interruptible]
  refine ⟨?_, ?_, ?_, ?_, ?_, ?_, ?_⟩
  · simp only [key, DiscPipeline.mTrackStates_emit]
  · simp only [key, DiscPipeline.mSplitterRequests_emit]
  · simp only [key, DiscPipeline.mEncoderRequests_emit]
  · simp only [key, DiscPipeline.mAlbumGainRequests_emit]
  · simp only [key, DiscPipeline.mAlbumGain_emit]
  · simp only [key, DiscPipeline.mInterrupted_emit]
  · intro i hi
    refine ⟨hok i hi, ?_⟩
    simp only [key, DiscPipeline.trackState_emit]
    exact hok i hi

/-- C14: after `trackError T msg` track `T` is in state Error, every other
track of the run that was in a non-terminal state is Aborted, every other track
that was OK is still OK, the encode queue is empty, and the call has emitted
the progress events, then `stopAllThreads`, `threadFinished`, `finished` once,
and the error message. -/
theorem trackError_postcondition (s : DiscPipeline) (T : ConvTrack) (msg : String) :
    (s.trackError T msg).trackState T.index = TrackState.Error ∧
    (∀ t ∈ s.mTracks, t.index ≠ T.index → (s.trackState t.index).isTerminal = false →
      (s.trackError T msg).trackState t.index = TrackState.Aborted) ∧
    (∀ i, i ≠ T.index → s.trackState i = TrackState.OK →
      (s.trackError T msg).trackState i = TrackState.OK) ∧
    (s.trackError T msg).mEncoderRequests = [] ∧
    (∃ aborted : List Event,
      (∀ e ∈ aborted, ∃ i, e = Event.trackProgressChanged i TrackState.Aborted 0) ∧
      (s.trackError T msg).events =
        s.events ++ Event.trackProgressChanged T.index TrackState.Error 0 :: aborted ++
          [Event.stopAllThreads, Event.threadFinished, Event.finished,
            Event.errorMessage msg]) ∧
    finishedCount (s.trackError T msg).events = finishedCount s.events + 1 := by
  refine ⟨?_, ?_, ?_, s.mEncoderRequests_trackError T msg, s.events_trackError T msg,
    s.finishedCount_trackError T msg⟩
  · rw [DiscPipeline.trackState_trackError]; simp
  · intro t ht hne hn
    rw [DiscPipeline.trackState_trackError]
    have hex : ∃ u ∈ s.mTracks, u.index = t.index := ⟨t, ht, rfl⟩
    simp [hne, hex, TrackState.interruptible_of_not_isTerminal hn]
  · intro i hne hi
    rw [DiscPipeline.trackState_trackError, hi]
    simp [hne, TrackState.interruptible]

/-- C14, witness: two tracks are encoding and the encoder of the first reports
an error. -/
theorem trackError_postcondition_witness :
    (twoTracksEncoding.trackError sampleTrackA "encoder failed").trackState sampleTrackA.index
      = TrackState.Error ∧
    (twoTracksEncoding.trackError sampleTrackA "encoder failed").trackState sampleTrackB.index
      = TrackState.Aborted :=
  ⟨(trackError_postcondition twoTracksEncoding sampleTrackA "encoder failed").1,
    (trackError_postcondition twoTracksEncoding sampleTrackA "encoder failed").2.1 sampleTrackB
      (by decide) (by decide) (by decide)⟩

/-! ## What the event handlers leave alone -/

theorem DiscPipeline.SameConfig.same (s : DiscPipeline) : s.SameConfig s :=
  ⟨rfl, rfl, rfl, rfl, rfl, rfl⟩

theorem DiscPipeline.SameConfig.andThen {a b c : DiscPipeline} (h1 : a.SameConfig b)
    (h2 : b.SameConfig c) : a.SameConfig c :=
  ⟨h2.1.trans h1.1, h2.2.1.trans h1.2.1, h2.2.2.1.trans h1.2.2.1,
    h2.2.2.2.1.trans h1.2.2.2.1, h2.2.2.2.2.1.trans h1.2.2.2.2.1,
    h2.2.2.2.2.2.trans h1.2.2.2.2.2⟩

theorem DiscPipeline.sameConfig_emit (s : DiscPipeline) (e : Event) : s.SameConfig (s.emit e) :=
  ⟨rfl, rfl, rfl, rfl, rfl, rfl⟩

theorem DiscPipeline.sameConfig_setTrackState (s : DiscPipeline) (i : Nat) (st : TrackState) :
    s.SameConfig (s.setTrackState i st) :=
  ⟨rfl, rfl, rfl, rfl, rfl, rfl⟩

theorem DiscPipeline.sameConfig_trackProgress (s : DiscPipeline) (track : ConvTrack)
    (state : TrackState) (percent : Int) : s.SameConfig (s.trackProgress track state percent) := by
  unfold DiscPipeline.trackProgress
  split_ifs
  · exact DiscPipeline.SameConfig.same s
  · exact ⟨rfl, rfl, rfl, rfl, rfl, rfl⟩

theorem DiscPipeline.sameConfig_interrupt (s : DiscPipeline) (st : TrackState) :
    s.SameConfig (s.interrupt st) := by
  unfold DiscPipeline.interrupt
  obtain ⟨_, _, h3, h4, h5, h6, h7, h8⟩ := DiscPipeline.interruptLoop_frame st s.mTracks
    { s with mInterrupted := true, mEncoderRequests := [] }
  exact ⟨h7, h4, h8, h3, h6, h5⟩

theorem DiscPipeline.sameConfig_stop (s : DiscPipeline) : s.SameConfig s.stop := by
  unfold DiscPipeline.stop
  refine DiscPipeline.SameConfig.andThen ?_ (DiscPipeline.sameConfig_emit _ _)
  refine DiscPipeline.SameConfig.andThen ?_ (DiscPipeline.sameConfig_emit _ _)
  refine DiscPipeline.SameConfig.andThen ?_ (DiscPipeline.sameConfig_emit _ _)
  exact DiscPipeline.sameConfig_interrupt _ _

theorem DiscPipeline.sameConfig_trackError (s : DiscPipeline) (track : ConvTrack)
    (message : String) : s.SameConfig (s.trackError track message) := by
  unfold DiscPipeline.trackError
  simp only []
  refine DiscPipeline.SameConfig.andThen ?_ (DiscPipeline.sameConfig_emit _ _)
  refine DiscPipeline.SameConfig.andThen ?_ (DiscPipeline.sameConfig_emit _ _)
  refine DiscPipeline.SameConfig.andThen ?_ (DiscPipeline.sameConfig_emit _ _)
  refine DiscPipeline.SameConfig.andThen ?_ (DiscPipeline.sameConfig_emit _ _)
  refine DiscPipeline.SameConfig.andThen ?_ (DiscPipeline.sameConfig_interrupt _ _)
  refine DiscPipeline.SameConfig.andThen ?_ (DiscPipeline.sameConfig_emit _ _)
  exact DiscPipeline.sameConfig_setTrackState _ _ _

theorem DiscPipeline.sameConfig_ite_emit (s : DiscPipeline) (c : Prop) [Decidable c]
    (e : Event) : s.SameConfig (if c then s.emit e else s) := by
  split_ifs
  · exact s.sameConfig_emit e
  · exact DiscPipeline.SameConfig.same s

theorem DiscPipeline.sameConfig_trackDone (env : Env) (s : DiscPipeline) (track : ConvTrack)
    (outFileName : String) : s.SameConfig (s.trackDone env track outFileName) := by
  unfold DiscPipeline.trackDone
  simp only []
  refine DiscPipeline.SameConfig.andThen ?_ (DiscPipeline.sameConfig_ite_emit _ _ _)
  refine DiscPipeline.SameConfig.andThen ?_ (DiscPipeline.sameConfig_emit _ _)
  refine DiscPipeline.SameConfig.andThen ?_ (DiscPipeline.sameConfig_emit _ _)
  refine DiscPipeline.SameConfig.andThen ?_ (DiscPipeline.sameConfig_setTrackState _ _ _)
  cases env.renameError outFileName track.resultFilePath with
  | none =>
    refine DiscPipeline.SameConfig.andThen ?_ (DiscPipeline.sameConfig_emit _ _)
    exact DiscPipeline.sameConfig_emit _ _
  | some err =>
    refine DiscPipeline.SameConfig.andThen ?_ (DiscPipeline.sameConfig_trackError _ _ _)
    refine DiscPipeline.SameConfig.andThen ?_ (DiscPipeline.sameConfig_emit _ _)
    exact DiscPipeline.sameConfig_emit _ _

theorem DiscPipeline.sameConfig_albumTagged (env : Env) (s : DiscPipeline) (r : Request) :
    s.SameConfig (s.albumTagged env r) := by
  unfold DiscPipeline.albumTagged
  refine DiscPipeline.SameConfig.andThen ?_ (DiscPipeline.sameConfig_trackDone env _ _ _)
  exact DiscPipeline.sameConfig_emit _ _

theorem DiscPipeline.sameConfig_writeAlbumGainLoop (env : Env) (requests : List Request) :
    ∀ s : DiscPipeline, s.SameConfig (requests.foldl (DiscPipeline.albumTagged env) s) := by
  induction requests with
  | nil => intro s; exact DiscPipeline.SameConfig.same s
  | cons r rs ih =>
    intro s
    simp only [List.foldl_cons]
    exact DiscPipeline.SameConfig.andThen (s.sameConfig_albumTagged env r) (ih _)

theorem DiscPipeline.sameConfig_addEncoderRequest (s : DiscPipeline) (track : ConvTrack)
    (inputFile : String) : s.SameConfig (s.addEncoderRequest track inputFile) := by
  unfold DiscPipeline.addEncoderRequest
  refine DiscPipeline.SameConfig.andThen ?_ (DiscPipeline.sameConfig_emit _ _)
  refine DiscPipeline.SameConfig.andThen ?_ (DiscPipeline.sameConfig_trackProgress _ _ _ _)
  exact ⟨rfl, rfl, rfl, rfl, rfl, rfl⟩

/-- `writeGain` leaves profile, track list, temporary directory and split
queue alone. -/
theorem DiscPipeline.writeGain_frame (env : Env) (s : DiscPipeline) (track : ConvTrack)
    (fileName : String) (trackGain : GainResult) :
    (s.writeGain env track fileName trackGain).1.mProfile = s.mProfile ∧
    (s.writeGain env track fileName trackGain).1.mTracks = s.mTracks ∧
    (s.writeGain env track fileName trackGain).1.mTmpDir = s.mTmpDir ∧
    (s.writeGain env track fileName trackGain).1.mSplitterRequests = s.mSplitterRequests := by
  have hb : ((s.emit (Event.trackReplayGain fileName trackGain)).bufferAlbumGain track fileName
        trackGain).mProfile = s.mProfile ∧
      ((s.emit (Event.trackReplayGain fileName trackGain)).bufferAlbumGain track fileName
        trackGain).mTracks = s.mTracks ∧
      ((s.emit (Event.trackReplayGain fileName trackGain)).bufferAlbumGain track fileName
        trackGain).mTmpDir = s.mTmpDir ∧
      ((s.emit (Event.trackReplayGain fileName trackGain)).bufferAlbumGain track fileName
        trackGain).mSplitterRequests = s.mSplitterRequests := by
    unfold DiscPipeline.bufferAlbumGain
    have h := DiscPipeline.sameConfig_trackProgress
      { s.emit (Event.trackReplayGain fileName trackGain) with
        mAlbumGain := (s.emit (Event.trackReplayGain fileName trackGain)).mAlbumGain ++
          [trackGain] } track TrackState.WaitGain 0
    exact ⟨h.1, h.2.1, h.2.2.1, h.2.2.2.1⟩
  rcases s.writeGain_fst_cases env track fileName trackGain with e | e | e | ⟨done, _, e⟩ <;>
    rw [e]
  · exact ⟨rfl, rfl, rfl, rfl⟩
  · have h := DiscPipeline.sameConfig_trackDone env
      (s.emit (Event.trackReplayGain fileName trackGain)) track fileName
    exact ⟨h.1, h.2.1, h.2.2.1, h.2.2.2.1⟩
  · exact hb
  · have h := DiscPipeline.sameConfig_writeAlbumGainLoop env done
      ((s.emit (Event.trackReplayGain fileName trackGain)).bufferAlbumGain track fileName
        trackGain)
    exact ⟨h.1.trans hb.1, h.2.1.trans hb.2.1, h.2.2.1.trans hb.2.2.1,
      h.2.2.2.1.trans hb.2.2.2⟩

/-- No step adds a request to the split queue: the queue after the step is a
suffix of the queue before it. -/
theorem DiscPipeline.mSplitterRequests_step (env : Env) (s : DiscPipeline) (op : Op) :
    (s.step env op).mSplitterRequests <:+ s.mSplitterRequests := by
  cases op with
  | startWorker splitterCount count tasksError =>
    show (s.startWorker splitterCount count tasksError).1.mSplitterRequests <:+ _
    rcases s.startWorker_cases splitterCount count tasksError with
      e | ⟨req, rest, hq, _, _, _, e⟩ | ⟨_, _, _, e⟩
    · rw [e]
    · rw [e, DiscPipeline.mSplitterRequests_startSplitter, hq]
      exact List.suffix_cons req rest
    · rw [e, DiscPipeline.startEncoders_eq]
  | addEncoderRequest track inputFile =>
    show (s.addEncoderRequest track inputFile).mSplitterRequests <:+ _
    rw [(s.sameConfig_addEncoderRequest track inputFile).2.2.2.1]
  | trackProgress track state percent =>
    show (s.trackProgress track state percent).mSplitterRequests <:+ _
    rw [(s.sameConfig_trackProgress track state percent).2.2.2.1]
  | writeGain track fileName trackGain =>
    show (s.writeGain env track fileName trackGain).1.mSplitterRequests <:+ _
    rw [(s.writeGain_frame env track fileName trackGain).2.2.2]
  | trackDone track outFileName =>
    show (s.trackDone env track outFileName).mSplitterRequests <:+ _
    rw [(s.sameConfig_trackDone env track outFileName).2.2.2.1]
  | trackError track message =>
    show (s.trackError track message).mSplitterRequests <:+ _
    rw [(s.sameConfig_trackError track message).2.2.2.1]
  | interrupt state =>
    show (s.interrupt state).mSplitterRequests <:+ _
    rw [(s.sameConfig_interrupt state).2.2.2.1]
  | stop =>
    show s.stop.mSplitterRequests <:+ _
    rw [s.sameConfig_stop.2.2.2.1]

theorem DiscPipeline.mSplitterRequests_run (env : Env) (ops : List Op) :
    ∀ s : DiscPipeline, (s.run env ops).mSplitterRequests <:+ s.mSplitterRequests := by
  induction ops with
  | nil => intro s; exact List.suffix_refl _
  | cons op ops ih =>
    intro s
    unfold DiscPipeline.run at ih ⊢
    simp only [List.foldl_cons]
    exact (ih _).trans (s.mSplitterRequests_step env op)

/-! ## The constructor -/

/-- The loop of the constructor, when every directory can be made. -/
theorem DiscPipeline.addTracks_ok (dirError : String → Option String) (tracks : List ConvTrack) :
    ∀ s : DiscPipeline, (∀ t ∈ tracks, dirError (dirName t.resultFilePath) = none) →
      ∃ s', DiscPipeline.addTracks dirError s tracks = Except.ok s' ∧
        s'.mTracks = s.mTracks ++ tracks ∧
        (∀ t ∈ tracks, s'.trackState t.index = TrackState.NotRunning) ∧
        (∀ i, s.trackState i = TrackState.NotRunning → s'.trackState i = TrackState.NotRunning) ∧
        s'.mInterrupted = s.mInterrupted ∧ s'.mEncoderRequests = s.mEncoderRequests ∧
        s'.mSplitterRequests = s.mSplitterRequests ∧ s'.mTmpDir = s.mTmpDir ∧
        s'.events = s.events := by
  induction tracks with
  | nil =>
    intro s _
    exact ⟨s, rfl, by simp, by simp, fun _ h => h, rfl, rfl, rfl, rfl, rfl⟩
  | cons t ts ih =>
    intro s h
    unfold DiscPipeline.addTracks
    simp only [h t (List.mem_cons_self _ _)]
    obtain ⟨s', h1, h2, h3, h4, h5, h6, h7, h8, h9⟩ :=
      ih _ (fun u hu => h u (List.mem_cons_of_mem _ hu))
    refine ⟨s', h1, ?_, ?_, ?_, ?_, ?_, ?_, ?_, ?_⟩
    · rw [h2]; split_ifs <;> simp
    · intro u hu
      rcases List.mem_cons.1 hu with hu | hu
      · subst hu
        apply h4
        split_ifs <;>
          exact (DiscPipeline.trackState_setTrackState _ _ _ _).trans (if_pos rfl)
      · exact h3 u hu
    · intro i hi
      apply h4
      have key : ∀ x : DiscPipeline, x.trackState i = TrackState.NotRunning →
          (x.setTrackState t.index TrackState.NotRunning).trackState i = TrackState.NotRunning := by
        intro x hx
        rw [DiscPipeline.trackState_setTrackState]
        split_ifs
        · rfl
        · exact hx
      split_ifs
      · exact key { s with mProfile := { s.mProfile with gainType := GainType.Disable } } hi
      · exact key s hi
    · rw [h5]; split_ifs <;> rfl
    · rw [h6]; split_ifs <;> rfl
    · rw [h7]; split_ifs <;> rfl
    · rw [h8]; split_ifs <;> rfl
    · rw [h9]; split_ifs <;> rfl

/-! ## C20: the constructor -/

/-- C20: for a non-empty track list whose directories can all be made, the
constructor succeeds; in the pipeline it returns every track is NotRunning, the
run is not interrupted, the encode queue is empty and the split queue holds
exactly one request, with all the tracks in their order and the temporary
directory as output directory.  In every run of operations from there the split
queue is a suffix of that queue: no request is ever added. -/
theorem create_postcondition (env : Env) (profile : Profile) (tracks : List ConvTrack)
    (dir tmpDir : String) (dirError : String → Option String) (hne : tracks ≠ [])
    (hdir : dirError dir = none)
    (htracks : ∀ t ∈ tracks, dirError (dirName t.resultFilePath) = none) :
    ∃ s, DiscPipeline.create profile tracks dir tmpDir dirError = Except.ok s ∧
      s.mTracks = tracks ∧
      (∀ t ∈ tracks, s.trackState t.index = TrackState.NotRunning) ∧
      s.mInterrupted = false ∧
      s.mEncoderRequests = [] ∧
      (∃ pregapType, s.mSplitterRequests = [⟨tracks, tmpDir, pregapType⟩]) ∧
      (∀ ops, (s.run env ops).mSplitterRequests <:+ s.mSplitterRequests ∧
        (s.run env ops).mSplitterRequests.length ≤ 1) := by
  obtain ⟨s', h1, h2, h3, _, h5, h6, h7, h8, _⟩ := DiscPipeline.addTracks_ok dirError tracks
    { mProfile := profile, mTracks := [], mTmpDir := tmpDir, mTrackStates := StateMap.empty,
      mSplitterRequests := [], mEncoderRequests := [], mAlbumGainRequests := [],
      mAlbumGain := [], mInterrupted := false, events := [] } htracks
  simp only [List.nil_append] at h2
  obtain ⟨t0, ts, hts⟩ : ∃ t0 ts, tracks = t0 :: ts := by
    cases tracks with
    | nil => exact absurd rfl hne
    | cons t0 ts => exact ⟨t0, ts, rfl⟩
  have hp : s'.hasPregap = some (t0.index == 0 && decide (t0.cueIndex1Ms > 0)) := by
    unfold DiscPipeline.hasPregap
    rw [h2, hts]
  have hq : ∀ x : DiscPipeline,
      s'.addSpliterRequest = some x →
        DiscPipeline.create profile tracks dir tmpDir dirError = Except.ok x := by
    intro x hx
    unfold DiscPipeline.create
    simp only [hdir, h1, hx]
  have ha : ∃ x, s'.addSpliterRequest = some x ∧ x.mTracks = s'.mTracks ∧
      x.mTrackStates = s'.mTrackStates ∧ x.mInterrupted = s'.mInterrupted ∧
      x.mEncoderRequests = s'.mEncoderRequests ∧
      ∃ pregapType, x.mSplitterRequests =
        s'.mSplitterRequests ++ [⟨s'.mTracks, s'.mTmpDir, pregapType⟩] := by
    unfold DiscPipeline.addSpliterRequest
    rw [hp]
    exact ⟨_, rfl, rfl, rfl, rfl, rfl, _, rfl⟩
  obtain ⟨x, hx, x1, x2, x3, x4, pregapType, x5⟩ := ha
  have x6 : x.mSplitterRequests = [⟨tracks, tmpDir, pregapType⟩] := by
    rw [x5, h7, h2, h8]; rfl
  refine ⟨x, hq x hx, x1.trans h2, ?_, x3.trans h5, x4.trans h6, ⟨pregapType, x6⟩, ?_⟩
  · intro t ht
    have := h3 t ht
    unfold DiscPipeline.trackState at this ⊢
    rw [x2]; exact this
  · intro ops
    have hs := DiscPipeline.mSplitterRequests_run env ops x
    refine ⟨hs, ?_⟩
    have hl := hs.length_le
    rw [x6] at hl
    exact hl

/-- C20, witness: the constructor on the two sample tracks. -/
theorem create_postcondition_witness :
    ∃ s, DiscPipeline.create sampleProfile [sampleTrackA, sampleTrackB] "/work" "/work/tmp"
        (fun _ => none) = Except.ok s ∧
      s.mTracks = [sampleTrackA, sampleTrackB] ∧
      (∀ t ∈ [sampleTrackA, sampleTrackB], s.trackState t.index = TrackState.NotRunning) ∧
      s.mInterrupted = false ∧
      s.mEncoderRequests = [] ∧
      (∃ pregapType,
        s.mSplitterRequests = [⟨[sampleTrackA, sampleTrackB], "/work/tmp", pregapType⟩]) ∧
      (∀ ops, (s.run renamesSucceed ops).mSplitterRequests <:+ s.mSplitterRequests ∧
        (s.run renamesSucceed ops).mSplitterRequests.length ≤ 1) :=
  create_postcondition renamesSucceed sampleProfile [sampleTrackA, sampleTrackB] "/work"
    "/work/tmp" (fun _ => none) (by decide) rfl (fun _ _ => rfl)

/-! ## How the handlers advance the state -/

theorem DiscPipeline.Advances.stay (p : TrackState → Prop) (q : Event → Prop)
    (s : DiscPipeline) : s.Advances p q s :=
  ⟨rfl, rfl, ⟨[], by simp, by simp⟩, fun _ => Or.inl rfl⟩

theorem DiscPipeline.Advances.followedBy {p : TrackState → Prop} {q : Event → Prop}
    {a b c : DiscPipeline} (h1 : a.Advances p q b) (h2 : b.Advances p q c) :
    a.Advances p q c := by
  obtain ⟨t1, p1, ⟨x1, e1, q1⟩, s1⟩ := h1
  obtain ⟨t2, p2, ⟨x2, e2, q2⟩, s2⟩ := h2
  refine ⟨t2.trans t1, p2.trans p1, ⟨x1 ++ x2, ?_, ?_⟩, ?_⟩
  · rw [e2, e1, List.append_assoc]
  · intro e he
    rcases List.mem_append.1 he with he | he
    · exact q1 e he
    · exact q2 e he
  · intro i
    rcases s2 i with h | h
    · rcases s1 i with h' | h'
      · exact Or.inl (h.trans h')
      · exact Or.inr (h ▸ h')
    · exact Or.inr h

theorem DiscPipeline.Advances.mono {p p' : TrackState → Prop} {q q' : Event → Prop}
    {a b : DiscPipeline} (h : a.Advances p q b) (hp : ∀ st, p st → p' st)
    (hq : ∀ e, q e → q' e) : a.Advances p' q' b := by
  obtain ⟨t1, p1, ⟨x1, e1, q1⟩, s1⟩ := h
  exact ⟨t1, p1, ⟨x1, e1, fun e he => hq e (q1 e he)⟩,
    fun i => (s1 i).imp id (hp _)⟩

theorem DiscPipeline.advances_emit (p : TrackState → Prop) {q : Event → Prop}
    (s : DiscPipeline) (e : Event) (hq : q e) : s.Advances p q (s.emit e) :=
  ⟨rfl, rfl, ⟨[e], rfl, by simpa using hq⟩, fun _ => Or.inl rfl⟩

theorem DiscPipeline.advances_setTrackState {p : TrackState → Prop} (q : Event → Prop)
    (s : DiscPipeline) (i : Nat) (st : TrackState) (hp : p st) :
    s.Advances p q (s.setTrackState i st) := by
  refine ⟨rfl, rfl, ⟨[], by simp, by simp⟩, fun j => ?_⟩
  rw [DiscPipeline.trackState_setTrackState]
  split_ifs
  · exact Or.inr hp
  · exact Or.inl rfl

/-- A state that differs only in fields other than track list, profile, log and
state map. -/
theorem DiscPipeline.advances_of_eq (p : TrackState → Prop) (q : Event → Prop)
    (s s' : DiscPipeline) (h1 : s'.mTracks = s.mTracks) (h2 : s'.mProfile = s.mProfile)
    (h3 : s'.events = s.events) (h4 : s'.mTrackStates = s.mTrackStates) :
    s.Advances p q s' := by
  refine ⟨h1, h2, ⟨[], by simp [h3], by simp⟩, fun i => Or.inl ?_⟩
  unfold DiscPipeline.trackState
  rw [h4]

theorem DiscPipeline.advances_trackProgress {p : TrackState → Prop} {q : Event → Prop}
    (s : DiscPipeline) (track : ConvTrack) (state : TrackState) (percent : Int) (hp : p state)
    (hq : q (Event.trackProgressChanged track.index state percent)) :
    s.Advances p q (s.trackProgress track state percent) := by
  unfold DiscPipeline.trackProgress
  split_ifs
  · exact DiscPipeline.Advances.stay p q s
  · exact DiscPipeline.Advances.followedBy (DiscPipeline.advances_setTrackState q s _ _ hp)
      (DiscPipeline.advances_emit p _ _ hq)

theorem DiscPipeline.advances_interrupt {p : TrackState → Prop} {q : Event → Prop}
    (s : DiscPipeline) (st : TrackState) (hp : p st)
    (hq : ∀ i, q (Event.trackProgressChanged i st 0)) : s.Advances p q (s.interrupt st) := by
  obtain ⟨extra, h1, h2⟩ := s.events_interrupt st
  refine ⟨s.mTracks_interrupt st, (s.sameConfig_interrupt st).1, ⟨extra, h1, ?_⟩, fun i => ?_⟩
  · intro e he
    obtain ⟨i, hi⟩ := h2 e he
    rw [hi]; exact hq i
  · rw [DiscPipeline.trackState_interrupt]
    split_ifs
    · exact Or.inr hp
    · exact Or.inl rfl

theorem workState_Aborted : workState TrackState.Aborted := ⟨by decide, by decide⟩

theorem workState_Error : workState TrackState.Error := ⟨by decide, by decide⟩

theorem workState_of_countsAsRunning {st : TrackState} (h : st.countsAsRunning = true) :
    workState st := by
  cases st <;> first | exact ⟨by decide, by decide⟩ | cases h

theorem DiscPipeline.advances_stop (s : DiscPipeline) :
    s.Advances workState notFinalization s.stop := by
  unfold DiscPipeline.stop
  refine DiscPipeline.Advances.followedBy ?_ (DiscPipeline.advances_emit _ _ _ rfl)
  refine DiscPipeline.Advances.followedBy ?_ (DiscPipeline.advances_emit _ _ _ rfl)
  refine DiscPipeline.Advances.followedBy ?_ (DiscPipeline.advances_emit _ _ _ rfl)
  exact DiscPipeline.advances_interrupt _ _ workState_Aborted (fun _ => rfl)

theorem DiscPipeline.advances_trackError (s : DiscPipeline) (track : ConvTrack)
    (message : String) : s.Advances workState notFinalization (s.trackError track message) := by
  unfold DiscPipeline.trackError
  simp only []
  refine DiscPipeline.Advances.followedBy ?_ (DiscPipeline.advances_emit _ _ _ rfl)
  refine DiscPipeline.Advances.followedBy ?_ (DiscPipeline.advances_emit _ _ _ rfl)
  refine DiscPipeline.Advances.followedBy ?_ (DiscPipeline.advances_emit _ _ _ rfl)
  refine DiscPipeline.Advances.followedBy ?_ (DiscPipeline.advances_emit _ _ _ rfl)
  refine DiscPipeline.Advances.followedBy ?_
    (DiscPipeline.advances_interrupt _ _ workState_Aborted (fun _ => rfl))
  refine DiscPipeline.Advances.followedBy ?_ (DiscPipeline.advances_emit _ _ _ rfl)
  exact DiscPipeline.advances_setTrackState _ _ _ _ workState_Error

theorem DiscPipeline.advances_markSplitting (tracks : List ConvTrack) :
    ∀ s : DiscPipeline, s.Advances workState notFinalization (s.markSplitting tracks) := by
  induction tracks with
  | nil => intro s; exact DiscPipeline.Advances.stay _ _ s
  | cons t ts ih =>
    intro s
    unfold DiscPipeline.markSplitting at ih ⊢
    simp only [List.foldl_cons]
    exact DiscPipeline.Advances.followedBy
      (DiscPipeline.advances_setTrackState _ s _ _ ⟨by decide, by decide⟩) (ih _)

theorem DiscPipeline.advances_startSplitter (s : DiscPipeline) (request : SplitterRequest)
    (tasksError : Option String) :
    s.Advances workState notFinalization (s.startSplitter request tasksError) := by
  have base : s.Advances workState notFinalization
      ((s.emit (Event.splitterStarted request)).markSplitting request.tracks) := by
    refine DiscPipeline.Advances.followedBy ?_ (DiscPipeline.advances_markSplitting _ _)
    exact DiscPipeline.advances_emit _ _ _ rfl
  rw [DiscPipeline.startSplitter_eq]
  split
  · exact DiscPipeline.Advances.followedBy base (DiscPipeline.advances_trackError _ _ _)
  · exact base

theorem DiscPipeline.advances_startEncoders (s : DiscPipeline) (count : Int)
    (q : List Request) :
    s.Advances workState notFinalization (DiscPipeline.startEncoders s count q).1 := by
  rw [DiscPipeline.startEncoders_eq]
  refine ⟨rfl, rfl, ⟨_, rfl, ?_⟩, fun _ => Or.inl rfl⟩
  intro e he
  obtain ⟨r, _, hr⟩ := List.mem_map.1 he
  rw [← hr]
  rfl

theorem DiscPipeline.advances_startWorker (s : DiscPipeline) (splitterCount count : Int)
    (tasksError : Option String) :
    s.Advances workState notFinalization (s.startWorker splitterCount count tasksError).1 := by
  rcases s.startWorker_cases splitterCount count tasksError with
    e | ⟨req, rest, _, _, _, _, e⟩ | ⟨_, _, _, e⟩
  · rw [e]; exact DiscPipeline.Advances.stay _ _ s
  · rw [e]
    exact DiscPipeline.Advances.followedBy
      (DiscPipeline.advances_of_eq _ _ s { s with mSplitterRequests := rest } rfl rfl rfl rfl)
      (DiscPipeline.advances_startSplitter _ _ _)
  · rw [e]; exact DiscPipeline.advances_startEncoders s _ _

theorem DiscPipeline.advances_addEncoderRequest (s : DiscPipeline) (track : ConvTrack)
    (inputFile : String) :
    s.Advances workState notFinalization (s.addEncoderRequest track inputFile) := by
  unfold DiscPipeline.addEncoderRequest
  simp only []
  refine DiscPipeline.Advances.followedBy ?_ (DiscPipeline.advances_emit _ _ _ rfl)
  refine DiscPipeline.Advances.followedBy ?_
    (DiscPipeline.advances_trackProgress _ _ _ _ ⟨by decide, by decide⟩ rfl)
  exact DiscPipeline.advances_of_eq _ _ s _ rfl rfl rfl rfl

theorem DiscPipeline.advances_bufferAlbumGain (s : DiscPipeline) (track : ConvTrack)
    (fileName : String) (trackGain : GainResult) :
    s.Advances workState notFinalization (s.bufferAlbumGain track fileName trackGain) := by
  unfold DiscPipeline.bufferAlbumGain
  simp only []
  refine DiscPipeline.Advances.followedBy ?_ (DiscPipeline.advances_of_eq _ _ _ _ rfl rfl rfl rfl)
  refine DiscPipeline.Advances.followedBy ?_
    (DiscPipeline.advances_trackProgress _ _ _ _ ⟨by decide, by decide⟩ rfl)
  exact DiscPipeline.advances_of_eq _ _ s _ rfl rfl rfl rfl

/-- `trackDone` writes OK, Error and Aborted, none of which is NotRunning. -/
theorem DiscPipeline.advances_trackDone (env : Env) (s : DiscPipeline) (track : ConvTrack)
    (outFileName : String) :
    s.Advances (fun st => st ≠ TrackState.NotRunning) (fun _ => True)
      (s.trackDone env track outFileName) := by
  have hi : ∀ (x : DiscPipeline) (c : Prop) [Decidable c] (e : Event),
      x.Advances (fun st => st ≠ TrackState.NotRunning) (fun _ => True)
        (if c then x.emit e else x) := by
    intro x c _ e
    split_ifs
    · exact DiscPipeline.advances_emit _ _ _ trivial
    · exact DiscPipeline.Advances.stay _ _ x
  unfold DiscPipeline.trackDone
  simp only []
  refine DiscPipeline.Advances.followedBy ?_ (hi _ _ _)
  refine DiscPipeline.Advances.followedBy ?_ (DiscPipeline.advances_emit _ _ _ trivial)
  refine DiscPipeline.Advances.followedBy ?_ (DiscPipeline.advances_emit _ _ _ trivial)
  refine DiscPipeline.Advances.followedBy ?_
    (DiscPipeline.advances_setTrackState _ _ _ _ (by decide))
  cases env.renameError outFileName track.resultFilePath with
  | none =>
    refine DiscPipeline.Advances.followedBy ?_ (DiscPipeline.advances_emit _ _ _ trivial)
    exact DiscPipeline.advances_emit _ _ _ trivial
  | some err =>
    refine DiscPipeline.Advances.followedBy ?_
      ((DiscPipeline.advances_trackError _ _ _).mono (fun _ h => h.1) (fun _ _ => trivial))
    refine DiscPipeline.Advances.followedBy ?_ (DiscPipeline.advances_emit _ _ _ trivial)
    exact DiscPipeline.advances_emit _ _ _ trivial

theorem DiscPipeline.advances_writeAlbumGainLoop (env : Env) (requests : List Request) :
    ∀ s : DiscPipeline, s.Advances (fun st => st ≠ TrackState.NotRunning) (fun _ => True)
      (requests.foldl (DiscPipeline.albumTagged env) s) := by
  induction requests with
  | nil => intro s; exact DiscPipeline.Advances.stay _ _ s
  | cons r rs ih =>
    intro s
    simp only [List.foldl_cons]
    refine DiscPipeline.Advances.followedBy ?_ (ih _)
    unfold DiscPipeline.albumTagged
    refine DiscPipeline.Advances.followedBy ?_ (DiscPipeline.advances_trackDone env _ _ _)
    exact DiscPipeline.advances_emit _ _ _ trivial

theorem DiscPipeline.advances_writeGain (env : Env) (s : DiscPipeline) (track : ConvTrack)
    (fileName : String) (trackGain : GainResult) :
    s.Advances (fun st => st ≠ TrackState.NotRunning) (fun _ => True)
      (s.writeGain env track fileName trackGain).1 := by
  have hb : s.Advances (fun st => st ≠ TrackState.NotRunning) (fun _ => True)
      ((s.emit (Event.trackReplayGain fileName trackGain)).bufferAlbumGain track fileName
        trackGain) := by
    refine DiscPipeline.Advances.followedBy ?_
      ((DiscPipeline.advances_bufferAlbumGain _ _ _ _).mono (fun _ h => h.1) (fun _ _ => trivial))
    exact DiscPipeline.advances_emit _ _ _ trivial
  rcases s.writeGain_fst_cases env track fileName trackGain with e | e | e | ⟨done, _, e⟩ <;>
    rw [e]
  · exact DiscPipeline.Advances.stay _ _ s
  · refine DiscPipeline.Advances.followedBy ?_ (DiscPipeline.advances_trackDone env _ _ _)
    exact DiscPipeline.advances_emit _ _ _ trivial
  · exact hb
  · exact DiscPipeline.Advances.followedBy hb (DiscPipeline.advances_writeAlbumGainLoop env _ _)

/-! ## Runs that the wiring allows -/

theorem DiscPipeline.addTracks_dirs (dirError : String → Option String)
    (tracks : List ConvTrack) :
    ∀ s s' : DiscPipeline, DiscPipeline.addTracks dirError s tracks = Except.ok s' →
      ∀ t ∈ tracks, dirError (dirName t.resultFilePath) = none := by
  induction tracks with
  | nil => intro _ _ _ t ht; cases ht
  | cons t ts ih =>
    intro s s' h u hu
    unfold DiscPipeline.addTracks at h
    cases hd : dirError (dirName t.resultFilePath) with
    | some err => simp [hd] at h
    | none =>
      simp only [hd] at h
      rcases List.mem_cons.1 hu with hu | hu
      · rw [hu]; exact hd
      · exact ih _ _ h u hu

/-- What a successful construction returns. -/
theorem DiscPipeline.create_eq_ok {profile : Profile} {tracks : List ConvTrack}
    {dir tmpDir : String} {dirError : String → Option String} {x : DiscPipeline}
    (h : DiscPipeline.create profile tracks dir tmpDir dirError = Except.ok x) :
    x.mTracks = tracks ∧ x.events = [] ∧
      ∃ pregapType, x.mSplitterRequests = [⟨tracks, tmpDir, pregapType⟩] := by
  unfold DiscPipeline.create at h
  cases hd : dirError dir with
  | some err => simp [hd] at h
  | none =>
    simp only [hd] at h
    cases ha : DiscPipeline.addTracks dirError
        { mProfile := profile, mTracks := [], mTmpDir := tmpDir, mTrackStates := StateMap.empty,
          mSplitterRequests := [], mEncoderRequests := [], mAlbumGainRequests := [],
          mAlbumGain := [], mInterrupted := false, events := [] } tracks with
    | error err => simp [ha] at h
    | ok s' =>
      simp only [ha] at h
      obtain ⟨s'', h1, h2, _, _, _, _, h7, h8, h9⟩ := DiscPipeline.addTracks_ok dirError tracks _
        (DiscPipeline.addTracks_dirs dirError tracks _ _ ha)
      rw [ha] at h1
      cases h1
      simp only [List.nil_append] at h2
      unfold DiscPipeline.addSpliterRequest at h
      cases hp : s'.hasPregap with
      | none => simp [hp] at h
      | some pregap =>
        simp only [hp, Except.ok.injEq] at h
        rw [← h]
        refine ⟨h2, h9, ?_⟩
        simp only [h7, h2, h8, List.nil_append]
        exact ⟨_, rfl⟩

theorem DiscPipeline.splitterStarts_le_of_advances {p : TrackState → Prop} {q : Event → Prop}
    {s s' : DiscPipeline} (h : s.Advances p q s') :
    splitterStarts s.events ≤ splitterStarts s'.events := by
  obtain ⟨_, _, ⟨extra, he, _⟩, _⟩ := h
  unfold splitterStarts
  rw [he, List.countP_append]
  omega

theorem DiscPipeline.started_of_advances {q : Event → Prop} {s s' : DiscPipeline}
    (h : s.Advances (fun st => st ≠ TrackState.NotRunning) q s') (hs : s.Started) :
    s'.Started := by
  obtain ⟨ht, _, _, hst⟩ := h
  intro t hmem
  rw [ht] at hmem
  rcases hst t.index with e | e
  · rw [e]; exact hs t hmem
  · exact e

/-- Every operation that the wiring allows writes no state NotRunning. -/
theorem DiscPipeline.advances_step (env : Env) (s : DiscPipeline) (op : Op)
    (h : s.admits op = true) :
    s.Advances (fun st => st ≠ TrackState.NotRunning) (fun _ => True) (s.step env op) := by
  cases op with
  | startWorker splitterCount count tasksError =>
    exact (s.advances_startWorker _ _ _).mono (fun _ h => h.1) (fun _ _ => trivial)
  | addEncoderRequest track inputFile =>
    exact (s.advances_addEncoderRequest _ _).mono (fun _ h => h.1) (fun _ _ => trivial)
  | trackProgress track state percent =>
    simp only [DiscPipeline.admits, Bool.and_eq_true] at h
    exact s.advances_trackProgress track state percent
      (workState_of_countsAsRunning h.2).1 trivial
  | writeGain track fileName trackGain => exact s.advances_writeGain env _ _ _
  | trackDone track outFileName => exact s.advances_trackDone env _ _
  | trackError track message =>
    exact (s.advances_trackError _ _).mono (fun _ h => h.1) (fun _ _ => trivial)
  | interrupt state => simp [DiscPipeline.admits] at h
  | stop => exact s.advances_stop.mono (fun _ h => h.1) (fun _ _ => trivial)

theorem DiscPipeline.splitterStarts_startEncoders (s : DiscPipeline) (count : Int)
    (q : List Request) :
    splitterStarts (DiscPipeline.startEncoders s count q).1.events = splitterStarts s.events := by
  unfold splitterStarts
  rw [DiscPipeline.events_startEncoders, List.countP_append,
    countP_map_encoderEvent s _ _ false (fun _ _ _ _ => rfl)]
  simp

theorem DiscPipeline.splitterStarts_stop (s : DiscPipeline) :
    splitterStarts s.stop.events = splitterStarts s.events := by
  unfold splitterStarts DiscPipeline.stop
  simp only [DiscPipeline.events_emit, List.countP_append, List.countP_singleton,
    DiscPipeline.countP_events_interrupt s _ Event.isSplitterStart (fun _ _ _ => rfl)]
  simp [Event.isSplitterStart]

/-- The invariant holds after every operation that the wiring allows. -/
theorem DiscPipeline.wiringInvariant_step (env : Env) (s : DiscPipeline) (op : Op)
    (hinv : s.WiringInvariant) (h : s.admits op = true) : (s.step env op).WiringInvariant := by
  have hadv := s.advances_step env op h
  by_cases h0 : 0 < splitterStarts s.events
  · have hle := DiscPipeline.splitterStarts_le_of_advances hadv
    exact ⟨fun hz => by omega, fun _ => DiscPipeline.started_of_advances hadv (hinv.2 h0)⟩
  · have hz : splitterStarts s.events = 0 := by omega
    cases op with
    | startWorker splitterCount count tasksError =>
      show (s.startWorker splitterCount count tasksError).1.WiringInvariant
      rcases s.startWorker_cases splitterCount count tasksError with
        e | ⟨req, rest, hq, _, _, _, e⟩ | ⟨_, _, _, e⟩
      · rw [e]; exact hinv
      · rw [e]
        have hcount : splitterStarts (DiscPipeline.startSplitter
            { s with mSplitterRequests := rest } req tasksError).events
              = splitterStarts s.events + 1 := by
          unfold splitterStarts
          rw [DiscPipeline.countP_events_startSplitter _ _ _ _ (fun _ _ _ => rfl) rfl rfl rfl
            (fun _ => rfl)]
          rfl
        show (DiscPipeline.startSplitter { s with mSplitterRequests := rest } req
          tasksError).WiringInvariant
        refine ⟨fun hz' => by omega, fun _ => ?_⟩
        have hreq : req.tracks = s.mTracks := hinv.1 hz req (by rw [hq]; exact List.mem_cons_self _ _)
        have hmark : (({ s with mSplitterRequests := rest } : DiscPipeline).emit
            (Event.splitterStarted req)).markSplitting req.tracks |>.Started := by
          intro t ht
          rw [(DiscPipeline.markSplitting_frame req.tracks _).2.2.2.2] at ht
          rw [DiscPipeline.trackState_markSplitting]
          have hex : ∃ u ∈ req.tracks, u.index = t.index := ⟨t, by rw [hreq]; exact ht, rfl⟩
          simp [hex]
        rw [DiscPipeline.startSplitter_eq]
        split
        · exact DiscPipeline.started_of_advances
            ((DiscPipeline.advances_trackError _ _ _).mono (fun _ h => h.1) (fun _ _ => trivial))
            hmark
        · exact hmark
      · rw [e]
        show (DiscPipeline.startEncoders s count s.mEncoderRequests).1.WiringInvariant
        constructor
        · intro _
          rw [DiscPipeline.startEncoders_eq]
          exact hinv.1 hz
        · intro hpos
          rw [DiscPipeline.splitterStarts_startEncoders] at hpos
          omega
    | stop =>
      show s.stop.WiringInvariant
      constructor
      · intro _
        rw [s.sameConfig_stop.2.2.2.1, s.sameConfig_stop.2.1]
        exact hinv.1 hz
      · intro hpos
        rw [DiscPipeline.splitterStarts_stop] at hpos
        omega
    | addEncoderRequest track inputFile => simp [DiscPipeline.admits, hz] at h
    | trackProgress track state percent => simp [DiscPipeline.admits, hz] at h
    | writeGain track fileName trackGain => simp [DiscPipeline.admits, hz] at h
    | trackDone track outFileName => simp [DiscPipeline.admits, hz] at h
    | trackError track message => simp [DiscPipeline.admits, hz] at h
    | interrupt state => simp [DiscPipeline.admits] at h

theorem DiscPipeline.wiringInvariant_run (env : Env) (ops : List Op) :
    ∀ s : DiscPipeline, s.WiringInvariant → s.admissibleRun env ops = true →
      (s.run env ops).WiringInvariant := by
  induction ops with
  | nil => intro s h _; exact h
  | cons op ops ih =>
    intro s hinv h
    unfold DiscPipeline.admissibleRun at h
    simp only [Bool.and_eq_true] at h
    unfold DiscPipeline.run at ih ⊢
    simp only [List.foldl_cons]
    exact ih _ (s.wiringInvariant_step env op hinv h.1) h.2

theorem wiringInvariant_of_workerReachable {env : Env} {s : DiscPipeline}
    (h : WorkerReachable env s) : s.WiringInvariant := by
  obtain ⟨profile, tracks, dir, tmpDir, dirError, s0, ops, hc, ha, hr⟩ := h
  rw [← hr]
  apply DiscPipeline.wiringInvariant_run env ops s0 _ ha
  obtain ⟨h1, h2, pregapType, h3⟩ := DiscPipeline.create_eq_ok hc
  constructor
  · intro _ req hreq
    rw [h3] at hreq
    simp only [List.mem_singleton] at hreq
    rw [hreq, h1]
  · intro hpos
    rw [h2] at hpos
    simp [splitterStarts] at hpos

/-! ## C15: the track states when `finished` is emitted -/

theorem DiscPipeline.not_countsAsRunning_of_not_isRunning (s : DiscPipeline)
    (h : s.isRunning = false) (i : Nat) : (s.trackState i).countsAsRunning = false := by
  unfold DiscPipeline.trackState StateMap.get
  cases hf : s.mTrackStates.find i with
  | none => rfl
  | some st =>
    simp only [Option.getD_some]
    cases hc : st.countsAsRunning
    · rfl
    · exfalso
      have hm := (lookupEntry_eq_some_iff _ s.mTrackStates.ascending i st).1 hf
      have : s.isRunning = true := by
        unfold DiscPipeline.isRunning StateMap.values
        rw [List.any_eq_true]
        exact ⟨st, List.mem_map.2 ⟨(i, st), hm, rfl⟩, hc⟩
      rw [h] at this
      cases this

theorem DiscPipeline.started_emit (s : DiscPipeline) (e : Event) (h : s.Started) :
    (s.emit e).Started := h

theorem DiscPipeline.filterMap_events_of_advances {α : Type} {p : TrackState → Prop}
    {q : Event → Prop} {s s' : DiscPipeline} (f : Event → Option α)
    (h : s.Advances p q s') (hf : ∀ e, q e → f e = none) :
    s'.events.filterMap f = s.events.filterMap f := by
  obtain ⟨_, _, ⟨extra, he, hq⟩, _⟩ := h
  rw [he, List.filterMap_append]
  have : extra.filterMap f = [] := by
    rw [List.filterMap_eq_nil_iff]
    exact fun e hmem => hf e (hq e hmem)
  rw [this, List.append_nil]

theorem albumGainWrite_of_notFinalization (e : Event) (h : notFinalization e) :
    e.albumGainWrite = none := by
  cases e <;> first | rfl | cases h

theorem rename_of_notFinalization (e : Event) (h : notFinalization e) : e.rename = none := by
  cases e <;> first | rfl | cases h

theorem DiscPipeline.trackState_OK_of_advances {q : Event → Prop} {s s' : DiscPipeline}
    (h : s.Advances workState q s') (i : Nat) (hi : s'.trackState i = TrackState.OK) :
    s.trackState i = TrackState.OK := by
  rcases h.2.2.2 i with e | e
  · rw [← e]; exact hi
  · exact absurd hi e.2

theorem DiscPipeline.sameConfig_markSplitting (tracks : List ConvTrack) :
    ∀ s : DiscPipeline, s.SameConfig (s.markSplitting tracks) := by
  induction tracks with
  | nil => intro s; exact DiscPipeline.SameConfig.same s
  | cons t ts ih =>
    intro s
    unfold DiscPipeline.markSplitting at ih ⊢
    simp only [List.foldl_cons]
    exact DiscPipeline.SameConfig.andThen (s.sameConfig_setTrackState _ _) (ih _)

/-- `startWorker` leaves the aggregator and the album-gain buffer alone. -/
theorem DiscPipeline.startWorker_gain_frame (s : DiscPipeline) (splitterCount count : Int)
    (tasksError : Option String) :
    (s.startWorker splitterCount count tasksError).1.mAlbumGain = s.mAlbumGain ∧
    (s.startWorker splitterCount count tasksError).1.mAlbumGainRequests
      = s.mAlbumGainRequests := by
  rcases s.startWorker_cases splitterCount count tasksError with
    e | ⟨req, rest, _, _, _, _, e⟩ | ⟨_, _, _, e⟩
  · rw [e]; exact ⟨rfl, rfl⟩
  · rw [e]
    have base : ({ s with mSplitterRequests := rest } : DiscPipeline).SameConfig
        ((({ s with mSplitterRequests := rest } : DiscPipeline).emit
          (Event.splitterStarted req)).markSplitting req.tracks) := by
      refine DiscPipeline.SameConfig.andThen ?_ (DiscPipeline.sameConfig_markSplitting _ _)
      exact DiscPipeline.sameConfig_emit _ _
    have full : ({ s with mSplitterRequests := rest } : DiscPipeline).SameConfig
        (DiscPipeline.startSplitter { s with mSplitterRequests := rest } req tasksError) := by
      rw [DiscPipeline.startSplitter_eq]
      split
      · exact DiscPipeline.SameConfig.andThen base (DiscPipeline.sameConfig_trackError _ _ _)
      · exact base
    exact ⟨full.2.2.2.2.1, full.2.2.2.2.2⟩
  · rw [e, DiscPipeline.startEncoders_eq]
    exact ⟨rfl, rfl⟩

theorem DiscPipeline.mAlbumGain_bufferAlbumGain (s : DiscPipeline) (track : ConvTrack)
    (fileName : String) (trackGain : GainResult) :
    (s.bufferAlbumGain track fileName trackGain).mAlbumGain = s.mAlbumGain ++ [trackGain] := by
  unfold DiscPipeline.bufferAlbumGain DiscPipeline.trackProgress
  simp only []
  split_ifs <;> rfl

/-- In album mode, below the barrier, `writeGain` writes the track tag and
buffers the record, when the tag writer does not throw. -/
theorem DiscPipeline.writeGain_below_barrier (env : Env) (s : DiscPipeline) (track : ConvTrack)
    (fileName : String) (trackGain : GainResult) (hmode : s.mProfile.gainType = GainType.Album)
    (hlt : s.mAlbumGainRequests.length + 1 < s.mTracks.length)
    (htag : env.trackTagError fileName = none) :
    s.writeGain env track fileName trackGain =
      ((s.emit (Event.trackReplayGain fileName trackGain)).bufferAlbumGain track fileName
        trackGain, none) := by
  have hlen : ((s.emit (Event.trackReplayGain fileName trackGain)).bufferAlbumGain track
      fileName trackGain).mAlbumGainRequests.length <
        ((s.emit (Event.trackReplayGain fileName trackGain)).bufferAlbumGain track fileName
          trackGain).mTracks.length := by
    rw [DiscPipeline.mAlbumGainRequests_bufferAlbumGain,
      (DiscPipeline.advances_bufferAlbumGain _ _ _ _).1]
    simpa using hlt
  unfold DiscPipeline.writeGain
  simp only [htag, DiscPipeline.mProfile_emit, hmode, ne_eq, not_true_eq_false, if_false]
  rw [if_pos hlen]

/-- In album mode, at the barrier, `writeGain` writes the track tag, buffers the
record and runs the loop over the buffer, when the writer of the track tag does
not throw. -/
theorem DiscPipeline.writeGain_at_barrier (env : Env) (s : DiscPipeline) (track : ConvTrack)
    (fileName : String) (trackGain : GainResult) (hmode : s.mProfile.gainType = GainType.Album)
    (hge : ¬ s.mAlbumGainRequests.length + 1 < s.mTracks.length)
    (htag : env.trackTagError fileName = none) :
    s.writeGain env track fileName trackGain =
      DiscPipeline.writeAlbumGainLoop env
        ((s.emit (Event.trackReplayGain fileName trackGain)).bufferAlbumGain track fileName
          trackGain)
        (s.mAlbumGainRequests ++ [Request.mk track fileName]) := by
  have hlen : ¬ ((s.emit (Event.trackReplayGain fileName trackGain)).bufferAlbumGain track
      fileName trackGain).mAlbumGainRequests.length <
        ((s.emit (Event.trackReplayGain fileName trackGain)).bufferAlbumGain track fileName
          trackGain).mTracks.length := by
    rw [DiscPipeline.mAlbumGainRequests_bufferAlbumGain,
      (DiscPipeline.advances_bufferAlbumGain _ _ _ _).1]
    simpa using hge
  unfold DiscPipeline.writeGain
  simp only [htag, DiscPipeline.mProfile_emit, hmode, ne_eq, not_true_eq_false, if_false]
  rw [if_neg hlen, DiscPipeline.mAlbumGainRequests_bufferAlbumGain]
  rfl

/-- Outside album mode `writeGain` writes the track tag and calls `trackDone`,
when the tag writer does not throw. -/
theorem DiscPipeline.writeGain_not_album (env : Env) (s : DiscPipeline) (track : ConvTrack)
    (fileName : String) (trackGain : GainResult) (hmode : s.mProfile.gainType ≠ GainType.Album)
    (htag : env.trackTagError fileName = none) :
    s.writeGain env track fileName trackGain =
      ((s.emit (Event.trackReplayGain fileName trackGain)).trackDone env track fileName,
        none) := by
  unfold DiscPipeline.writeGain
  simp only [htag, DiscPipeline.mProfile_emit]
  rw [if_pos hmode]

/-! ## C16: the album-gain barrier -/

theorem reportedRequests_cons (op : Op) (ops : List Op) :
    reportedRequests (op :: ops) = reportedRequests [op] ++ reportedRequests ops := by
  cases op <;> rfl

theorem notFinalization_progress_of_countsAsRunning (i : Nat) (st : TrackState) (n : Int)
    (h : st.countsAsRunning = true) : notFinalization (Event.trackProgressChanged i st n) := by
  cases st <;> first | rfl | cases h

/-- One operation in album mode, below the barrier. -/
theorem DiscPipeline.album_step (env : Env) (s : DiscPipeline) (op : Op)
    (hmode : s.mProfile.gainType = GainType.Album) (hadm : s.admits op = true)
    (hlt : s.mAlbumGainRequests.length + (reportedRequests [op]).length < s.mTracks.length) :
    s.Advances workState notFinalization (s.step env op) ∧
    (s.step env op).mAlbumGainRequests = s.mAlbumGainRequests ++ bufferedRequests env [op] := by
  cases op with
  | startWorker splitterCount count tasksError =>
    refine ⟨s.advances_startWorker _ _ _, ?_⟩
    show (s.startWorker splitterCount count tasksError).1.mAlbumGainRequests = _
    rw [(s.startWorker_gain_frame _ _ _).2]
    simp [reportedRequests, bufferedRequests]
  | addEncoderRequest track inputFile =>
    refine ⟨s.advances_addEncoderRequest _ _, ?_⟩
    show (s.addEncoderRequest track inputFile).mAlbumGainRequests = _
    rw [(s.sameConfig_addEncoderRequest _ _).2.2.2.2.2]
    simp [reportedRequests, bufferedRequests]
  | trackProgress track state percent =>
    simp only [DiscPipeline.admits, Bool.and_eq_true] at hadm
    refine ⟨s.advances_trackProgress track state percent (workState_of_countsAsRunning hadm.2)
      (notFinalization_progress_of_countsAsRunning _ _ _ hadm.2), ?_⟩
    show (s.trackProgress track state percent).mAlbumGainRequests = _
    rw [(s.sameConfig_trackProgress _ _ _).2.2.2.2.2]
    simp [reportedRequests, bufferedRequests]
  | writeGain track fileName trackGain =>
    have hlt' : s.mAlbumGainRequests.length + 1 < s.mTracks.length := by
      simpa [reportedRequests] using hlt
    show s.Advances workState notFinalization (s.writeGain env track fileName trackGain).1 ∧
      (s.writeGain env track fileName trackGain).1.mAlbumGainRequests = _
    cases htag : env.trackTagError fileName with
    | some err =>
      rw [s.writeGain_thrown env track fileName trackGain err htag]
      refine ⟨DiscPipeline.Advances.stay _ _ s, ?_⟩
      simp [reportedRequests, bufferedRequests, htag]
    | none =>
      rw [s.writeGain_below_barrier env track fileName trackGain hmode hlt' htag]
      constructor
      · refine DiscPipeline.Advances.followedBy ?_
          (DiscPipeline.advances_bufferAlbumGain _ _ _ _)
        exact DiscPipeline.advances_emit _ _ _ rfl
      · rw [DiscPipeline.mAlbumGainRequests_bufferAlbumGain]
        simp [reportedRequests, bufferedRequests, htag]
  | trackDone track outFileName =>
    simp only [DiscPipeline.admits, Bool.and_eq_true, decide_eq_true_eq] at hadm
    rw [hmode] at hadm
    exact absurd hadm.2 (by decide)
  | trackError track message =>
    refine ⟨s.advances_trackError _ _, ?_⟩
    show (s.trackError track message).mAlbumGainRequests = _
    rw [(s.sameConfig_trackError _ _).2.2.2.2.2]
    simp [reportedRequests, bufferedRequests]
  | interrupt state => simp [DiscPipeline.admits] at hadm
  | stop =>
    refine ⟨s.advances_stop, ?_⟩
    show s.stop.mAlbumGainRequests = _
    rw [s.sameConfig_stop.2.2.2.2.2]
    simp [reportedRequests, bufferedRequests]

/-- A run in album mode that stays below the barrier. -/
theorem DiscPipeline.album_run (env : Env) (ops : List Op) :
    ∀ s : DiscPipeline, s.mProfile.gainType = GainType.Album → s.admissibleRun env ops = true →
      s.mAlbumGainRequests.length + (reportedRequests ops).length < s.mTracks.length →
      s.Advances workState notFinalization (s.run env ops) ∧
      (s.run env ops).mAlbumGainRequests = s.mAlbumGainRequests ++ bufferedRequests env ops := by
  induction ops with
  | nil =>
    intro s _ _ _
    exact ⟨DiscPipeline.Advances.stay _ _ s,
      by simp [DiscPipeline.run, reportedRequests, bufferedRequests]⟩
  | cons op ops ih =>
    intro s hmode hadm hlt
    unfold DiscPipeline.admissibleRun at hadm
    simp only [Bool.and_eq_true] at hadm
    rw [reportedRequests_cons, List.length_append] at hlt
    obtain ⟨h1, h2⟩ := s.album_step env op hmode hadm.1 (by omega)
    have hmode' : (s.step env op).mProfile.gainType = GainType.Album := by
      rw [h1.2.1]; exact hmode
    have hle : (bufferedRequests env [op]).length ≤ (reportedRequests [op]).length :=
      List.length_filter_le _ _
    obtain ⟨h3, h4⟩ := ih (s.step env op) hmode' hadm.2 (by
      rw [h2, h1.1, List.length_append]; omega)
    have hrun : s.run env (op :: ops) = (s.step env op).run env ops := by
      unfold DiscPipeline.run
      rfl
    have hcons : bufferedRequests env (op :: ops) =
        bufferedRequests env [op] ++ bufferedRequests env ops := by
      unfold bufferedRequests
      rw [reportedRequests_cons, List.filter_append]
    rw [hrun, hcons]
    refine ⟨DiscPipeline.Advances.followedBy h1 h3, ?_⟩
    rw [h4, h2, List.append_assoc]

/-- C16, counterexample: three tracks in album mode are encoding; the second
track reports ready and is buffered in state WaitGain; the user stops the run.
One encode-ready event of three has been handled, the track is in the buffer,
and its state is Aborted. -/
theorem reported_track_aborted_before_barrier :
    WorkerReachable albumEnv
      (albumStart.run albumEnv (albumEncodingOps ++
        [Op.writeGain sampleTrackB "/work/tmp/b.encoded.flac" ⟨-6, 90⟩, Op.stop])) ∧
    (reportedRequests (albumEncodingOps ++
        [Op.writeGain sampleTrackB "/work/tmp/b.encoded.flac" ⟨-6, 90⟩, Op.stop])).length = 1 ∧
    (albumStart.run albumEnv (albumEncodingOps ++
        [Op.writeGain sampleTrackB "/work/tmp/b.encoded.flac" ⟨-6, 90⟩])).trackState
          sampleTrackB.index = TrackState.WaitGain ∧
    (albumStart.run albumEnv (albumEncodingOps ++
        [Op.writeGain sampleTrackB "/work/tmp/b.encoded.flac" ⟨-6, 90⟩,
          Op.stop])).mAlbumGainRequests = [⟨sampleTrackB, "/work/tmp/b.encoded.flac"⟩] ∧
    (albumStart.run albumEnv (albumEncodingOps ++
        [Op.writeGain sampleTrackB "/work/tmp/b.encoded.flac" ⟨-6, 90⟩, Op.stop])).trackState
          sampleTrackB.index = TrackState.Aborted :=
  ⟨⟨albumProfile, [sampleTrackA, sampleTrackB, sampleTrackC], "/work", "/work/tmp",
      fun _ => none, albumStart, _, rfl, by decide, rfl⟩,
    by decide, by decide, by decide, by decide⟩

/-- C16, amended: in album mode, over every run that the wiring allows and in
which the buffered records and the encode-ready events of the run together are
fewer than the tracks, no album tag is written and no rename is made, no track
becomes OK, and the buffer grows by the reported (track, file) pairs whose
track tag was saved, in arrival order: by all the reported pairs when no tag
writer throws.  An encode-ready event handled below the barrier while the
pipeline is not interrupted, its track tag being saved, leaves its track in
state WaitGain. -/
theorem album_barrier (env : Env) (s : DiscPipeline) (ops : List Op)
    (hmode : s.mProfile.gainType = GainType.Album) (hadm : s.admissibleRun env ops = true)
    (hlt : s.mAlbumGainRequests.length + (reportedRequests ops).length < s.mTracks.length) :
    albumGainWrites (s.run env ops).events = albumGainWrites s.events ∧
    renames (s.run env ops).events = renames s.events ∧
    (∀ i, (s.run env ops).trackState i = TrackState.OK → s.trackState i = TrackState.OK) ∧
    (s.run env ops).mAlbumGainRequests = s.mAlbumGainRequests ++ bufferedRequests env ops ∧
    ((∀ r ∈ reportedRequests ops, env.trackTagError r.inputFile = none) →
      (s.run env ops).mAlbumGainRequests = s.mAlbumGainRequests ++ reportedRequests ops) ∧
    (∀ T file g, s.mInterrupted = false →
      s.mAlbumGainRequests.length + 1 < s.mTracks.length → env.trackTagError file = none →
      (s.writeGain env T file g).1.trackState T.index = TrackState.WaitGain) := by
  obtain ⟨h1, h2⟩ := DiscPipeline.album_run env ops s hmode hadm hlt
  refine ⟨?_, ?_, ?_, h2, ?_, ?_⟩
  · exact DiscPipeline.filterMap_events_of_advances _ h1 albumGainWrite_of_notFinalization
  · exact DiscPipeline.filterMap_events_of_advances _ h1 rename_of_notFinalization
  · exact fun i hi => DiscPipeline.trackState_OK_of_advances h1 i hi
  · intro hall
    rw [h2]
    unfold bufferedRequests
    rw [List.filter_eq_self.2]
    intro r hr
    rw [hall r hr]
    rfl
  · intro T file g hint hlt' htag
    rw [s.writeGain_below_barrier env T file g hmode hlt' htag,
      DiscPipeline.trackState_bufferAlbumGain]
    simp [hint]

/-- C16, witness: three album tracks are encoding and the second and the third
report ready. -/
theorem album_barrier_witness :
    albumGainWrites (albumEncoding.run albumEnv
      [Op.writeGain sampleTrackB "/work/tmp/b.encoded.flac" ⟨-6, 90⟩,
        Op.writeGain sampleTrackC "/work/tmp/c.encoded.flac" ⟨-4, 95⟩]).events
      = albumGainWrites albumEncoding.events ∧
    (albumEncoding.run albumEnv
      [Op.writeGain sampleTrackB "/work/tmp/b.encoded.flac" ⟨-6, 90⟩,
        Op.writeGain sampleTrackC "/work/tmp/c.encoded.flac" ⟨-4, 95⟩]).mAlbumGainRequests
      = albumEncoding.mAlbumGainRequests ++
        [⟨sampleTrackB, "/work/tmp/b.encoded.flac"⟩, ⟨sampleTrackC, "/work/tmp/c.encoded.flac"⟩] :=
  ⟨(album_barrier albumEnv albumEncoding
      [Op.writeGain sampleTrackB "/work/tmp/b.encoded.flac" ⟨-6, 90⟩,
        Op.writeGain sampleTrackC "/work/tmp/c.encoded.flac" ⟨-4, 95⟩]
      (by decide) (by decide) (by decide)).1,
    (album_barrier albumEnv albumEncoding
      [Op.writeGain sampleTrackB "/work/tmp/b.encoded.flac" ⟨-6, 90⟩,
        Op.writeGain sampleTrackC "/work/tmp/c.encoded.flac" ⟨-4, 95⟩]
      (by decide) (by decide) (by decide)).2.2.2.2.1 (fun _ _ => rfl)⟩

/-! ## C19: track-gain mode -/

/-- The log of `trackDone`: the removal of the old file, the rename, and then
signals only. -/
theorem DiscPipeline.events_trackDone (env : Env) (s : DiscPipeline) (track : ConvTrack)
    (outFileName : String) :
    ∃ rest, (s.trackDone env track outFileName).events =
        s.events ++ [Event.fileRemoved track.resultFilePath,
          Event.fileRenamed outFileName track.resultFilePath
            (env.renameError outFileName track.resultFilePath).isNone] ++ rest ∧
      ∀ e ∈ rest, e.isSignal = true := by
  have hok : ∀ e ∈ [Event.trackProgressChanged track.index TrackState.OK 0,
      Event.threadFinished, Event.finished], e.isSignal = true := by
    intro e he
    simp only [List.mem_cons, List.mem_singleton, List.not_mem_nil, or_false] at he
    rcases he with h | h | h <;> (rw [h]; rfl)
  have hok' : ∀ e ∈ [Event.trackProgressChanged track.index TrackState.OK 0,
      Event.threadFinished], e.isSignal = true :=
    fun e he => hok e (by
      simp only [List.mem_cons, List.mem_singleton, List.not_mem_nil, or_false] at he ⊢
      rcases he with h | h
      · exact Or.inl h
      · exact Or.inr (Or.inl h))
  unfold DiscPipeline.trackDone
  simp only []
  cases hr : env.renameError outFileName track.resultFilePath with
  | none =>
    simp only [Option.isNone_none]
    split_ifs
    · refine ⟨_, ?_, hok⟩
      simp only [DiscPipeline.events_emit, DiscPipeline.events_setTrackState]
      simp only [List.append_assoc, List.singleton_append, List.cons_append, List.nil_append]
    · refine ⟨_, ?_, hok'⟩
      simp only [DiscPipeline.events_emit, DiscPipeline.events_setTrackState]
      simp only [List.append_assoc, List.singleton_append, List.cons_append, List.nil_append]
  | some err =>
    obtain ⟨aborted, hall, he⟩ := DiscPipeline.events_trackError
      ((s.emit (Event.fileRemoved track.resultFilePath)).emit
        (Event.fileRenamed outFileName track.resultFilePath false)) track
      ("I can't rename file:\n" ++ outFileName ++ " to " ++ track.resultFilePath ++ "\n" ++ err)
    have herr : ∀ e ∈ Event.trackProgressChanged track.index TrackState.Error 0 :: aborted ++
        [Event.stopAllThreads, Event.threadFinished, Event.finished,
          Event.errorMessage ("I can't rename file:\n" ++ outFileName ++ " to " ++
            track.resultFilePath ++ "\n" ++ err)], e.isSignal = true := by
      intro e hmem
      rcases List.mem_append.1 hmem with hmem | hmem
      · rcases List.mem_cons.1 hmem with hmem | hmem
        · rw [hmem]; rfl
        · obtain ⟨i, hi'⟩ := hall e hmem
          rw [hi']; rfl
      · simp only [List.mem_cons, List.mem_singleton, List.not_mem_nil, or_false] at hmem
        rcases hmem with h | h | h | h <;> (rw [h]; rfl)
    simp only [Option.isNone_some]
    split_ifs
    · refine ⟨(Event.trackProgressChanged track.index TrackState.Error 0 :: aborted ++
          [Event.stopAllThreads, Event.threadFinished, Event.finished,
            Event.errorMessage ("I can't rename file:\n" ++ outFileName ++ " to " ++
              track.resultFilePath ++ "\n" ++ err)]) ++
          [Event.trackProgressChanged track.index TrackState.OK 0,
            Event.threadFinished, Event.finished], ?_, ?_⟩
      · simp only [DiscPipeline.events_emit, DiscPipeline.events_setTrackState, he]
        simp only [List.append_assoc, List.singleton_append, List.cons_append, List.nil_append]
      · intro e hmem
        rcases List.mem_append.1 hmem with hmem | hmem
        · exact herr e hmem
        · exact hok e hmem
    · refine ⟨(Event.trackProgressChanged track.index TrackState.Error 0 :: aborted ++
          [Event.stopAllThreads, Event.threadFinished, Event.finished,
            Event.errorMessage ("I can't rename file:\n" ++ outFileName ++ " to " ++
              track.resultFilePath ++ "\n" ++ err)]) ++
          [Event.trackProgressChanged track.index TrackState.OK 0,
            Event.threadFinished], ?_, ?_⟩
      · simp only [DiscPipeline.events_emit, DiscPipeline.events_setTrackState, he]
        simp only [List.append_assoc, List.singleton_append, List.cons_append, List.nil_append]
      · intro e hmem
        rcases List.mem_append.1 hmem with hmem | hmem
        · exact herr e hmem
        · exact hok' e hmem

theorem DiscPipeline.filterMap_events_trackDone {α : Type} (f : Event → Option α)
    (hf : ∀ e, e.isSignal = true → f e = none) (env : Env) (s : DiscPipeline)
    (track : ConvTrack) (outFileName : String) :
    (s.trackDone env track outFileName).events.filterMap f =
      s.events.filterMap f ++
        [Event.fileRemoved track.resultFilePath,
          Event.fileRenamed outFileName track.resultFilePath
            (env.renameError outFileName track.resultFilePath).isNone].filterMap f := by
  obtain ⟨rest, he, hrest⟩ := s.events_trackDone env track outFileName
  rw [he, List.filterMap_append, List.filterMap_append]
  have : rest.filterMap f = [] := by
    rw [List.filterMap_eq_nil_iff]
    exact fun e hmem => hf e (hrest e hmem)
  rw [this, List.append_nil]

theorem albumGainWrite_of_isSignal (e : Event) (h : e.isSignal = true) :
    e.albumGainWrite = none := by
  cases e <;> first | rfl | cases h

theorem trackGainWrite_of_isSignal (e : Event) (h : e.isSignal = true) :
    e.trackGainWrite = none := by
  cases e <;> first | rfl | cases h

theorem rename_of_isSignal (e : Event) (h : e.isSignal = true) : e.rename = none := by
  cases e <;> first | rfl | cases h

/-- C19, counterexample: two tracks in track-gain mode are encoding; the first
reports ready and its rename fails.  The second track, which was Encoding, is
Aborted after the call. -/
theorem track_gain_failed_rename_aborts_other_track :
    WorkerReachable renamesFail trackGainEncoding ∧
    trackGainEncoding.mProfile.gainType = GainType.Track ∧
    trackGainEncoding.trackState sampleTrackB.index = TrackState.Encoding ∧
    (trackGainEncoding.writeGain renamesFail sampleTrackA "/work/tmp/a.encoded.flac"
      ⟨-5, 80⟩).1.trackState sampleTrackB.index = TrackState.Aborted :=
  ⟨⟨trackGainProfile, [sampleTrackA, sampleTrackB], "/work", "/work/tmp", fun _ => none,
      trackGainStart, twoTracksEncodingOps, rfl, by decide, rfl⟩,
    by decide, by decide, by decide⟩

/-- C19, amended: in track-gain mode, when the tag writer does not throw,
`writeGain` makes one track replay-gain tag write, of the gain of the event to
the file of the event, and then runs `trackDone` for that track: one rename of
that file to the result path of the track is attempted, no album tag is
written, and the aggregator and the album-gain buffer are unchanged.  When the
rename succeeds the track is OK afterwards and the state of every other track
is unchanged.  When the rename fails it is handled as an error: the error
message is emitted, the pipeline is interrupted, and every other track of the
run that is not terminal becomes Aborted, the remaining states being
unchanged. -/
theorem track_gain_mode (env : Env) (s : DiscPipeline) (T : ConvTrack) (file : String)
    (g : GainResult) (hmode : s.mProfile.gainType = GainType.Track)
    (htag : env.trackTagError file = none) :
    s.writeGain env T file g =
      ((s.emit (Event.trackReplayGain file g)).trackDone env T file, none) ∧
    trackGainWrites (s.writeGain env T file g).1.events =
      trackGainWrites s.events ++ [(file, g)] ∧
    albumGainWrites (s.writeGain env T file g).1.events = albumGainWrites s.events ∧
    renames (s.writeGain env T file g).1.events =
      renames s.events ++
        [(file, T.resultFilePath, (env.renameError file T.resultFilePath).isNone)] ∧
    (s.writeGain env T file g).1.mAlbumGain = s.mAlbumGain ∧
    (s.writeGain env T file g).1.mAlbumGainRequests = s.mAlbumGainRequests ∧
    (env.renameError file T.resultFilePath = none →
      (s.writeGain env T file g).1.trackState T.index = TrackState.OK ∧
      ∀ i, i ≠ T.index → (s.writeGain env T file g).1.trackState i = s.trackState i) ∧
    (∀ err, env.renameError file T.resultFilePath = some err →
      Event.errorMessage ("I can't rename file:\n" ++ file ++ " to " ++ T.resultFilePath ++
        "\n" ++ err) ∈ (s.writeGain env T file g).1.events ∧
      (s.writeGain env T file g).1.mInterrupted = true ∧
      ∀ i, i ≠ T.index →
        (s.writeGain env T file g).1.trackState i =
          if (∃ t ∈ s.mTracks, t.index = i) ∧ (s.trackState i).isTerminal = false
          then TrackState.Aborted else s.trackState i) := by
  have hne : s.mProfile.gainType ≠ GainType.Album := by rw [hmode]; decide
  have key := s.writeGain_not_album env T file g hne htag
  have hcfg := DiscPipeline.sameConfig_trackDone env (s.emit (Event.trackReplayGain file g)) T file
  refine ⟨key, ?_, ?_, ?_, ?_, ?_, ?_, ?_⟩
  · rw [key]
    unfold trackGainWrites
    rw [DiscPipeline.filterMap_events_trackDone _ trackGainWrite_of_isSignal,
      DiscPipeline.events_emit, List.filterMap_append]
    simp [Event.trackGainWrite]
  · rw [key]
    unfold albumGainWrites
    rw [DiscPipeline.filterMap_events_trackDone _ albumGainWrite_of_isSignal,
      DiscPipeline.events_emit, List.filterMap_append]
    simp [Event.albumGainWrite]
  · rw [key]
    unfold renames
    rw [DiscPipeline.filterMap_events_trackDone _ rename_of_isSignal,
      DiscPipeline.events_emit, List.filterMap_append]
    simp [Event.rename]
  · rw [key]; exact hcfg.2.2.2.2.1
  · rw [key]; exact hcfg.2.2.2.2.2
  · intro hr
    rw [key]
    refine ⟨DiscPipeline.trackState_trackDone_self env _ T file, fun i hi => ?_⟩
    rw [DiscPipeline.trackState_trackDone env _ T file i hi, hr]
    rfl
  · intro err hr
    rw [key]
    refine ⟨?_, ?_, ?_⟩
    · unfold DiscPipeline.trackDone
      simp only [hr]
      split_ifs <;> simp [DiscPipeline.trackError, DiscPipeline.events_emit]
    · unfold DiscPipeline.trackDone
      have hk : ∀ (x : DiscPipeline) (c : Prop) [Decidable c] (e : Event),
          (if c then x.emit e else x).mInterrupted = x.mInterrupted := by
        intro x c _ e; split_ifs <;> rfl
      simp only [hr, hk, DiscPipeline.mInterrupted_emit, DiscPipeline.mInterrupted_setTrackState]
      exact DiscPipeline.mInterrupted_trackError _ _ _
    · intro i hi
      rw [DiscPipeline.trackState_trackDone env _ T file i hi, hr]
      simp only [DiscPipeline.mTracks_emit, DiscPipeline.trackState_emit]
      by_cases hex : ∃ t ∈ s.mTracks, t.index = i
      · cases hst : s.trackState i <;>
          simp [hex, TrackState.interruptible, TrackState.isTerminal]
      · simp [hex]

/-- C19, witness: two tracks in track-gain mode are encoding and the first
reports ready, the rename succeeding. -/
theorem track_gain_mode_witness :
    trackGainEncoding.mProfile.gainType = GainType.Track ∧
    renamesSucceed.trackTagError "/work/tmp/a.encoded.flac" = none ∧
    trackGainWrites (trackGainEncoding.writeGain renamesSucceed sampleTrackA
      "/work/tmp/a.encoded.flac" ⟨-5, 80⟩).1.events
      = trackGainWrites trackGainEncoding.events ++ [("/work/tmp/a.encoded.flac", ⟨-5, 80⟩)] ∧
    (trackGainEncoding.writeGain renamesSucceed sampleTrackA "/work/tmp/a.encoded.flac"
      ⟨-5, 80⟩).1.trackState sampleTrackB.index =
        trackGainEncoding.trackState sampleTrackB.index :=
  ⟨by decide, rfl,
    (track_gain_mode renamesSucceed trackGainEncoding sampleTrackA "/work/tmp/a.encoded.flac"
      ⟨-5, 80⟩ (by decide) rfl).2.1,
    ((track_gain_mode renamesSucceed trackGainEncoding sampleTrackA "/work/tmp/a.encoded.flac"
      ⟨-5, 80⟩ (by decide) rfl).2.2.2.2.2.2.1 rfl).2 sampleTrackB.index (by decide)⟩

/-! ## C18: the album pair -/

/-- The iterations of the loop of `writeGain` whose album tag is saved write to
the file of every record the result of the aggregator as it stands when the
loop starts. -/
theorem DiscPipeline.albumGainWrites_writeAlbumGainLoop (env : Env) (requests : List Request) :
    ∀ x : DiscPipeline,
      albumGainWrites (requests.foldl (DiscPipeline.albumTagged env) x).events =
        albumGainWrites x.events ++
          requests.map (fun r => (r.inputFile, env.albumResult x.mAlbumGain)) := by
  induction requests with
  | nil => intro x; simp
  | cons r rs ih =>
    intro x
    simp only [List.foldl_cons]
    rw [ih]
    have h1 : (x.albumTagged env r).mAlbumGain = x.mAlbumGain :=
      (x.sameConfig_albumTagged env r).2.2.2.2.1
    have h2 : albumGainWrites (x.albumTagged env r).events =
        albumGainWrites x.events ++ [(r.inputFile, env.albumResult x.mAlbumGain)] := by
      unfold DiscPipeline.albumTagged albumGainWrites
      rw [DiscPipeline.filterMap_events_trackDone _ albumGainWrite_of_isSignal,
        DiscPipeline.events_emit, List.filterMap_append]
      simp [Event.albumGainWrite]
    rw [h1, h2]
    simp

theorem DiscPipeline.albumGainWrites_buffer (s : DiscPipeline) (track : ConvTrack)
    (fileName : String) (trackGain : GainResult) :
    albumGainWrites ((s.emit (Event.trackReplayGain fileName trackGain)).bufferAlbumGain track
      fileName trackGain).events = albumGainWrites s.events := by
  have h : s.Advances workState notFinalization
      ((s.emit (Event.trackReplayGain fileName trackGain)).bufferAlbumGain track fileName
        trackGain) := by
    refine DiscPipeline.Advances.followedBy ?_ (DiscPipeline.advances_bufferAlbumGain _ _ _ _)
    exact DiscPipeline.advances_emit _ _ _ rfl
  exact DiscPipeline.filterMap_events_of_advances _ h albumGainWrite_of_notFinalization

/-- The album tag writes of a sequence of encode-ready events that ends at the
barrier, for any aggregator, when no tag writer throws: every buffered file
gets the result of the aggregator over all the gains added, in arrival order. -/
theorem DiscPipeline.albumGainWrites_writeGainRun (env : Env) (arrivals : List Arrival)
    (htrack : ∀ a ∈ arrivals, env.trackTagError a.fileName = none) :
    ∀ s : DiscPipeline, s.mProfile.gainType = GainType.Album → arrivals ≠ [] →
      s.mAlbumGainRequests.length + arrivals.length = s.mTracks.length →
      (∀ r ∈ s.mAlbumGainRequests ++ arrivals.map Arrival.request,
        env.albumTagError r.inputFile = none) →
      albumGainWrites (s.writeGainRun env arrivals).events =
        albumGainWrites s.events ++
          (s.mAlbumGainRequests ++ arrivals.map Arrival.request).map
            (fun r => (r.inputFile,
              env.albumResult (s.mAlbumGain ++ arrivals.map Arrival.gain))) := by
  induction arrivals with
  | nil => intro s _ h; exact absurd rfl h
  | cons a rest ih =>
    intro s hmode _ hN halbum
    have hrun : s.writeGainRun env (a :: rest) =
        (s.writeGain env a.track a.fileName a.gain).1.writeGainRun env rest := rfl
    have ha : env.trackTagError a.fileName = none := htrack a (List.mem_cons_self _ _)
    rw [hrun]
    simp only [List.length_cons] at hN
    by_cases hrest : rest = []
    · subst hrest
      have hge : ¬ s.mAlbumGainRequests.length + 1 < s.mTracks.length := by
        simp only [List.length_nil] at hN; omega
      have halbum' : ∀ r ∈ s.mAlbumGainRequests ++ [Request.mk a.track a.fileName],
          env.albumTagError r.inputFile = none := halbum
      rw [s.writeGain_at_barrier env a.track a.fileName a.gain hmode hge ha,
        DiscPipeline.writeAlbumGainLoop_saved env _ halbum',
        show ∀ x : DiscPipeline, x.writeGainRun env [] = x from fun _ => rfl]
      rw [DiscPipeline.albumGainWrites_writeAlbumGainLoop, DiscPipeline.albumGainWrites_buffer,
        DiscPipeline.mAlbumGain_bufferAlbumGain]
      rfl
    · have hpos : 0 < rest.length := List.length_pos.2 hrest
      have hlt : s.mAlbumGainRequests.length + 1 < s.mTracks.length := by omega
      rw [s.writeGain_below_barrier env a.track a.fileName a.gain hmode hlt ha]
      have hadv := DiscPipeline.advances_bufferAlbumGain
        (s.emit (Event.trackReplayGain a.fileName a.gain)) a.track a.fileName a.gain
      rw [ih (fun x hx => htrack x (List.mem_cons_of_mem _ hx)) _
        (by rw [hadv.2.1]; exact hmode) hrest (by
        rw [DiscPipeline.mAlbumGainRequests_bufferAlbumGain, hadv.1, List.length_append]
        simp only [List.length_singleton, DiscPipeline.mAlbumGainRequests_emit,
          DiscPipeline.mTracks_emit]
        omega) (by
        intro r hr
        apply halbum r
        rw [DiscPipeline.mAlbumGainRequests_bufferAlbumGain] at hr
        simpa [Arrival.request] using hr)]
      rw [DiscPipeline.albumGainWrites_buffer, DiscPipeline.mAlbumGainRequests_bufferAlbumGain,
        DiscPipeline.mAlbumGain_bufferAlbumGain]
      simp [Arrival.request]

/-- C18, counterexample: three album tracks are encoding and report ready in the
order track 2, track 3, track 1; the tag writer throws when it saves the album
tag of the file of track 3.  The file of track 2 receives the album pair, the
files of track 3 and track 1 receive none, and the exception leaves
`writeGain`. -/
theorem album_pair_not_written_to_every_file :
    WorkerReachable albumTagFails albumEncoding ∧
    (firstTwoArrivals ++ [lastArrival]).length = albumEncoding.mTracks.length ∧
    albumGainWrites (albumEncoding.writeGainRun albumTagFails
      (firstTwoArrivals ++ [lastArrival])).events =
        albumGainWrites albumEncoding.events ++ [("/work/tmp/b.encoded.flac", ⟨-6, 95⟩)] ∧
    ((albumEncoding.writeGainRun albumTagFails firstTwoArrivals).writeGain albumTagFails
      lastArrival.track lastArrival.fileName lastArrival.gain).2 = some "Can't save file" :=
  ⟨⟨albumProfile, [sampleTrackA, sampleTrackB, sampleTrackC], "/work", "/work/tmp",
      fun _ => none, albumStart, albumEncodingOps, rfl, by decide, by decide⟩,
    by decide, by decide, by decide⟩

/-- C18, amended: with the aggregator of the spec, in album mode, from a state
with nothing buffered, when no tag writer throws, the handling of as many
encode-ready events as there are tracks writes one album tag per file, in
arrival order, each with the same pair: the combination of the collection of
the gains.  For a permutation of the events the pair written to every file is
that same pair. -/
theorem album_pair_independent_of_order (agg : GainAggregator)
    (renameError : String → String → Option String)
    (trackTagError albumTagError : String → Option String) (s : DiscPipeline)
    (arrivals arrivals' : List Arrival) (hmode : s.mProfile.gainType = GainType.Album)
    (hbuf : s.mAlbumGainRequests = []) (hgain : s.mAlbumGain = [])
    (hN : arrivals.length = s.mTracks.length) (hperm : arrivals.Perm arrivals')
    (htrack : ∀ a ∈ arrivals, trackTagError a.fileName = none)
    (halbum : ∀ a ∈ arrivals, albumTagError a.fileName = none) :
    albumGainWrites (s.writeGainRun (agg.toEnv renameError trackTagError albumTagError)
        arrivals).events =
      albumGainWrites s.events ++ arrivals.map (fun a =>
        (a.fileName, agg.combine ((arrivals.map Arrival.gain : List GainResult) :
          Multiset GainResult))) ∧
    albumGainWrites (s.writeGainRun (agg.toEnv renameError trackTagError albumTagError)
        arrivals').events =
      albumGainWrites s.events ++ arrivals'.map (fun a =>
        (a.fileName, agg.combine ((arrivals.map Arrival.gain : List GainResult) :
          Multiset GainResult))) := by
  have key : ∀ l : List Arrival, l.length = s.mTracks.length →
      (∀ a ∈ l, trackTagError a.fileName = none) →
      (∀ a ∈ l, albumTagError a.fileName = none) →
      albumGainWrites (s.writeGainRun (agg.toEnv renameError trackTagError albumTagError)
          l).events =
        albumGainWrites s.events ++ l.map (fun a =>
          (a.fileName, agg.combine ((l.map Arrival.gain : List GainResult) :
            Multiset GainResult))) := by
    intro l hl h1 h2
    by_cases hne : l = []
    · subst hne
      simp [DiscPipeline.writeGainRun]
    · rw [DiscPipeline.albumGainWrites_writeGainRun _ l h1 s hmode hne
          (by rw [hbuf]; simpa using hl) (by
            intro r hr
            rw [hbuf, List.nil_append] at hr
            obtain ⟨a, ha, rfl⟩ := List.mem_map.1 hr
            exact h2 a ha),
        hbuf, hgain]
      simp [GainAggregator.toEnv, Arrival.request, Function.comp_def]
  refine ⟨key arrivals hN htrack halbum, ?_⟩
  rw [key arrivals' (by rw [← hperm.length_eq]; exact hN)
    (fun a ha => htrack a (hperm.symm.subset ha))
    (fun a ha => halbum a (hperm.symm.subset ha))]
  have hm : ((arrivals'.map Arrival.gain : List GainResult) : Multiset GainResult) =
      ((arrivals.map Arrival.gain : List GainResult) : Multiset GainResult) :=
    Multiset.coe_eq_coe.2 (hperm.symm.map Arrival.gain)
  rw [hm]

/-- C18, witness: three album tracks are encoding; the arrival order
(track 2, track 3, track 1) and the order (track 1, track 2, track 3) write the
same pair to the three files. -/
theorem album_pair_independent_of_order_witness :
    albumGainWrites (albumEncoding.writeGainRun albumEnv
      (firstTwoArrivals ++ [lastArrival])).events =
      albumGainWrites albumEncoding.events ++ (firstTwoArrivals ++ [lastArrival]).map (fun a =>
        (a.fileName, sampleAggregator.combine
          (((firstTwoArrivals ++ [lastArrival]).map Arrival.gain : List GainResult) :
            Multiset GainResult))) ∧
    albumGainWrites (albumEncoding.writeGainRun albumEnv
      ([lastArrival] ++ firstTwoArrivals)).events =
      albumGainWrites albumEncoding.events ++ ([lastArrival] ++ firstTwoArrivals).map (fun a =>
        (a.fileName, sampleAggregator.combine
          (((firstTwoArrivals ++ [lastArrival]).map Arrival.gain : List GainResult) :
            Multiset GainResult))) :=
  album_pair_independent_of_order sampleAggregator (fun _ _ => none) (fun _ => none)
    (fun _ => none) albumEncoding
    (firstTwoArrivals ++ [lastArrival]) ([lastArrival] ++ firstTwoArrivals) (by decide)
    (by decide) (by decide) (by decide) List.perm_append_comm (fun _ _ => rfl) (fun _ _ => rfl)

/-! ## C17: the order of the album tag writes and the renames -/

theorem DiscPipeline.isRunning_eq_false_iff (s : DiscPipeline) :
    s.isRunning = false ↔ ∀ i, (s.trackState i).countsAsRunning = false := by
  constructor
  · exact fun h i => s.not_countsAsRunning_of_not_isRunning h i
  · intro h
    cases hr : s.isRunning
    · rfl
    · exfalso
      unfold DiscPipeline.isRunning StateMap.values at hr
      rw [List.any_eq_true] at hr
      obtain ⟨st, hst, hc⟩ := hr
      obtain ⟨e, he, rfl⟩ := List.mem_map.1 hst
      have hf := (lookupEntry_eq_some_iff _ s.mTrackStates.ascending e.1 e.2).2 he
      have := h e.1
      unfold DiscPipeline.trackState StateMap.get StateMap.find at this
      rw [hf] at this
      simp only [Option.getD_some] at this
      rw [hc] at this
      cases this

/-- `trackDone` when the rename succeeds. -/
theorem DiscPipeline.trackDone_renamed (env : Env) (s : DiscPipeline) (track : ConvTrack)
    (outFileName : String) (h : env.renameError outFileName track.resultFilePath = none) :
    (s.trackDone env track outFileName).events =
      s.events ++ [Event.fileRemoved track.resultFilePath,
        Event.fileRenamed outFileName track.resultFilePath true,
        Event.trackProgressChanged track.index TrackState.OK 0, Event.threadFinished] ++
        (if (s.setTrackState track.index TrackState.OK).isRunning = true then []
          else [Event.finished]) ∧
    (∀ i, (s.trackDone env track outFileName).trackState i =
      if i = track.index then TrackState.OK else s.trackState i) := by
  constructor
  · unfold DiscPipeline.trackDone
    simp only [h]
    cases hb : (s.setTrackState track.index TrackState.OK).isRunning <;>
      · unfold DiscPipeline.isRunning at hb ⊢
        simp only [DiscPipeline.mTrackStates_emit, DiscPipeline.mTrackStates_setTrackState]
          at hb ⊢
        simp [hb]
  · intro i
    by_cases hi : i = track.index
    · rw [hi, DiscPipeline.trackState_trackDone_self]
      simp
    · rw [DiscPipeline.trackState_trackDone env s track outFileName i hi, h]
      simp [hi]

/-- The log of the iterations of the loop of `writeGain` whose album tag is
saved, when every rename succeeds, the records are for different tracks, the track of every record counts as running and no
other track does: per record the album tag write and the finalization, and
`finished` once at the end. -/
theorem DiscPipeline.events_writeAlbumGainLoop (env : Env)
    (hren : ∀ source target, env.renameError source target = none) (requests : List Request) :
    ∀ x : DiscPipeline, requests ≠ [] → (requests.map (fun r => r.track.index)).Nodup →
      (∀ r ∈ requests, (x.trackState r.track.index).countsAsRunning = true) →
      (∀ i, (x.trackState i).countsAsRunning = true → ∃ r ∈ requests, r.track.index = i) →
      (requests.foldl (DiscPipeline.albumTagged env) x).events =
        x.events ++ requests.flatMap (finalizeEvents (env.albumResult x.mAlbumGain)) ++
          [Event.finished] := by
  induction requests with
  | nil => intro x h; exact absurd rfl h
  | cons r rest ih =>
    intro x _ hnodup hrun hall
    simp only [List.foldl_cons]
    simp only [List.map_cons, List.nodup_cons, List.mem_map, not_exists, not_and] at hnodup
    obtain ⟨hd, hst⟩ := DiscPipeline.trackDone_renamed env
      (x.emit (Event.albumReplayGain r.inputFile (env.albumResult x.mAlbumGain))) r.track
      r.inputFile (hren _ _)
    have hstate : ∀ i, (x.albumTagged env r).trackState i =
        if i = r.track.index then TrackState.OK else x.trackState i := by
      intro i
      unfold DiscPipeline.albumTagged
      rw [hst i]
      rfl
    have hset : ∀ i, (((x.emit (Event.albumReplayGain r.inputFile
        (env.albumResult x.mAlbumGain))).setTrackState r.track.index TrackState.OK).trackState i)
          = if i = r.track.index then TrackState.OK else x.trackState i := by
      intro i
      rw [DiscPipeline.trackState_setTrackState]
      rfl
    have hgain : (x.albumTagged env r).mAlbumGain = x.mAlbumGain :=
      (x.sameConfig_albumTagged env r).2.2.2.2.1
    by_cases hrest : rest = []
    · subst hrest
      have hnot : ((x.emit (Event.albumReplayGain r.inputFile
          (env.albumResult x.mAlbumGain))).setTrackState r.track.index TrackState.OK).isRunning
            = false := by
        rw [DiscPipeline.isRunning_eq_false_iff]
        intro i
        rw [hset i]
        split_ifs with hi
        · rfl
        · cases hc : (x.trackState i).countsAsRunning
          · rfl
          · obtain ⟨r', hr', hi'⟩ := hall i hc
            simp only [List.mem_singleton] at hr'
            rw [hr'] at hi'
            exact absurd hi'.symm hi
      simp only [List.foldl_nil]
      unfold DiscPipeline.albumTagged
      rw [hd, hnot]
      simp [finalizeEvents]
    · obtain ⟨r2, rest2, hr2⟩ : ∃ r2 rest2, rest = r2 :: rest2 := by
        cases rest with
        | nil => exact absurd rfl hrest
        | cons r2 rest2 => exact ⟨r2, rest2, rfl⟩
      have hne2 : r2.track.index ≠ r.track.index := by
        intro e
        exact hnodup.1 r2 (by rw [hr2]; exact List.mem_cons_self _ _) e
      have hyes : ((x.emit (Event.albumReplayGain r.inputFile
          (env.albumResult x.mAlbumGain))).setTrackState r.track.index TrackState.OK).isRunning
            = true := by
        cases hb : ((x.emit (Event.albumReplayGain r.inputFile
          (env.albumResult x.mAlbumGain))).setTrackState r.track.index TrackState.OK).isRunning
        · exfalso
          have := (DiscPipeline.isRunning_eq_false_iff _).1 hb r2.track.index
          rw [hset, if_neg hne2,
            hrun r2 (List.mem_cons_of_mem _ (by rw [hr2]; exact List.mem_cons_self _ _))] at this
          cases this
        · rfl
      have hev : (x.albumTagged env r).events =
          x.events ++ finalizeEvents (env.albumResult x.mAlbumGain) r := by
        unfold DiscPipeline.albumTagged
        rw [hd, hyes]
        simp [finalizeEvents]
      rw [ih (x.albumTagged env r) hrest hnodup.2 ?_ ?_, hev, hgain]
      · simp
      · intro r' hr'
        have hne : r'.track.index ≠ r.track.index := fun e => hnodup.1 r' hr' e
        rw [hstate, if_neg hne]
        exact hrun r' (List.mem_cons_of_mem _ hr')
      · intro i hi
        rw [hstate] at hi
        split_ifs at hi with hir
        · cases hi
        · obtain ⟨r', hr', hi'⟩ := hall i hi
          rcases List.mem_cons.1 hr' with hr' | hr'
          · rw [hr'] at hi'
            exact absurd hi'.symm hir
          · exact ⟨r', hr', hi'⟩

theorem DiscPipeline.events_bufferAlbumGain (s : DiscPipeline) (track : ConvTrack)
    (fileName : String) (trackGain : GainResult) (h : s.mInterrupted = false) :
    (s.bufferAlbumGain track fileName trackGain).events =
      s.events ++ [Event.trackProgressChanged track.index TrackState.WaitGain 0] := by
  unfold DiscPipeline.bufferAlbumGain DiscPipeline.trackProgress
  simp only [h]
  rfl

/-- C17, counterexample: three tracks in album mode, every rename succeeding;
the encode-ready events arrive for tracks 2, 3, 1.  What the third event logs
is, per file, the album tag write followed at once by the rename of that file:
the first rename is made before the second album tag write. -/
theorem album_tag_writes_and_renames_alternate :
    WorkerReachable albumEnv albumTwoReported ∧
    (albumTwoReported.writeGain albumEnv lastArrival.track lastArrival.fileName
        lastArrival.gain).1.events.drop albumTwoReported.events.length =
      [Event.trackReplayGain "/work/tmp/a.encoded.flac" ⟨-5, 80⟩,
        Event.trackProgressChanged 0 TrackState.WaitGain 0,
        Event.albumReplayGain "/work/tmp/b.encoded.flac" ⟨-6, 95⟩,
        Event.fileRemoved "/out/b.flac",
        Event.fileRenamed "/work/tmp/b.encoded.flac" "/out/b.flac" true,
        Event.trackProgressChanged 1 TrackState.OK 0,
        Event.threadFinished,
        Event.albumReplayGain "/work/tmp/c.encoded.flac" ⟨-6, 95⟩,
        Event.fileRemoved "/out/c.flac",
        Event.fileRenamed "/work/tmp/c.encoded.flac" "/out/c.flac" true,
        Event.trackProgressChanged 2 TrackState.OK 0,
        Event.threadFinished,
        Event.albumReplayGain "/work/tmp/a.encoded.flac" ⟨-6, 95⟩,
        Event.fileRemoved "/out/a.flac",
        Event.fileRenamed "/work/tmp/a.encoded.flac" "/out/a.flac" true,
        Event.trackProgressChanged 0 TrackState.OK 0,
        Event.threadFinished,
        Event.finished] ∧
    (((albumTwoReported.writeGain albumEnv lastArrival.track lastArrival.fileName
        lastArrival.gain).1.events.drop albumTwoReported.events.length).filter
      (fun e => e.albumGainWrite.isSome || e.rename.isSome)).map
        (fun e => e.albumGainWrite.isSome) = [true, false, true, false, true, false] :=
  ⟨⟨albumProfile, [sampleTrackA, sampleTrackB, sampleTrackC], "/work", "/work/tmp",
      fun _ => none, albumStart,
      albumEncodingOps ++ [Op.writeGain sampleTrackB "/work/tmp/b.encoded.flac" ⟨-6, 90⟩,
        Op.writeGain sampleTrackC "/work/tmp/c.encoded.flac" ⟨-4, 95⟩],
      rfl, by decide, by decide⟩,
    by decide, by decide⟩

/-- C17, amended: in album mode with every rename succeeding and no tag writer
throwing, when the pipeline is not interrupted, the buffer holds one record
less than there are tracks, the records and the arriving event are for
different tracks, the tracks of the buffered records count as running and no
track besides these and the arriving one does, `writeGain` returns normally and
logs: the track tag write and the WaitGain progress event of the arriving
track; then for each record in buffer order, the arriving one last, its album
tag write followed by the removal of the old file, the rename, the OK progress
event and `threadFinished`; then `finished`, once. -/
theorem album_finalization_order (env : Env) (s : DiscPipeline) (T : ConvTrack)
    (file : String) (g : GainResult)
    (hren : ∀ source target, env.renameError source target = none)
    (htag : env.trackTagError file = none)
    (halbum : ∀ r ∈ s.mAlbumGainRequests ++ [Request.mk T file],
      env.albumTagError r.inputFile = none)
    (hmode : s.mProfile.gainType = GainType.Album) (hint : s.mInterrupted = false)
    (hN : s.mAlbumGainRequests.length + 1 = s.mTracks.length)
    (hnodup : ((s.mAlbumGainRequests ++ [Request.mk T file]).map
      (fun r => r.track.index)).Nodup)
    (hwait : ∀ r ∈ s.mAlbumGainRequests, (s.trackState r.track.index).countsAsRunning = true)
    (hothers : ∀ i, (s.trackState i).countsAsRunning = true →
      i = T.index ∨ ∃ r ∈ s.mAlbumGainRequests, r.track.index = i) :
    (s.writeGain env T file g).2 = none ∧
    (s.writeGain env T file g).1.events =
      s.events ++ [Event.trackReplayGain file g,
        Event.trackProgressChanged T.index TrackState.WaitGain 0] ++
      (s.mAlbumGainRequests ++ [Request.mk T file]).flatMap
        (finalizeEvents (env.albumResult (s.mAlbumGain ++ [g]))) ++
      [Event.finished] := by
  have hge : ¬ s.mAlbumGainRequests.length + 1 < s.mTracks.length := by omega
  have hst : ∀ i, ((s.emit (Event.trackReplayGain file g)).bufferAlbumGain T file g).trackState i
      = if i = T.index then TrackState.WaitGain else s.trackState i := by
    intro i
    rw [DiscPipeline.trackState_bufferAlbumGain]
    simp only [DiscPipeline.mInterrupted_emit, hint, true_and]
    rfl
  rw [s.writeGain_at_barrier env T file g hmode hge htag,
    DiscPipeline.writeAlbumGainLoop_saved env _ halbum]
  refine ⟨rfl, ?_⟩
  show (List.foldl (DiscPipeline.albumTagged env) _ _).events = _
  rw [DiscPipeline.events_writeAlbumGainLoop env hren _ _ (by simp) hnodup ?_ ?_,
    DiscPipeline.events_bufferAlbumGain _ _ _ _ (by exact hint),
    DiscPipeline.mAlbumGain_bufferAlbumGain]
  · simp
  · intro r hr
    rw [hst]
    split_ifs
    · rfl
    · rcases List.mem_append.1 hr with hr | hr
      · exact hwait r hr
      · simp only [List.mem_singleton] at hr
        rename_i hne
        rw [hr] at hne
        exact absurd rfl hne
  · intro i hi
    rw [hst] at hi
    split_ifs at hi with hiT
    · exact ⟨Request.mk T file, by simp, hiT.symm⟩
    · rcases hothers i hi with h | ⟨r, hr, hri⟩
      · exact absurd h hiT
      · exact ⟨r, List.mem_append_left _ hr, hri⟩

/-- C17, witness: the third arrival in the scenario of three album tracks. -/
theorem album_finalization_order_witness :
    (albumTwoReported.writeGain albumEnv lastArrival.track lastArrival.fileName
        lastArrival.gain).2 = none ∧
    (albumTwoReported.writeGain albumEnv lastArrival.track lastArrival.fileName
        lastArrival.gain).1.events =
      albumTwoReported.events ++ [Event.trackReplayGain lastArrival.fileName lastArrival.gain,
        Event.trackProgressChanged lastArrival.track.index TrackState.WaitGain 0] ++
      (albumTwoReported.mAlbumGainRequests ++
        [Request.mk lastArrival.track lastArrival.fileName]).flatMap
        (finalizeEvents (albumEnv.albumResult (albumTwoReported.mAlbumGain ++
          [lastArrival.gain]))) ++
      [Event.finished] :=
  album_finalization_order albumEnv albumTwoReported lastArrival.track lastArrival.fileName
    lastArrival.gain (fun _ _ => rfl) rfl (fun _ _ => rfl) (by decide) (by decide) (by decide)
    (by decide)
    (by decide) (by
      intro i hi
      have h3 : i = 0 ∨ i = 1 ∨ i = 2 ∨ 3 ≤ i := by omega
      rcases h3 with h | h | h | h
      · exact Or.inl h
      · exact Or.inr ⟨⟨sampleTrackB, "/work/tmp/b.encoded.flac"⟩, by decide, h.symm⟩
      · exact Or.inr ⟨⟨sampleTrackC, "/work/tmp/c.encoded.flac"⟩, by decide, h.symm⟩
      · exfalso
        have hnone : albumTwoReported.trackState i = TrackState.NotRunning := by
          unfold DiscPipeline.trackState StateMap.get StateMap.find
          have hent : albumTwoReported.mTrackStates.entries =
              [(0, TrackState.Encoding), (1, TrackState.WaitGain), (2, TrackState.WaitGain)] := by
            decide
          rw [hent]
          have h0 : ¬ i = 0 := by omega
          have h1 : ¬ i = 1 := by omega
          have h2 : ¬ i = 2 := by omega
          simp [lookupEntry, h0, h1, h2]
        rw [hnone] at hi
        cases hi)

/-! ## C26: progress events -/

/-- C26: with the interrupted flag set `trackProgress` returns the state as it
is: the track-state map is unchanged and nothing is emitted.  With the flag
unset it sets the state of the track of the event to the reported state, leaves
every other track state unchanged and emits the one progress event. -/
theorem trackProgress_gated (s : DiscPipeline) (track : ConvTrack) (state : TrackState)
    (percent : Int) :
    (s.mInterrupted = true → s.trackProgress track state percent = s) ∧
    (s.mInterrupted = false →
      (s.trackProgress track state percent).trackState track.index = state ∧
      (∀ i, i ≠ track.index → (s.trackProgress track state percent).trackState i
        = s.trackState i) ∧
      (s.trackProgress track state percent).events =
        s.events ++ [Event.trackProgressChanged track.index state percent]) := by
  constructor
  · intro h
    unfold DiscPipeline.trackProgress
    simp [h]
  · intro h
    refine ⟨?_, ?_, ?_⟩
    · rw [DiscPipeline.trackState_trackProgress]
      simp [h]
    · intro i hi
      rw [DiscPipeline.trackState_trackProgress]
      simp [hi]
    · unfold DiscPipeline.trackProgress
      simp [h]

/-- C26, witness: a progress event for the first of two encoding tracks, before
and after a stop. -/
theorem trackProgress_gated_witness :
    twoTracksEncoding.stop.trackProgress sampleTrackA TrackState.Encoding 60
      = twoTracksEncoding.stop ∧
    (twoTracksQueued.trackProgress sampleTrackA TrackState.Encoding 60).trackState
      sampleTrackA.index = TrackState.Encoding :=
  ⟨(trackProgress_gated twoTracksEncoding.stop sampleTrackA TrackState.Encoding 60).1
      (by decide),
    ((trackProgress_gated twoTracksQueued sampleTrackA TrackState.Encoding 60).2
      (by decide)).1⟩

/-! ## C27: what a worker start costs -/

theorem DiscPipeline.encoderStarts_startEncoders (s : DiscPipeline) (count : Int)
    (q : List Request) :
    encoderStarts (DiscPipeline.startEncoders s count q).1.events =
      encoderStarts s.events + min count.toNat q.length := by
  unfold encoderStarts
  rw [DiscPipeline.events_startEncoders, List.countP_append,
    countP_map_encoderEvent s _ _ true (fun _ _ _ _ => rfl)]
  simp

theorem DiscPipeline.splitterStarts_startSplitter (s : DiscPipeline) (request : SplitterRequest)
    (tasksError : Option String) :
    splitterStarts (s.startSplitter request tasksError).events = splitterStarts s.events + 1 := by
  unfold splitterStarts
  rw [DiscPipeline.countP_events_startSplitter _ _ _ _ (fun _ _ _ => rfl) rfl rfl rfl
    (fun _ => rfl)]
  rfl

theorem DiscPipeline.encoderStarts_startSplitter (s : DiscPipeline) (request : SplitterRequest)
    (tasksError : Option String) :
    encoderStarts (s.startSplitter request tasksError).events = encoderStarts s.events := by
  unfold encoderStarts
  rw [DiscPipeline.countP_events_startSplitter _ _ _ _ (fun _ _ _ => rfl) rfl rfl rfl
    (fun _ => rfl)]
  rfl

/-- C27: a `startWorker` call starts at most one split worker, and when it
starts one it starts no encode worker.  The split counter it returns is the
argument less the number of split workers started; the encode counter is the
argument less the number of split workers started and less the number of
encode workers started. -/
theorem schedule_slot_cost (s : DiscPipeline) (splitSlots encodeSlots : Int)
    (tasksError : Option String) :
    splitterStarts (s.startWorker splitSlots encodeSlots tasksError).1.events
      ≤ splitterStarts s.events + 1 ∧
    (splitterStarts (s.startWorker splitSlots encodeSlots tasksError).1.events
        = splitterStarts s.events + 1 →
      encoderStarts (s.startWorker splitSlots encodeSlots tasksError).1.events
        = encoderStarts s.events) ∧
    (s.startWorker splitSlots encodeSlots tasksError).2.1 =
      splitSlots -
        ((splitterStarts (s.startWorker splitSlots encodeSlots tasksError).1.events : Int)
          - (splitterStarts s.events : Int)) ∧
    (s.startWorker splitSlots encodeSlots tasksError).2.2 =
      encodeSlots -
        ((splitterStarts (s.startWorker splitSlots encodeSlots tasksError).1.events : Int)
          - (splitterStarts s.events : Int)) -
        ((encoderStarts (s.startWorker splitSlots encodeSlots tasksError).1.events : Int)
          - (encoderStarts s.events : Int)) := by
  rcases s.startWorker_cases splitSlots encodeSlots tasksError with
    e | ⟨req, rest, _, _, _, _, e⟩ | ⟨_, _, _, e⟩
  · rw [e]
    refine ⟨by simp, fun h => by simp at h, ?_, ?_⟩ <;> simp
  · rw [e]
    have e1 := DiscPipeline.splitterStarts_startSplitter
      { s with mSplitterRequests := rest } req tasksError
    have e2 := DiscPipeline.encoderStarts_startSplitter
      { s with mSplitterRequests := rest } req tasksError
    simp only [e1, e2]
    refine ⟨le_refl _, fun _ => trivial, ?_, ?_⟩
    · show splitSlots - 1 = _
      push_cast
      ring
    · show encodeSlots - 1 = _
      push_cast
      ring
  · rw [e]
    have e1 := DiscPipeline.splitterStarts_startEncoders s encodeSlots s.mEncoderRequests
    have e2 := DiscPipeline.encoderStarts_startEncoders s encodeSlots s.mEncoderRequests
    have e3 : (DiscPipeline.startEncoders s encodeSlots s.mEncoderRequests).2
        = encodeSlots - ((min encodeSlots.toNat s.mEncoderRequests.length : Nat) : Int) := by
      rw [DiscPipeline.startEncoders_eq]
    simp only [e1, e2, e3]
    refine ⟨by omega, fun h => by omega, ?_, ?_⟩
    · simp
    · push_cast
      ring

/-! ## C21, C22, C28: the profile and the split request after construction -/

theorem DiscPipeline.addTracks_mProfile (dirError : String → Option String)
    (tracks : List ConvTrack) :
    ∀ s s' : DiscPipeline, DiscPipeline.addTracks dirError s tracks = Except.ok s' →
      s'.mProfile =
        if tracks.any (fun t => decide (2 < t.channelsCount)) = true
        then { s.mProfile with gainType := GainType.Disable } else s.mProfile := by
  induction tracks with
  | nil =>
    intro s s' h
    unfold DiscPipeline.addTracks at h
    cases h
    rfl
  | cons t ts ih =>
    intro s s' h
    unfold DiscPipeline.addTracks at h
    cases hd : dirError (dirName t.resultFilePath) with
    | some err => simp [hd] at h
    | none =>
      simp only [hd] at h
      rw [ih _ _ h]
      by_cases hc : 2 < t.channelsCount
      · simp only [gt_iff_lt, hc, if_true, List.any_cons, decide_True, Bool.true_or]
        exact ite_self _
      · simp only [gt_iff_lt, hc, if_false, List.any_cons, decide_False, Bool.false_or]

/-- The request that `addSpliterRequest` appends. -/
theorem DiscPipeline.addSpliterRequest_eq (s : DiscPipeline) (t : ConvTrack)
    (ts : List ConvTrack) (h : s.mTracks = t :: ts) :
    s.addSpliterRequest = some
      { s with mSplitterRequests := s.mSplitterRequests ++
        [⟨t :: ts, s.mTmpDir,
          if t.index = 0 ∧ 0 < t.cueIndex1Ms ∧ s.mProfile.isCreateCue = true
          then s.mProfile.preGapType else PreGapType.Skip⟩] } := by
  unfold DiscPipeline.addSpliterRequest DiscPipeline.hasPregap
  rw [h]
  simp only [Option.some.injEq]
  congr 3
  by_cases h1 : t.index = 0 <;> by_cases h2 : 0 < t.cueIndex1Ms <;>
    cases h3 : s.mProfile.isCreateCue <;> simp [h1, h2]

/-- What the constructor returns for a non-empty track list whose directories
can all be made. -/
theorem DiscPipeline.create_result (profile : Profile) (t : ConvTrack) (ts : List ConvTrack)
    (dir tmpDir : String) (dirError : String → Option String) (hdir : dirError dir = none)
    (htracks : ∀ u ∈ t :: ts, dirError (dirName u.resultFilePath) = none) :
    ∃ x, DiscPipeline.create profile (t :: ts) dir tmpDir dirError = Except.ok x ∧
      x.mProfile =
        (if (t :: ts).any (fun u => decide (2 < u.channelsCount)) = true
          then { profile with gainType := GainType.Disable } else profile) ∧
      x.mSplitterRequests =
        [⟨t :: ts, tmpDir,
          if t.index = 0 ∧ 0 < t.cueIndex1Ms ∧ profile.isCreateCue = true
          then profile.preGapType else PreGapType.Skip⟩] := by
  obtain ⟨s', h1, h2, _, _, _, _, h7, h8, _⟩ := DiscPipeline.addTracks_ok dirError (t :: ts)
    { mProfile := profile, mTracks := [], mTmpDir := tmpDir, mTrackStates := StateMap.empty,
      mSplitterRequests := [], mEncoderRequests := [], mAlbumGainRequests := [],
      mAlbumGain := [], mInterrupted := false, events := [] } htracks
  have hp := DiscPipeline.addTracks_mProfile dirError (t :: ts) _ _ h1
  simp only [List.nil_append] at h2
  have hc : s'.mProfile.isCreateCue = profile.isCreateCue := by
    rw [hp]; split_ifs <;> rfl
  have hg : s'.mProfile.preGapType = profile.preGapType := by
    rw [hp]; split_ifs <;> rfl
  obtain ⟨y, hy, hy1, hy2⟩ : ∃ y, s'.addSpliterRequest = some y ∧ y.mProfile = s'.mProfile ∧
      y.mSplitterRequests = s'.mSplitterRequests ++
        [⟨t :: ts, s'.mTmpDir,
          if t.index = 0 ∧ 0 < t.cueIndex1Ms ∧ s'.mProfile.isCreateCue = true
          then s'.mProfile.preGapType else PreGapType.Skip⟩] :=
    ⟨_, s'.addSpliterRequest_eq t ts h2, rfl, rfl⟩
  refine ⟨y, ?_, ?_, ?_⟩
  · unfold DiscPipeline.create
    simp only [hdir, h1, hy]
  · rw [hy1]; exact hp
  · rw [hy2, h7, h8, hc, hg]; rfl

theorem DiscPipeline.mProfile_step (env : Env) (s : DiscPipeline) (op : Op) :
    (s.step env op).mProfile = s.mProfile := by
  cases op with
  | startWorker splitterCount count tasksError => exact (s.advances_startWorker _ _ _).2.1
  | addEncoderRequest track inputFile => exact (s.sameConfig_addEncoderRequest _ _).1
  | trackProgress track state percent => exact (s.sameConfig_trackProgress _ _ _).1
  | writeGain track fileName trackGain => exact (s.writeGain_frame env _ _ _).1
  | trackDone track outFileName => exact (s.sameConfig_trackDone env _ _).1
  | trackError track message => exact (s.sameConfig_trackError _ _).1
  | interrupt state => exact (s.sameConfig_interrupt _).1
  | stop => exact s.sameConfig_stop.1

theorem DiscPipeline.mProfile_run (env : Env) (ops : List Op) :
    ∀ s : DiscPipeline, (s.run env ops).mProfile = s.mProfile := by
  induction ops with
  | nil => intro s; rfl
  | cons op ops ih =>
    intro s
    unfold DiscPipeline.run at ih ⊢
    simp only [List.foldl_cons]
    rw [ih, DiscPipeline.mProfile_step]

/-- C21: for a non-empty track list whose directories can all be made, the
constructor returns a pipeline whose gain mode is `Disable` when some track has
more than 2 channels and the gain mode of the profile passed in when no track
has; the other settings of the profile are those passed in, and no run of
operations changes the profile. -/
theorem gain_mode_downgrade (env : Env) (profile : Profile) (t : ConvTrack)
    (ts : List ConvTrack) (dir tmpDir : String) (dirError : String → Option String)
    (hdir : dirError dir = none)
    (htracks : ∀ u ∈ t :: ts, dirError (dirName u.resultFilePath) = none) :
    ∃ s, DiscPipeline.create profile (t :: ts) dir tmpDir dirError = Except.ok s ∧
      ((∃ u ∈ t :: ts, 2 < u.channelsCount) → s.mProfile.gainType = GainType.Disable) ∧
      ((∀ u ∈ t :: ts, u.channelsCount ≤ 2) → s.mProfile.gainType = profile.gainType) ∧
      s.mProfile.isCreateCue = profile.isCreateCue ∧
      s.mProfile.preGapType = profile.preGapType ∧
      (∀ ops, (s.run env ops).mProfile = s.mProfile) := by
  obtain ⟨x, h1, h2, _⟩ := DiscPipeline.create_result profile t ts dir tmpDir dirError hdir htracks
  refine ⟨x, h1, ?_, ?_, ?_, ?_, fun ops => DiscPipeline.mProfile_run env ops x⟩
  · rintro ⟨u, hu, hc⟩
    have : (t :: ts).any (fun u => decide (2 < u.channelsCount)) = true :=
      List.any_eq_true.2 ⟨u, hu, by simpa using hc⟩
    rw [h2, if_pos this]
  · intro hall
    have : ¬ (t :: ts).any (fun u => decide (2 < u.channelsCount)) = true := by
      rw [List.any_eq_true]
      rintro ⟨u, hu, hc⟩
      have := hall u hu
      simp only [decide_eq_true_eq] at hc
      omega
    rw [h2, if_neg this]
  · rw [h2]; split_ifs <;> rfl
  · rw [h2]; split_ifs <;> rfl

/-- C21, witness: album gain is asked for and the second track has six
channels. -/
theorem gain_mode_downgrade_witness :
    ∃ s, DiscPipeline.create albumProfile [sampleTrackA, surroundTrack] "/work" "/work/tmp"
        (fun _ => none) = Except.ok s ∧
      ((∃ u ∈ [sampleTrackA, surroundTrack], 2 < u.channelsCount) →
        s.mProfile.gainType = GainType.Disable) ∧
      ((∀ u ∈ [sampleTrackA, surroundTrack], u.channelsCount ≤ 2) →
        s.mProfile.gainType = albumProfile.gainType) ∧
      s.mProfile.isCreateCue = albumProfile.isCreateCue ∧
      s.mProfile.preGapType = albumProfile.preGapType ∧
      (∀ ops, (s.run renamesSucceed ops).mProfile = s.mProfile) :=
  gain_mode_downgrade renamesSucceed albumProfile sampleTrackA [surroundTrack] "/work"
    "/work/tmp" (fun _ => none) rfl (fun _ _ => rfl)

/-- C22: when the index 01 of the first track is at 0 ms, `addSpliterRequest`
appends a request with pregap mode `Skip` in every pipeline with that track
list, whatever its profile, and so does the constructor for every profile. -/
theorem first_cue_at_zero_gives_skip (t : ConvTrack) (ts : List ConvTrack)
    (hcue : t.cueIndex1Ms = 0) :
    (∀ s : DiscPipeline, s.mTracks = t :: ts →
      ∃ x, s.addSpliterRequest = some x ∧
        x.mSplitterRequests =
          s.mSplitterRequests ++ [⟨t :: ts, s.mTmpDir, PreGapType.Skip⟩]) ∧
    (∀ (profile : Profile) (dir tmpDir : String) (dirError : String → Option String),
      dirError dir = none → (∀ u ∈ t :: ts, dirError (dirName u.resultFilePath) = none) →
      ∃ x, DiscPipeline.create profile (t :: ts) dir tmpDir dirError = Except.ok x ∧
        x.mSplitterRequests = [⟨t :: ts, tmpDir, PreGapType.Skip⟩]) := by
  have hno : ∀ p : Profile,
      (if t.index = 0 ∧ 0 < t.cueIndex1Ms ∧ p.isCreateCue = true
        then p.preGapType else PreGapType.Skip) = PreGapType.Skip := by
    intro p
    rw [if_neg]
    rw [hcue]
    simp
  constructor
  · intro s h
    refine ⟨_, s.addSpliterRequest_eq t ts h, ?_⟩
    simp only [hno]
  · intro profile dir tmpDir dirError hdir htracks
    obtain ⟨x, h1, _, h3⟩ :=
      DiscPipeline.create_result profile t ts dir tmpDir dirError hdir htracks
    refine ⟨x, h1, ?_⟩
    rw [h3, hno]

/-- C22, witness: a single track that starts at 0, with a profile that asks for
the pregap to be extracted. -/
theorem first_cue_at_zero_gives_skip_witness :
    (∀ s : DiscPipeline, s.mTracks = [sampleTrackA] →
      ∃ x, s.addSpliterRequest = some x ∧
        x.mSplitterRequests =
          s.mSplitterRequests ++ [⟨[sampleTrackA], s.mTmpDir, PreGapType.Skip⟩]) ∧
    (∀ (profile : Profile) (dir tmpDir : String) (dirError : String → Option String),
      dirError dir = none →
      (∀ u ∈ [sampleTrackA], dirError (dirName u.resultFilePath) = none) →
      ∃ x, DiscPipeline.create profile [sampleTrackA] dir tmpDir dirError = Except.ok x ∧
        x.mSplitterRequests = [⟨[sampleTrackA], tmpDir, PreGapType.Skip⟩]) :=
  first_cue_at_zero_gives_skip sampleTrackA [] rfl

/-- C28: for a non-empty track list, the request `addSpliterRequest` appends has
the pregap mode of the profile when the first track has index 0, its index 01
is after 0 ms and the profile writes a cue file, and `Skip` otherwise; the
constructor builds its one request the same way from the profile passed in.
With cue creation off the mode is `Skip`. -/
theorem split_request_pregap_mode (t : ConvTrack) (ts : List ConvTrack) :
    (∀ s : DiscPipeline, s.mTracks = t :: ts →
      ∃ x, s.addSpliterRequest = some x ∧
        x.mSplitterRequests = s.mSplitterRequests ++
          [⟨t :: ts, s.mTmpDir,
            if t.index = 0 ∧ 0 < t.cueIndex1Ms ∧ s.mProfile.isCreateCue = true
            then s.mProfile.preGapType else PreGapType.Skip⟩]) ∧
    (∀ (profile : Profile) (dir tmpDir : String) (dirError : String → Option String),
      dirError dir = none → (∀ u ∈ t :: ts, dirError (dirName u.resultFilePath) = none) →
      ∃ x, DiscPipeline.create profile (t :: ts) dir tmpDir dirError = Except.ok x ∧
        x.mSplitterRequests =
          [⟨t :: ts, tmpDir,
            if t.index = 0 ∧ 0 < t.cueIndex1Ms ∧ profile.isCreateCue = true
            then profile.preGapType else PreGapType.Skip⟩] ∧
        (profile.isCreateCue = false →
          x.mSplitterRequests = [⟨t :: ts, tmpDir, PreGapType.Skip⟩])) := by
  constructor
  · intro s h
    exact ⟨_, s.addSpliterRequest_eq t ts h, rfl⟩
  · intro profile dir tmpDir dirError hdir htracks
    obtain ⟨x, h1, _, h3⟩ :=
      DiscPipeline.create_result profile t ts dir tmpDir dirError hdir htracks
    refine ⟨x, h1, h3, ?_⟩
    intro hc
    rw [h3, if_neg]
    rw [hc]
    simp

/-- The constructor on a track with a pregap: the profile's mode with cue
creation on, `Skip` with cue creation off. -/
theorem pregap_mode_examples :
    (DiscPipeline.create sampleProfile [pregapTrack, sampleTrackB] "/work" "/work/tmp"
        (fun _ => none)).toOption.map (fun x => x.mSplitterRequests.map (fun r => r.pregapType))
      = some [PreGapType.ExtractToFile] ∧
    (DiscPipeline.create noCueProfile [pregapTrack, sampleTrackB] "/work" "/work/tmp"
        (fun _ => none)).toOption.map (fun x => x.mSplitterRequests.map (fun r => r.pregapType))
      = some [PreGapType.Skip] ∧
    (DiscPipeline.create sampleProfile [sampleTrackB] "/work" "/work/tmp"
        (fun _ => none)).toOption.map (fun x => x.mSplitterRequests.map (fun r => r.pregapType))
      = some [PreGapType.Skip] := by
  refine ⟨?_, ?_, ?_⟩ <;> rfl

/-! ## C25: the destructor of the worker thread -/

/-- C25 as stated fails: both waits time out and the release of the worker is
requested all the same. -/
theorem worker_released_after_two_timeouts :
    TeardownAction.deleteLater ∈ WorkerThread.destructor false false ∧
      ¬ (false = true ∨ false = true) := by
  decide

/-- C25, amended: termination is forced exactly when the first wait times out;
there is a second wait exactly then, and it comes right after the call of
`terminate`; the second warning is logged exactly when both waits time out; and
in every case the destructor runs to its end, where its last call asks for the
release of the worker, whatever the waits returned. -/
theorem teardown_sequence (firstWait secondWait : Bool) :
    (TeardownAction.terminate ∈ WorkerThread.destructor firstWait secondWait ↔
      firstWait = false) ∧
    (WorkerThread.destructor firstWait secondWait).count (TeardownAction.wait 3000) =
      (if firstWait = false then 2 else 1) ∧
    (firstWait = false → ∃ before after,
      WorkerThread.destructor firstWait secondWait =
        before ++ TeardownAction.terminate :: TeardownAction.wait 3000 :: after ∧
      before.count (TeardownAction.wait 3000) = 1 ∧
      after.count (TeardownAction.wait 3000) = 0) ∧
    (TeardownAction.warning "Can't terminate from thread" ∈
        WorkerThread.destructor firstWait secondWait ↔
      firstWait = false ∧ secondWait = false) ∧
    (WorkerThread.destructor firstWait secondWait).getLast? = some TeardownAction.deleteLater ∧
    (WorkerThread.destructor firstWait secondWait).count TeardownAction.deleteLater = 1 ∧
    (firstWait = true →
      WorkerThread.destructor firstWait secondWait =
        [TeardownAction.quit, TeardownAction.wait 3000, TeardownAction.deleteLater]) := by
  cases firstWait <;> cases secondWait
  · refine ⟨by decide, by decide, fun _ => ⟨[TeardownAction.quit, TeardownAction.wait 3000,
      TeardownAction.warning "Can't quit from thread"],
      [TeardownAction.warning "Can't terminate from thread", TeardownAction.deleteLater],
      by decide, by decide, by decide⟩, by decide, by decide, by decide, by decide⟩
  · refine ⟨by decide, by decide, fun _ => ⟨[TeardownAction.quit, TeardownAction.wait 3000,
      TeardownAction.warning "Can't quit from thread"], [TeardownAction.deleteLater],
      by decide, by decide, by decide⟩, by decide, by decide, by decide, by decide⟩
  · exact ⟨by decide, by decide, fun h => absurd h (by decide), by decide, by decide,
      by decide, by decide⟩
  · exact ⟨by decide, by decide, fun h => absurd h (by decide), by decide, by decide,
      by decide, by decide⟩

/-! ## C24: the output file of an encoder -/

theorem takeWhile_append_stop {α : Type} (p : α → Bool) (l : List α) (a : α) (r : List α)
    (hl : ∀ x ∈ l, p x = true) (ha : p a = false) : (l ++ a :: r).takeWhile p = l := by
  induction l with
  | nil => simp [List.takeWhile, ha]
  | cons x l ih =>
    simp only [List.cons_append, List.takeWhile_cons, hl x (List.mem_cons_self _ _), if_true]
    rw [ih (fun y hy => hl y (List.mem_cons_of_mem _ hy))]

theorem dropWhile_append_stop {α : Type} (p : α → Bool) (l : List α) (a : α) (r : List α)
    (hl : ∀ x ∈ l, p x = true) (ha : p a = false) : (l ++ a :: r).dropWhile p = a :: r := by
  induction l with
  | nil => simp [List.dropWhile, ha]
  | cons x l ih =>
    simp only [List.cons_append, List.dropWhile_cons, hl x (List.mem_cons_self _ _), if_true]
    exact ih (fun y hy => hl y (List.mem_cons_of_mem _ hy))

theorem fileNameChars_no_slash (path : List Char) : ∀ c ∈ fileNameChars path, c ≠ '/' := by
  intro c hc
  unfold fileNameChars at hc
  have := List.mem_takeWhile_imp (List.mem_reverse.1 hc)
  simpa using this

theorem baseName_no_slash (path : String) : ∀ c ∈ (baseName path).data, c ≠ '/' := by
  intro c hc
  exact fileNameChars_no_slash path.data c ((List.takeWhile_sublist _).subset hc)

theorem suffix_no_slash (path : String) : ∀ c ∈ (suffix path).data, c ≠ '/' := by
  intro c hc
  unfold suffix at hc
  simp only at hc
  split_ifs at hc
  · exact fileNameChars_no_slash path.data c
      (List.mem_reverse.1 ((List.takeWhile_sublist _).subset (List.mem_reverse.1 hc)))
  · simp at hc

theorem fileNameChars_append_slash (d n : List Char) (hn : ∀ c ∈ n, c ≠ '/') :
    fileNameChars (d ++ '/' :: n) = n := by
  unfold fileNameChars
  rw [List.reverse_append, List.reverse_cons, List.append_assoc, List.singleton_append,
    takeWhile_append_stop _ _ _ _ (by intro x hx; simpa using hn x (List.mem_reverse.1 hx))
      (by simp), List.reverse_reverse]

theorem filePath_of_plain (dir name : String) (hn : ∀ c ∈ name.data, c ≠ '/')
    (hdir : dir.data.getLast? ≠ some '/') : filePath dir name = dir ++ "/" ++ name := by
  unfold filePath
  have h1 : name.data.head? ≠ some '/' := by
    intro h
    exact hn '/' (List.mem_of_mem_head? h) rfl
  rw [if_neg h1, if_neg hdir]

theorem fileName_filePath (dir name : String) (hn : ∀ c ∈ name.data, c ≠ '/')
    (hdir : dir.data.getLast? ≠ some '/') : fileName (filePath dir name) = name := by
  rw [filePath_of_plain dir name hn hdir]
  unfold fileName
  have : (dir ++ "/" ++ name).data = dir.data ++ '/' :: name.data := by
    simp [String.data_append]
  rw [this, fileNameChars_append_slash _ _ hn]

theorem dirName_filePath (dir name : String) (hn : ∀ c ∈ name.data, c ≠ '/')
    (hdir : dir.data.getLast? ≠ some '/') (hne : dir ≠ "") :
    dirName (filePath dir name) = dir := by
  rw [filePath_of_plain dir name hn hdir]
  unfold dirName
  have : (dir ++ "/" ++ name).data = dir.data ++ '/' :: name.data := by
    simp [String.data_append]
  simp only [this]
  rw [List.reverse_append, List.reverse_cons, List.append_assoc, List.singleton_append,
    dropWhile_append_stop _ _ _ _ (by intro x hx; simpa using hn x (List.mem_reverse.1 hx))
      (by simp)]
  simp only [List.drop_succ_cons, List.drop_zero, List.reverse_reverse]
  have hd : dir.data.reverse.isEmpty = false := by
    cases hdata : dir.data with
    | nil =>
      exfalso
      apply hne
      cases dir
      simp_all
    | cons c cs => simp [List.isEmpty_iff]
  rw [hd]
  rfl

theorem encodedName_no_slash (inputFile resultFilePath : String) :
    ∀ c ∈ (baseName inputFile ++ ".encoded." ++ suffix resultFilePath).data, c ≠ '/' := by
  intro c hc
  simp only [String.data_append, List.mem_append] at hc
  rcases hc with (hc | hc) | hc
  · exact baseName_no_slash inputFile c hc
  · intro h
    rw [h] at hc
    revert hc
    decide
  · exact suffix_no_slash resultFilePath c hc

/-- C24 as stated fails: the encoder of a track whose result file is
`/out/a.flac` is started on `/work/tmp/track01.wav` with the output file
`/work/tmp/track01.encoded.flac`, whose file name is not `a.flac`. -/
theorem encoder_out_file_not_result_name :
    (oneTrackStart.startEncoder sampleTrackA "/work/tmp/track01.wav").events =
        [Event.encoderStarted 0 "/work/tmp/track01.wav" "/work/tmp/track01.encoded.flac"
          false] ∧
      fileName "/work/tmp/track01.encoded.flac" ≠ fileName sampleTrackA.resultFilePath := by
  decide

/-- C24, amended: with a temporary directory whose path is not empty and does
not end in `/`, `startEncoder` starts one encoder, on the input file, whose
output file lies directly inside the temporary directory and whose file name is
the base name of the input file, then `.encoded.`, then the extension of the
result file of the track. -/
theorem encoder_out_file (s : DiscPipeline) (track : ConvTrack) (inputFile : String)
    (hdir : s.mTmpDir.data.getLast? ≠ some '/') (hne : s.mTmpDir ≠ "") :
    ∃ outFile,
      (s.startEncoder track inputFile).events =
        s.events ++ [Event.encoderStarted track.index inputFile outFile
          (decide (s.mProfile.gainType ≠ GainType.Disable))] ∧
      outFile = s.mTmpDir ++ "/" ++
        (baseName inputFile ++ ".encoded." ++ suffix track.resultFilePath) ∧
      fileName outFile = baseName inputFile ++ ".encoded." ++ suffix track.resultFilePath ∧
      dirName outFile = s.mTmpDir :=
  ⟨filePath s.mTmpDir (baseName inputFile ++ ".encoded." ++ suffix track.resultFilePath),
    rfl,
    filePath_of_plain _ _ (encodedName_no_slash inputFile track.resultFilePath) hdir,
    fileName_filePath _ _ (encodedName_no_slash inputFile track.resultFilePath) hdir,
    dirName_filePath _ _ (encodedName_no_slash inputFile track.resultFilePath) hdir hne⟩

/-- C24, witness: the encoder of the first sample track. -/
theorem encoder_out_file_witness :
    ∃ outFile,
      (oneTrackStart.startEncoder sampleTrackA "/work/tmp/track01.wav").events =
        oneTrackStart.events ++ [Event.encoderStarted sampleTrackA.index
          "/work/tmp/track01.wav" outFile
          (decide (oneTrackStart.mProfile.gainType ≠ GainType.Disable))] ∧
      outFile = oneTrackStart.mTmpDir ++ "/" ++
        (baseName "/work/tmp/track01.wav" ++ ".encoded." ++ suffix sampleTrackA.resultFilePath) ∧
      fileName outFile =
        baseName "/work/tmp/track01.wav" ++ ".encoded." ++ suffix sampleTrackA.resultFilePath ∧
      dirName outFile = oneTrackStart.mTmpDir :=
  encoder_out_file oneTrackStart sampleTrackA "/work/tmp/track01.wav" (by decide) (by decide)

/-! ## C23: encoders are started from the encode queue -/

theorem DiscPipeline.keepsEncoders_same (s : DiscPipeline) : s.KeepsEncoders s :=
  ⟨rfl, Or.inl rfl⟩

theorem DiscPipeline.keepsEncoders_andThen {a b c : DiscPipeline} (h1 : a.KeepsEncoders b)
    (h2 : b.KeepsEncoders c) : a.KeepsEncoders c := by
  refine ⟨h2.1.trans h1.1, ?_⟩
  rcases h2.2 with h | h
  · rcases h1.2 with g | g
    · exact Or.inl (h.trans g)
    · exact Or.inr (h.trans g)
  · exact Or.inr h

theorem DiscPipeline.keepsEncoders_emit (s : DiscPipeline) (e : Event)
    (h : e.encoderStart = none) : s.KeepsEncoders (s.emit e) := by
  refine ⟨?_, Or.inl rfl⟩
  unfold startedEncoders
  rw [DiscPipeline.events_emit, List.filterMap_append]
  simp [h]

theorem DiscPipeline.keepsEncoders_of_eq (s s' : DiscPipeline) (h1 : s'.events = s.events)
    (h2 : s'.mEncoderRequests = s.mEncoderRequests) : s.KeepsEncoders s' :=
  ⟨by rw [h1], Or.inl h2⟩

theorem DiscPipeline.keepsEncoders_ite_emit (s : DiscPipeline) (c : Prop) [Decidable c]
    (e : Event) (h : e.encoderStart = none) : s.KeepsEncoders (if c then s.emit e else s) := by
  split_ifs
  · exact s.keepsEncoders_emit e h
  · exact s.keepsEncoders_same

theorem DiscPipeline.keepsEncoders_trackProgress (s : DiscPipeline) (track : ConvTrack)
    (state : TrackState) (percent : Int) :
    s.KeepsEncoders (s.trackProgress track state percent) := by
  unfold DiscPipeline.trackProgress
  split_ifs
  · exact s.keepsEncoders_same
  · exact DiscPipeline.keepsEncoders_andThen (s.keepsEncoders_of_eq _ rfl rfl)
      (DiscPipeline.keepsEncoders_emit _ _ rfl)

theorem DiscPipeline.keepsEncoders_interrupt (s : DiscPipeline) (st : TrackState) :
    s.KeepsEncoders (s.interrupt st) := by
  refine ⟨?_, Or.inr (s.mEncoderRequests_interrupt st)⟩
  obtain ⟨extra, h1, h2⟩ := s.events_interrupt st
  unfold startedEncoders
  rw [h1, List.filterMap_append]
  have : extra.filterMap Event.encoderStart = [] := by
    rw [List.filterMap_eq_nil_iff]
    intro e he
    obtain ⟨i, hi⟩ := h2 e he
    rw [hi]
    rfl
  rw [this, List.append_nil]

theorem DiscPipeline.keepsEncoders_stop (s : DiscPipeline) : s.KeepsEncoders s.stop := by
  unfold DiscPipeline.stop
  refine DiscPipeline.keepsEncoders_andThen ?_ (DiscPipeline.keepsEncoders_emit _ _ rfl)
  refine DiscPipeline.keepsEncoders_andThen ?_ (DiscPipeline.keepsEncoders_emit _ _ rfl)
  refine DiscPipeline.keepsEncoders_andThen ?_ (DiscPipeline.keepsEncoders_emit _ _ rfl)
  exact DiscPipeline.keepsEncoders_interrupt _ _

theorem DiscPipeline.keepsEncoders_trackError (s : DiscPipeline) (track : ConvTrack)
    (message : String) : s.KeepsEncoders (s.trackError track message) := by
  unfold DiscPipeline.trackError
  simp only []
  refine DiscPipeline.keepsEncoders_andThen ?_ (DiscPipeline.keepsEncoders_emit _ _ rfl)
  refine DiscPipeline.keepsEncoders_andThen ?_ (DiscPipeline.keepsEncoders_emit _ _ rfl)
  refine DiscPipeline.keepsEncoders_andThen ?_ (DiscPipeline.keepsEncoders_emit _ _ rfl)
  refine DiscPipeline.keepsEncoders_andThen ?_ (DiscPipeline.keepsEncoders_emit _ _ rfl)
  refine DiscPipeline.keepsEncoders_andThen ?_ (DiscPipeline.keepsEncoders_interrupt _ _)
  refine DiscPipeline.keepsEncoders_andThen ?_ (DiscPipeline.keepsEncoders_emit _ _ rfl)
  exact s.keepsEncoders_of_eq _ rfl rfl

theorem DiscPipeline.keepsEncoders_trackDone (env : Env) (s : DiscPipeline) (track : ConvTrack)
    (outFileName : String) : s.KeepsEncoders (s.trackDone env track outFileName) := by
  unfold DiscPipeline.trackDone
  simp only []
  refine DiscPipeline.keepsEncoders_andThen ?_ (DiscPipeline.keepsEncoders_ite_emit _ _ _ rfl)
  refine DiscPipeline.keepsEncoders_andThen ?_ (DiscPipeline.keepsEncoders_emit _ _ rfl)
  refine DiscPipeline.keepsEncoders_andThen ?_ (DiscPipeline.keepsEncoders_emit _ _ rfl)
  refine DiscPipeline.keepsEncoders_andThen ?_ (DiscPipeline.keepsEncoders_of_eq _ _ rfl rfl)
  cases env.renameError outFileName track.resultFilePath with
  | none =>
    refine DiscPipeline.keepsEncoders_andThen ?_ (DiscPipeline.keepsEncoders_emit _ _ rfl)
    exact DiscPipeline.keepsEncoders_emit _ _ rfl
  | some err =>
    refine DiscPipeline.keepsEncoders_andThen ?_ (DiscPipeline.keepsEncoders_trackError _ _ _)
    refine DiscPipeline.keepsEncoders_andThen ?_ (DiscPipeline.keepsEncoders_emit _ _ rfl)
    exact DiscPipeline.keepsEncoders_emit _ _ rfl

theorem DiscPipeline.keepsEncoders_writeAlbumGainLoop (env : Env) (requests : List Request) :
    ∀ s : DiscPipeline, s.KeepsEncoders (requests.foldl (DiscPipeline.albumTagged env) s) := by
  induction requests with
  | nil => intro s; exact s.keepsEncoders_same
  | cons r rs ih =>
    intro s
    simp only [List.foldl_cons]
    refine DiscPipeline.keepsEncoders_andThen ?_ (ih _)
    unfold DiscPipeline.albumTagged
    refine DiscPipeline.keepsEncoders_andThen ?_ (DiscPipeline.keepsEncoders_trackDone env _ _ _)
    exact DiscPipeline.keepsEncoders_emit _ _ rfl

theorem DiscPipeline.keepsEncoders_writeGain (env : Env) (s : DiscPipeline) (track : ConvTrack)
    (fileName : String) (trackGain : GainResult) :
    s.KeepsEncoders (s.writeGain env track fileName trackGain).1 := by
  have hb : s.KeepsEncoders
      ((s.emit (Event.trackReplayGain fileName trackGain)).bufferAlbumGain track fileName
        trackGain) := by
    unfold DiscPipeline.bufferAlbumGain
    simp only []
    refine DiscPipeline.keepsEncoders_andThen ?_ (DiscPipeline.keepsEncoders_of_eq _ _ rfl rfl)
    refine DiscPipeline.keepsEncoders_andThen ?_ (DiscPipeline.keepsEncoders_trackProgress _ _ _ _)
    exact DiscPipeline.keepsEncoders_andThen
      (s.keepsEncoders_emit (Event.trackReplayGain fileName trackGain) rfl)
      (DiscPipeline.keepsEncoders_of_eq _ _ rfl rfl)
  rcases s.writeGain_fst_cases env track fileName trackGain with e | e | e | ⟨done, _, e⟩ <;>
    rw [e]
  · exact s.keepsEncoders_same
  · exact DiscPipeline.keepsEncoders_andThen
      (s.keepsEncoders_emit (Event.trackReplayGain fileName trackGain) rfl)
      (DiscPipeline.keepsEncoders_trackDone env _ _ _)
  · exact hb
  · exact DiscPipeline.keepsEncoders_andThen hb
      (DiscPipeline.keepsEncoders_writeAlbumGainLoop env _ _)

theorem DiscPipeline.keepsEncoders_startSplitter (s : DiscPipeline) (request : SplitterRequest)
    (tasksError : Option String) : s.KeepsEncoders (s.startSplitter request tasksError) := by
  have base : s.KeepsEncoders
      ((s.emit (Event.splitterStarted request)).markSplitting request.tracks) := by
    refine DiscPipeline.keepsEncoders_andThen
      (s.keepsEncoders_emit (Event.splitterStarted request) rfl) ?_
    exact DiscPipeline.keepsEncoders_of_eq _ _
      (DiscPipeline.markSplitting_frame request.tracks _).1
      (DiscPipeline.markSplitting_frame request.tracks _).2.2.1
  rw [DiscPipeline.startSplitter_eq]
  split
  · exact DiscPipeline.keepsEncoders_andThen base (DiscPipeline.keepsEncoders_trackError _ _ _)
  · exact base

theorem DiscPipeline.keepsEncoders_sublist {s s' : DiscPipeline} (h : s.KeepsEncoders s') :
    (startedEncoders s'.events ++ queuedEncoders s'.mEncoderRequests).Sublist
      (startedEncoders s.events ++ queuedEncoders s.mEncoderRequests) := by
  rw [h.1]
  rcases h.2 with g | g
  · rw [g]
  · rw [g]
    exact List.Sublist.append (List.Sublist.refl _) (List.nil_sublist _)

theorem startedEncoders_map_encoderEvent (s : DiscPipeline) (l : List Request) :
    startedEncoders (l.map s.encoderEvent) = queuedEncoders l := by
  induction l with
  | nil => rfl
  | cons r rs ih =>
    unfold startedEncoders queuedEncoders at ih ⊢
    simp only [List.map_cons, List.filterMap_cons]
    rw [ih]
    rfl

/-- `startWorker` moves requests from the head of the encode queue to the
started encoders, or starts none and keeps or empties the queue. -/
theorem DiscPipeline.encoders_startWorker (s : DiscPipeline) (splitterCount count : Int)
    (tasksError : Option String) :
    (startedEncoders (s.startWorker splitterCount count tasksError).1.events ++
      queuedEncoders (s.startWorker splitterCount count tasksError).1.mEncoderRequests).Sublist
      (startedEncoders s.events ++ queuedEncoders s.mEncoderRequests) := by
  rcases s.startWorker_cases splitterCount count tasksError with
    e | ⟨req, rest, _, _, _, _, e⟩ | ⟨_, _, _, e⟩
  · rw [e]
  · rw [e]
    exact DiscPipeline.keepsEncoders_sublist
      (DiscPipeline.keepsEncoders_andThen
        (s.keepsEncoders_of_eq { s with mSplitterRequests := rest } rfl rfl)
        (DiscPipeline.keepsEncoders_startSplitter _ _ _))
  · rw [e, DiscPipeline.startEncoders_eq]
    simp only []
    unfold startedEncoders
    rw [List.filterMap_append]
    have h := startedEncoders_map_encoderEvent s
      (s.mEncoderRequests.take (min count.toNat s.mEncoderRequests.length))
    unfold startedEncoders at h
    rw [h, List.append_assoc]
    unfold queuedEncoders
    rw [← List.map_append, List.take_append_drop]

/-- After a step, the started encoders followed by the encode queue are a
sublist of what they were before it followed by what the step enqueues. -/
theorem DiscPipeline.encoders_step (env : Env) (s : DiscPipeline) (op : Op) :
    (startedEncoders (s.step env op).events ++
      queuedEncoders (s.step env op).mEncoderRequests).Sublist
      (startedEncoders s.events ++ queuedEncoders s.mEncoderRequests ++
        enqueuedEncoders [op]) := by
  have hk : ∀ s' : DiscPipeline, s.KeepsEncoders s' →
      (startedEncoders s'.events ++ queuedEncoders s'.mEncoderRequests).Sublist
        (startedEncoders s.events ++ queuedEncoders s.mEncoderRequests ++ []) := by
    intro s' h
    rw [List.append_nil]
    exact DiscPipeline.keepsEncoders_sublist h
  cases op with
  | startWorker splitterCount count tasksError =>
    show List.Sublist _ (_ ++ [])
    rw [List.append_nil]
    exact s.encoders_startWorker _ _ _
  | addEncoderRequest track inputFile =>
    have h : DiscPipeline.KeepsEncoders
        { s with mEncoderRequests := s.mEncoderRequests ++ [⟨track, inputFile⟩] }
        (s.addEncoderRequest track inputFile) := by
      unfold DiscPipeline.addEncoderRequest
      exact DiscPipeline.keepsEncoders_andThen (DiscPipeline.keepsEncoders_trackProgress _ _ _ _)
        (DiscPipeline.keepsEncoders_emit _ _ rfl)
    have h2 := DiscPipeline.keepsEncoders_sublist h
    simp only [queuedEncoders, List.map_append, List.map_cons, List.map_nil] at h2
    rw [List.append_assoc]
    exact h2
  | trackProgress track state percent => exact hk _ (s.keepsEncoders_trackProgress _ _ _)
  | writeGain track fileName trackGain => exact hk _ (s.keepsEncoders_writeGain env _ _ _)
  | trackDone track outFileName => exact hk _ (s.keepsEncoders_trackDone env _ _)
  | trackError track message => exact hk _ (s.keepsEncoders_trackError _ _)
  | interrupt state => exact hk _ (s.keepsEncoders_interrupt _)
  | stop => exact hk _ s.keepsEncoders_stop

theorem enqueuedEncoders_cons (op : Op) (ops : List Op) :
    enqueuedEncoders (op :: ops) = enqueuedEncoders [op] ++ enqueuedEncoders ops := by
  unfold enqueuedEncoders
  rw [← List.filterMap_append]
  rfl

theorem DiscPipeline.encoders_run (env : Env) (ops : List Op) :
    ∀ s : DiscPipeline,
      (startedEncoders (s.run env ops).events ++
        queuedEncoders (s.run env ops).mEncoderRequests).Sublist
        (startedEncoders s.events ++ queuedEncoders s.mEncoderRequests ++
          enqueuedEncoders ops) := by
  induction ops with
  | nil =>
    intro s
    show List.Sublist _ (_ ++ [])
    rw [List.append_nil]
    exact List.Sublist.refl _
  | cons op ops ih =>
    intro s
    have h1 := ih (s.step env op)
    have h2 := (s.encoders_step env op).append (List.Sublist.refl (enqueuedEncoders ops))
    rw [enqueuedEncoders_cons, ← List.append_assoc]
    exact h1.trans h2

theorem DiscPipeline.run_append (env : Env) (s : DiscPipeline) (a b : List Op) :
    s.run env (a ++ b) = (s.run env a).run env b := by
  unfold DiscPipeline.run
  rw [List.foldl_append]

theorem DiscPipeline.mTracks_step (env : Env) (s : DiscPipeline) (op : Op) :
    (s.step env op).mTracks = s.mTracks := by
  cases op with
  | startWorker splitterCount count tasksError => exact (s.advances_startWorker _ _ _).1
  | addEncoderRequest track inputFile => exact (s.sameConfig_addEncoderRequest _ _).2.1
  | trackProgress track state percent => exact (s.sameConfig_trackProgress _ _ _).2.1
  | writeGain track fileName trackGain => exact (s.writeGain_frame env _ _ _).2.1
  | trackDone track outFileName => exact (s.sameConfig_trackDone env _ _).2.1
  | trackError track message => exact (s.sameConfig_trackError _ _).2.1
  | interrupt state => exact (s.sameConfig_interrupt _).2.1
  | stop => exact s.sameConfig_stop.2.1

theorem DiscPipeline.mTracks_run (env : Env) (ops : List Op) :
    ∀ s : DiscPipeline, (s.run env ops).mTracks = s.mTracks := by
  induction ops with
  | nil => intro s; rfl
  | cons op ops ih =>
    intro s
    unfold DiscPipeline.run at ih ⊢
    simp only [List.foldl_cons]
    rw [ih, DiscPipeline.mTracks_step]

theorem DiscPipeline.admissibleRun_append (env : Env) (a b : List Op) :
    ∀ s : DiscPipeline, s.admissibleRun env (a ++ b) = true →
      s.admissibleRun env a = true ∧ (s.run env a).admissibleRun env b = true := by
  induction a with
  | nil => intro s h; exact ⟨rfl, h⟩
  | cons op ops ih =>
    intro s h
    have h' : (s.admits op && DiscPipeline.admissibleRun env (s.step env op) (ops ++ b)) = true := h
    simp only [Bool.and_eq_true] at h'
    obtain ⟨h1, h2⟩ := ih _ h'.2
    refine ⟨?_, h2⟩
    show (s.admits op && DiscPipeline.admissibleRun env (s.step env op) ops) = true
    rw [h'.1, h1]
    rfl

/-- In a run that the wiring allows and that shows a splitter start, there is a
first operation that starts a splitter. -/
theorem DiscPipeline.first_splitter_start (env : Env) (ops : List Op) :
    ∀ s : DiscPipeline, s.admissibleRun env ops = true → splitterStarts s.events = 0 →
      0 < splitterStarts (s.run env ops).events →
      ∃ before op after, ops = before ++ op :: after ∧
        s.admissibleRun env before = true ∧
        splitterStarts (s.run env before).events = 0 ∧
        (s.run env before).admits op = true ∧
        0 < splitterStarts ((s.run env before).step env op).events := by
  induction ops with
  | nil =>
    intro s _ h0 hpos
    rw [show s.run env [] = s from rfl] at hpos
    omega
  | cons op ops ih =>
    intro s hadm h0 hpos
    unfold DiscPipeline.admissibleRun at hadm
    simp only [Bool.and_eq_true] at hadm
    by_cases hs : 0 < splitterStarts (s.step env op).events
    · exact ⟨[], op, ops, rfl, rfl, h0, hadm.1, hs⟩
    · obtain ⟨before, op', after, e, h1, h2, h3, h4⟩ := ih (s.step env op) hadm.2 (by omega) hpos
      refine ⟨op :: before, op', after, by rw [e]; rfl, ?_, h2, h3, h4⟩
      unfold DiscPipeline.admissibleRun
      simp only [Bool.and_eq_true]
      exact ⟨hadm.1, h1⟩

/-- The operation that starts the first splitter is a `startWorker` call that
takes a request from the split queue; it marks the tracks of the request
Splitting, and a failure of the short tasks is handled after that. -/
theorem DiscPipeline.splitter_start_step (env : Env) (s : DiscPipeline) (op : Op)
    (hadm : s.admits op = true) (h0 : splitterStarts s.events = 0)
    (hpos : 0 < splitterStarts (s.step env op).events) :
    ∃ splitterCount count tasksError req rest,
      op = Op.startWorker splitterCount count tasksError ∧
      s.mSplitterRequests = req :: rest ∧
      splitterStarts (({ s with mSplitterRequests := rest }.emit
        (Event.splitterStarted req)).markSplitting req.tracks).events = 1 ∧
      (∀ u ∈ req.tracks, (({ s with mSplitterRequests := rest }.emit
        (Event.splitterStarted req)).markSplitting req.tracks).trackState u.index =
          TrackState.Splitting) ∧
      (s.step env op = ({ s with mSplitterRequests := rest }.emit
          (Event.splitterStarted req)).markSplitting req.tracks ∨
        ∃ t err, tasksError = some err ∧
          s.step env op = (({ s with mSplitterRequests := rest }.emit
            (Event.splitterStarted req)).markSplitting req.tracks).trackError t err) := by
  have hz : ¬ 0 < splitterStarts s.events := by omega
  cases op with
  | startWorker splitterCount count tasksError =>
    rcases s.startWorker_cases splitterCount count tasksError with
      e | ⟨req, rest, hq, _, _, _, e⟩ | ⟨_, _, _, e⟩
    · exfalso
      have : s.step env (Op.startWorker splitterCount count tasksError) = s := by
        show (s.startWorker splitterCount count tasksError).1 = s
        rw [e]
      rw [this] at hpos
      omega
    · refine ⟨splitterCount, count, tasksError, req, rest, rfl, hq, ?_, ?_, ?_⟩
      · rw [(DiscPipeline.markSplitting_frame req.tracks _).1, DiscPipeline.events_emit]
        unfold splitterStarts at h0 ⊢
        rw [List.countP_append]
        show List.countP Event.isSplitterStart s.events + _ = 1
        rw [h0]
        rfl
      · intro u hu
        rw [DiscPipeline.trackState_markSplitting, if_pos ⟨u, hu, rfl⟩]
      · have hstep : s.step env (Op.startWorker splitterCount count tasksError) =
            DiscPipeline.startSplitter { s with mSplitterRequests := rest } req tasksError := by
          show (s.startWorker splitterCount count tasksError).1 = _
          rw [e]
        rw [hstep, DiscPipeline.startSplitter_eq]
        cases tasksError with
        | none => exact Or.inl rfl
        | some err =>
          cases htr : req.tracks with
          | nil => exact Or.inl rfl
          | cons t ts => exact Or.inr ⟨t, err, rfl, rfl⟩
    · exfalso
      have : splitterStarts (s.step env (Op.startWorker splitterCount count tasksError)).events =
          splitterStarts s.events := by
        show splitterStarts (s.startWorker splitterCount count tasksError).1.events = _
        rw [e]
        exact DiscPipeline.splitterStarts_startEncoders _ _ _
      omega
  | addEncoderRequest track inputFile => simp [DiscPipeline.admits, hz] at hadm
  | trackProgress track state percent => simp [DiscPipeline.admits, hz] at hadm
  | writeGain track fileName trackGain => simp [DiscPipeline.admits, hz] at hadm
  | trackDone track outFileName => simp [DiscPipeline.admits, hz] at hadm
  | trackError track message => simp [DiscPipeline.admits, hz] at hadm
  | interrupt state => simp [DiscPipeline.admits] at hadm
  | stop =>
    exfalso
    have : splitterStarts (s.step env Op.stop).events = splitterStarts s.events :=
      s.splitterStarts_stop
    omega

theorem DiscPipeline.create_mEncoderRequests {profile : Profile} {tracks : List ConvTrack}
    {dir tmpDir : String} {dirError : String → Option String} {x : DiscPipeline}
    (h : DiscPipeline.create profile tracks dir tmpDir dirError = Except.ok x) :
    x.mEncoderRequests = [] := by
  unfold DiscPipeline.create at h
  cases hd : dirError dir with
  | some err => simp [hd] at h
  | none =>
    simp only [hd] at h
    cases ha : DiscPipeline.addTracks dirError
        { mProfile := profile, mTracks := [], mTmpDir := tmpDir, mTrackStates := StateMap.empty,
          mSplitterRequests := [], mEncoderRequests := [], mAlbumGainRequests := [],
          mAlbumGain := [], mInterrupted := false, events := [] } tracks with
    | error err => simp [ha] at h
    | ok s' =>
      simp only [ha] at h
      obtain ⟨s'', h1, _, _, _, _, h6, _, _, _⟩ := DiscPipeline.addTracks_ok dirError tracks _
        (DiscPipeline.addTracks_dirs dirError tracks _ _ ha)
      rw [ha] at h1
      cases h1
      unfold DiscPipeline.addSpliterRequest at h
      cases hp : s'.hasPregap with
      | none => simp [hp] at h
      | some pregap =>
        simp only [hp, Except.ok.injEq] at h
        rw [← h]
        exact h6

theorem enqueuedEncoders_append_startWorker (ops : List Op) (splitterCount count : Int)
    (tasksError : Option String) :
    enqueuedEncoders (ops ++ [Op.startWorker splitterCount count tasksError]) =
      enqueuedEncoders ops := by
  unfold enqueuedEncoders
  rw [List.filterMap_append]
  simp [Op.enqueued]

/-- Only `startWorker` starts encoders. -/
theorem DiscPipeline.startedEncoders_step (env : Env) (s : DiscPipeline) (op : Op)
    (h : ∀ splitterCount count tasksError, op ≠ Op.startWorker splitterCount count tasksError) :
    startedEncoders (s.step env op).events = startedEncoders s.events := by
  cases op with
  | startWorker splitterCount count tasksError => exact absurd rfl (h _ _ _)
  | addEncoderRequest track inputFile =>
    have hk : DiscPipeline.KeepsEncoders
        { s with mEncoderRequests := s.mEncoderRequests ++ [⟨track, inputFile⟩] }
        (s.addEncoderRequest track inputFile) := by
      unfold DiscPipeline.addEncoderRequest
      exact DiscPipeline.keepsEncoders_andThen (DiscPipeline.keepsEncoders_trackProgress _ _ _ _)
        (DiscPipeline.keepsEncoders_emit _ _ rfl)
    exact hk.1
  | trackProgress track state percent => exact (s.keepsEncoders_trackProgress _ _ _).1
  | writeGain track fileName trackGain => exact (s.keepsEncoders_writeGain env _ _ _).1
  | trackDone track outFileName => exact (s.keepsEncoders_trackDone env _ _).1
  | trackError track message => exact (s.keepsEncoders_trackError _ _).1
  | interrupt state => exact (s.keepsEncoders_interrupt _).1
  | stop => exact s.keepsEncoders_stop.1

/-- The started encoders of a run from a constructed pipeline are a sublist of
what the run enqueued. -/
theorem DiscPipeline.startedEncoders_run {profile : Profile} {tracks : List ConvTrack}
    {dir tmpDir : String} {dirError : String → Option String} {s0 : DiscPipeline}
    (hc : DiscPipeline.create profile tracks dir tmpDir dirError = Except.ok s0) (env : Env)
    (ops : List Op) :
    (startedEncoders (s0.run env ops).events).Sublist (enqueuedEncoders ops) := by
  have h := DiscPipeline.encoders_run env ops s0
  rw [(DiscPipeline.create_eq_ok hc).2.1, DiscPipeline.create_mEncoderRequests hc] at h
  exact (List.sublist_append_left _ _).trans h

/-- C23: in every run from a constructed pipeline, the encoders started so far
are, in their order, a sublist of the (track, input file) pairs that the
encode-ready events of the run enqueued, so each was enqueued before and none is
started more often than it was enqueued; the encoders that a `startWorker` call
starts were enqueued by the operations before that call, and no other operation
starts one.  When the wiring allows an encode-ready event after the run, the run
holds a `startWorker` call that started the first splitter, from a request with
all the tracks of the run, and marked every one of those tracks Splitting before
anything else was done with them. -/
theorem split_precedes_encode (env : Env) (profile : Profile) (tracks : List ConvTrack)
    (dir tmpDir : String) (dirError : String → Option String) (s0 : DiscPipeline)
    (hc : DiscPipeline.create profile tracks dir tmpDir dirError = Except.ok s0)
    (ops : List Op) :
    (startedEncoders (s0.run env ops).events).Sublist (enqueuedEncoders ops) ∧
    (∀ splitterCount count tasksError,
      (startedEncoders
        (s0.run env (ops ++ [Op.startWorker splitterCount count tasksError])).events).Sublist
        (enqueuedEncoders ops)) ∧
    (∀ op, (∀ splitterCount count tasksError,
        op ≠ Op.startWorker splitterCount count tasksError) →
      startedEncoders ((s0.run env ops).step env op).events =
        startedEncoders (s0.run env ops).events) ∧
    (∀ p, (startedEncoders (s0.run env ops).events).count p ≤ (enqueuedEncoders ops).count p) ∧
    (∀ track inputFile,
      s0.admissibleRun env (ops ++ [Op.addEncoderRequest track inputFile]) = true →
      ∃ before splitterCount count tasksError after req rest marked,
        ops = before ++ Op.startWorker splitterCount count tasksError :: after ∧
        splitterStarts (s0.run env before).events = 0 ∧
        (s0.run env before).mSplitterRequests = req :: rest ∧
        req.tracks = s0.mTracks ∧
        marked = ({ s0.run env before with mSplitterRequests := rest }.emit
          (Event.splitterStarted req)).markSplitting req.tracks ∧
        splitterStarts marked.events = 1 ∧
        (∀ u ∈ s0.mTracks, marked.trackState u.index = TrackState.Splitting) ∧
        ((s0.run env before).step env (Op.startWorker splitterCount count tasksError) = marked ∨
          ∃ t err, tasksError = some err ∧
            (s0.run env before).step env (Op.startWorker splitterCount count tasksError) =
              marked.trackError t err)) := by
  refine ⟨DiscPipeline.startedEncoders_run hc env ops, ?_, ?_, ?_, ?_⟩
  · intro splitterCount count tasksError
    have h := DiscPipeline.startedEncoders_run hc env
      (ops ++ [Op.startWorker splitterCount count tasksError])
    rw [enqueuedEncoders_append_startWorker] at h
    exact h
  · intro op hop
    exact DiscPipeline.startedEncoders_step env _ op hop
  · intro p
    exact (DiscPipeline.startedEncoders_run hc env ops).count_le p
  · intro track inputFile hadm
    obtain ⟨hadm1, hadm2⟩ := DiscPipeline.admissibleRun_append env ops _ s0 hadm
    have hpos : 0 < splitterStarts (s0.run env ops).events := by
      have h : ((s0.run env ops).admits (Op.addEncoderRequest track inputFile) &&
          DiscPipeline.admissibleRun env
            ((s0.run env ops).step env (Op.addEncoderRequest track inputFile)) []) = true := hadm2
      simp only [Bool.and_eq_true, DiscPipeline.admits, decide_eq_true_eq] at h
      exact h.1
    have h0 : splitterStarts s0.events = 0 := by
      rw [(DiscPipeline.create_eq_ok hc).2.1]
      rfl
    obtain ⟨before, op, after, e, hb, hb0, hba, hbpos⟩ :=
      DiscPipeline.first_splitter_start env ops s0 hadm1 h0 hpos
    obtain ⟨splitterCount, count, tasksError, req, rest, hop, hq, h1, h2, h3⟩ :=
      DiscPipeline.splitter_start_step env (s0.run env before) op hba hb0 hbpos
    have hinv : (s0.run env before).WiringInvariant :=
      wiringInvariant_of_workerReachable
        ⟨profile, tracks, dir, tmpDir, dirError, s0, before, hc, hb, rfl⟩
    have htr : req.tracks = s0.mTracks := by
      rw [hinv.1 hb0 req (by rw [hq]; exact List.mem_cons_self _ _)]
      exact DiscPipeline.mTracks_run env before s0
    rw [hop] at e h3
    refine ⟨before, splitterCount, count, tasksError, after, req, rest, _, e, hb0, hq, htr, rfl,
      h1, ?_, h3⟩
    intro u hu
    rw [← htr] at hu
    exact h2 u hu

/-- C23, witness: two tracks are split, the first is reported ready and its
encoder is started. -/
theorem split_precedes_encode_witness :
    (startedEncoders (twoTrackStart.run renamesSucceed
      [Op.startWorker 1 2 none, Op.addEncoderRequest sampleTrackA "/work/tmp/a.wav",
        Op.startWorker 0 2 none]).events).Sublist
      (enqueuedEncoders [Op.startWorker 1 2 none,
        Op.addEncoderRequest sampleTrackA "/work/tmp/a.wav", Op.startWorker 0 2 none]) ∧
    startedEncoders (twoTrackStart.run renamesSucceed
      [Op.startWorker 1 2 none, Op.addEncoderRequest sampleTrackA "/work/tmp/a.wav",
        Op.startWorker 0 2 none]).events = [(0, "/work/tmp/a.wav")] ∧
    twoTrackStart.admissibleRun renamesSucceed
      ([Op.startWorker 1 2 none, Op.addEncoderRequest sampleTrackA "/work/tmp/a.wav",
        Op.startWorker 0 2 none] ++ [Op.addEncoderRequest sampleTrackB "/work/tmp/b.wav"]) =
      true :=
  ⟨(split_precedes_encode renamesSucceed sampleProfile [sampleTrackA, sampleTrackB] "/work"
      "/work/tmp" (fun _ => none) twoTrackStart rfl
      [Op.startWorker 1 2 none, Op.addEncoderRequest sampleTrackA "/work/tmp/a.wav",
        Op.startWorker 0 2 none]).1, by decide, by decide⟩

end Conv
